import Mathlib

/-!
# dsearch: the `calib` automaton engine (`src/calib/calib.hpp`)

A shallow embedding of the class `calib::Calib` and of the free function `modulo`.

* `std::vector<bool>` is `List Bool`; the grid `vector<vector<bool>>` is a list of columns,
  `grid[x][y]`, so the width is `grid.size()` and the height is `grid[0].size()`.
* `std::string` is `List Char`.
* Every `operator[]` of the source is a checked access here: an index outside the vector makes
  the embedded function return `none` (in C++ it is undefined behaviour).
* `unsigned` arithmetic whose result the code relies on is taken modulo `2^32`
  (`modulo`, the population sums, `size << 1`, the section bounds).
* A counted `for` loop whose bound does not change while it runs is `forLoop`.
-/

namespace calib

/-! ## Types -/

/-- The `ruleType` of the source: `vector<bool>` indexed by neighbour count. -/
abbrev ruleType := List Bool

/-- The `gridType` of the source: `vector<vector<bool>>`, outer index `x`, inner index `y`. -/
abbrev gridType := List (List Bool)

/-- The `Position` of the source: `array<unsigned, 2>`, `(x, y)`. -/
abbrev Position := Nat × Nat

/-- The `Object` of the source: `vector<Position>`. -/
abbrev Object := List Position

/-- The value `2^32`: `unsigned` is a 32-bit type. -/
def UINT : Nat := 4294967296

/-- Loop `for (i = lo; i < lo + n; i++) s = body(i, s)`; a failing body ends the run. -/
def forLoop {σ : Type} (body : Nat → σ → Option σ) : Nat → Nat → σ → Option σ
  | 0, _, s => some s
  | n + 1, lo, s =>
    match body lo s with
    | none => none
    | some s' => forLoop body n (lo + 1) s'

/-! ## Rule strings -/

/-- The loop `for (i=0; i<r.size(); i++) if (r[i]) out += (i+'0');` run from index `i` on the
remaining entries of the vector. -/
def appendDigits : ruleType → Nat → List Char → List Char
  | [], _, out => out
  | b :: rest, i, out =>
    appendDigits rest (i + 1) (if b then out ++ [Char.ofNat (i + 48)] else out)

/-- Source `Calib::rule_to_rulestring`. -/
def rule_to_rulestring (rule : ruleType × ruleType) : List Char :=
  if rule.1.length > 10 ∨ rule.2.length > 10 then
    "INVALID".toList
  else
    let out := ['B']
    let out := appendDigits rule.1 0 out
    let out := out ++ ['/', 'S']
    appendDigits rule.2 0 out

/-- Source `Calib::is_digit`. -/
def is_digit (chr : Char) : Bool :=
  decide ('0'.toNat ≤ chr.toNat) && decide (chr.toNat ≤ '9'.toNat)

/-- The `enum ParserState` local to `rulestring_to_rule`. -/
inductive ParserState where
  | inactive
  | birth
  | survive
  deriving DecidableEq, Repr

/-- The assignment `r[i] = true` on a `vector<bool>`: `none` when `i` is out of range. -/
def setBit (r : ruleType) (i : Nat) : Option ruleType :=
  if i < r.length then some (r.set i true) else none

/-- The character loop of `rulestring_to_rule`, on the characters not yet read. `prev` is
`ruleString[i-1]`, and `none` when `i == 0`. -/
def parseLoop : List Char → Option Char → ParserState → ruleType → ruleType →
    Option (ruleType × ruleType)
  | [], _, _, outBirthRule, outSurviveRule => some (outBirthRule, outSurviveRule)
  | chr :: rest, prev, state, outBirthRule, outSurviveRule =>
    if chr = 'B' ∨ chr = 'b' then
      parseLoop rest (some chr) ParserState.birth outBirthRule outSurviveRule
    else if chr = 'S' ∨ chr = 's' then
      match prev with
      | none => parseLoop rest (some chr) state outBirthRule outSurviveRule
      | some p =>
        if p ≠ '/' then parseLoop rest (some chr) state outBirthRule outSurviveRule
        else parseLoop rest (some chr) ParserState.survive outBirthRule outSurviveRule
    else
      match state with
      | ParserState.birth =>
        if is_digit chr then
          match setBit outBirthRule (chr.toNat - '0'.toNat) with
          | none => none
          | some b => parseLoop rest (some chr) state b outSurviveRule
        else parseLoop rest (some chr) state outBirthRule outSurviveRule
      | ParserState.survive =>
        if is_digit chr then
          match setBit outSurviveRule (chr.toNat - '0'.toNat) with
          | none => none
          | some s => parseLoop rest (some chr) state outBirthRule s
        else parseLoop rest (some chr) state outBirthRule outSurviveRule
      | ParserState.inactive => parseLoop rest (some chr) state outBirthRule outSurviveRule

/-- Source `Calib::rulestring_to_rule`: both outputs start as nine `false` entries. -/
def rulestring_to_rule (ruleString : List Char) : Option (ruleType × ruleType) :=
  parseLoop ruleString none ParserState.inactive (List.replicate 9 false) (List.replicate 9 false)

/-! ## Grid access -/

/-- Conversion of an `int` to `unsigned`: the value modulo `2^32`. -/
def toUnsigned (a : Int) : Nat := (a % 4294967296).toNat

/-- The cast `int(x)` of an `unsigned` value: two's complement. -/
def toInt (x : Nat) : Int :=
  if x % UINT < 2147483648 then ((x % UINT : Nat) : Int) else ((x % UINT : Nat) : Int) - 4294967296

/-- Source `modulo(const int a, const unsigned b)`, the free function: both branches are computed in `unsigned`
arithmetic, so `b+a` wraps modulo `2^32`. A zero divisor gives `none`. -/
def modulo (a : Int) (b : Nat) : Option Nat :=
  if b = 0 then none
  else if a > 0 then some (toUnsigned a % b)
  else some (((b + toUnsigned a) % UINT) % b)

/-- The member `neighborhood` (Moore); the class never assigns it. -/
def neighborhood : List (Int × Int) :=
  [(-1, -1), (0, -1), (1, -1), (-1, 0), (1, 0), (-1, 1), (0, 1), (1, 1)]

/-- The read `g[x][y]`. -/
def getCell (g : gridType) (x y : Nat) : Option Bool :=
  match g[x]? with
  | none => none
  | some col => col[y]?

/-- The write `g[x][y] = v`. -/
def setCell (g : gridType) (x y : Nat) (v : Bool) : Option gridType :=
  match g[x]? with
  | none => none
  | some col => if y < col.length then some (g.set x (col.set y v)) else none

/-- The class `Calib`: its data members, with the initial values of the source. -/
structure Calib where
  birthRule : ruleType := [false, false, false, true, false, false, false, false, false]
  surviveRule : ruleType := [false, false, true, true, false, false, false, false, false]
  numThreads : Nat := 1
  width : Nat := 0
  height : Nat := 0
  grid : gridType := []
  tmpGrid : gridType := []
  deriving DecidableEq, Repr

/-- The `resize(n)` of a `std::vector`: cut to `n` entries or padded with `d`. -/
def vecResize {α : Type} (v : List α) (n : Nat) (d : α) : List α :=
  v.take n ++ List.replicate (n - v.length) d

/-- Source `Calib::resize_grids` (the message on `std::cerr` is not modelled). -/
def Calib.resize_grids (c : Calib) : Calib :=
  if c.width = 0 ∨ c.height = 0 then c
  else
    let grid := (vecResize c.grid c.width []).map (fun col => vecResize col c.height false)
    { c with grid := grid, tmpGrid := grid }

/-- Source `Calib::set_size`. -/
def Calib.set_size (c : Calib) (newWidth newHeight : Nat) : Calib :=
  Calib.resize_grids { c with width := newWidth, height := newHeight }

/-- Source `Calib::set_rule`. -/
def Calib.set_rule (c : Calib) (newRule : ruleType × ruleType) : Calib :=
  { c with birthRule := newRule.1, surviveRule := newRule.2 }

/-- Source `Calib::set_num_threads`. -/
def Calib.set_num_threads (c : Calib) (newNumThreads : Nat) : Calib :=
  { c with numThreads := newNumThreads }

/-- Source `Calib::get_width`. -/
def Calib.get_width (c : Calib) : Nat := c.grid.length

/-- Source `Calib::get_height`: reads `grid[0]`. -/
def Calib.get_height (c : Calib) : Option Nat :=
  match c.grid[0]? with
  | none => none
  | some col => some col.length

/-- Source `Calib::get_state`. -/
def Calib.get_state (c : Calib) (x y : Nat) : Option Bool := getCell c.grid x y

/-- Source `Calib::set_state`. -/
def Calib.set_state (c : Calib) (x y : Nat) (state : Bool) : Option Calib :=
  match setCell c.grid x y state with
  | none => none
  | some g => some { c with grid := g }

/-- Source `Calib::add_size_all_sides`. -/
def Calib.add_size_all_sides (c : Calib) (size : Nat) : Calib :=
  let grid := c.grid.map
    (fun col => List.replicate size false ++ col ++ List.replicate size false)
  let emptyRow := List.replicate (grid.length + (size * 2) % UINT) false
  let grid := List.replicate size emptyRow ++ grid ++ List.replicate size emptyRow
  { c with grid := grid
           width := (c.width + (size * 2) % UINT) % UINT
           height := (c.height + (size * 2) % UINT) % UINT }

/-- The loop of `get_num_neighbors_of_state` over the remaining offsets. -/
def countLoop (grid : gridType) (x y : Nat) (state : Bool) :
    List (Int × Int) → Nat → Option Nat
  | [], sum => some sum
  | relativeNeighborPos :: rest, sum =>
    match modulo (toInt x + relativeNeighborPos.1) (grid.length % UINT), grid[0]? with
    | some newX, some col0 =>
      match modulo (toInt y + relativeNeighborPos.2) (col0.length % UINT) with
      | some newY =>
        match getCell grid newX newY with
        | some cell => countLoop grid x y state rest ((sum + (if cell = state then 1 else 0)) % UINT)
        | none => none
      | none => none
    | _, _ => none

/-- Source `Calib::get_num_neighbors_of_state`, on a grid. -/
def numNeighborsOfState (grid : gridType) (x y : Nat) (state : Bool) : Option Nat :=
  countLoop grid x y state neighborhood 0

/-- Source `Calib::get_num_neighbors_of_state`. -/
def Calib.get_num_neighbors_of_state (c : Calib) (x y : Nat) (state : Bool) : Option Nat :=
  numNeighborsOfState c.grid x y state

/-- The loop of `get_neighbor_positions` over the remaining offsets. -/
def positionsLoop (grid : gridType) (x y : Nat) :
    List (Int × Int) → List Position → Option (List Position)
  | [], out => some out
  | relativeNeighborPos :: rest, out =>
    match modulo (toInt x + relativeNeighborPos.1) (grid.length % UINT), grid[0]? with
    | some newX, some col0 =>
      match modulo (toInt y + relativeNeighborPos.2) (col0.length % UINT) with
      | some newY => positionsLoop grid x y rest (out ++ [(newX, newY)])
      | none => none
    | _, _ => none

/-- Source `Calib::get_neighbor_positions`. -/
def Calib.get_neighbor_positions (c : Calib) (x y : Nat) : Option (List Position) :=
  positionsLoop c.grid x y neighborhood []

/-! ## Generation steps -/

/-- The body shared by the three update loops: count the live neighbours of `(x,y)` in `src`,
look the new state up in the rule by the state of `src[x][y]`, write it to `dst[x][y]`, and
add `dst[x][y]` to `sum` when `doSum`. -/
def stepCell (birthRule surviveRule : ruleType) (src dst : gridType) (x y : Nat)
    (doSum : Bool) (sum : Nat) : Option (gridType × Nat) :=
  match numNeighborsOfState src x y true, getCell src x y with
  | some numNeighbors, some cur =>
    match (if !cur then birthRule[numNeighbors]? else surviveRule[numNeighbors]?) with
    | some v =>
      match setCell dst x y v with
      | some dst' => some (dst', if doSum then (sum + v.toNat) % UINT else sum)
      | none => none
    | none => none
  | _, _ => none

/-- Source `Calib::update`: the next generation is written to a copy of the grid. -/
def Calib.update (c : Calib) (doSum : Bool) : Option (Calib × Nat) :=
  match c.grid[0]? with
  | none => none
  | some col0 =>
    match forLoop (fun y st =>
        forLoop (fun x st2 => stepCell c.birthRule c.surviveRule c.grid st2.1 x y doSum st2.2)
          c.grid.length 0 st) col0.length 0 (c.grid, 0) with
    | none => none
    | some (newGrid, sum) => some ({ c with grid := newGrid }, sum)

/-- Source `Calib::update_naively`: the grid is rewritten in place, cell by cell. -/
def Calib.update_naively (c : Calib) (doSum : Bool) : Option (Calib × Nat) :=
  match c.grid[0]? with
  | none => none
  | some col0 =>
    match forLoop (fun y st =>
        forLoop (fun x st2 => stepCell c.birthRule c.surviveRule st2.1 st2.1 x y doSum st2.2)
          c.grid.length 0 st) col0.length 0 (c.grid, 0) with
    | none => none
    | some (newGrid, sum) => some ({ c with grid := newGrid }, sum)

/-- Source `Calib::update_section`: the columns of one section, written to the scratch buffer
`tmpGrid`; `sum` is the section's own counter. -/
def Calib.update_section (c : Calib) (sectionIndex : Nat) (tmpGrid : gridType) (sum : Nat)
    (doSum : Bool) : Option (gridType × Nat) :=
  if c.numThreads = 0 then none
  else
    let sectionXStart := (sectionIndex * (c.grid.length / c.numThreads)) % UINT
    let sectionXEnd := (sectionXStart + c.grid.length / c.numThreads) % UINT
    match c.grid[0]? with
    | none => none
    | some col0 =>
      forLoop (fun y st =>
        forLoop (fun x st2 => stepCell c.birthRule c.surviveRule c.grid st2.1 x y doSum st2.2)
          (sectionXEnd - sectionXStart) sectionXStart st) col0.length 0 (tmpGrid, sum)

/-- The thread started for one section,
`std::thread(&Calib::update_section, this, sectionIndex, std::ref(sectionSums[sectionIndex]), doSum)`:
it works on the shared scratch buffer and leaves its count in its own entry of `sectionSums`,
which starts at `0`. -/
def Calib.sectionThread (c : Calib) (doSum : Bool) (sectionIndex : Nat)
    (st : gridType × List Nat) : Option (gridType × List Nat) :=
  match Calib.update_section c sectionIndex st.1 0 doSum with
  | none => none
  | some (tmp, s) => some (tmp, st.2 ++ [s])

/-- Source `Calib::update_using_threads`. The sections write disjoint columns of `tmpGrid`
and only read `grid`, so the threads are run one after the other, in index order; after the
join the scratch buffer is copied to the grid and the counters are added up. -/
def Calib.update_using_threads (c : Calib) (doSum : Bool) : Option (Calib × Nat) :=
  match forLoop (Calib.sectionThread c doSum) c.numThreads 0 (c.tmpGrid, []) with
  | none => none
  | some (tmp, sectionSums) =>
    some ({ c with grid := tmp, tmpGrid := tmp },
          sectionSums.foldl (fun fullSum sum => (fullSum + sum) % UINT) 0)

/-- Source `Calib::fill_grid`. -/
def Calib.fill_grid (c : Calib) (state : Bool) : Option Calib :=
  match c.grid[0]? with
  | none => none
  | some col0 =>
    match forLoop (fun y g => forLoop (fun x g2 => setCell g2 x y state) c.grid.length 0 g)
        col0.length 0 c.grid with
    | none => none
    | some g => some { c with grid := g }

/-- Source `Calib::draw_object_to_grid`. -/
def Calib.draw_object_to_grid (c : Calib) (obj : Object) (offsetX offsetY : Nat) :
    Option Calib :=
  match obj.foldlM (fun g pos => setCell g ((pos.1 + offsetX) % UINT) ((pos.2 + offsetY) % UINT) true)
      c.grid with
  | none => none
  | some g => some { c with grid := g }

/-! ## Object extraction -/

/-- Source `value_in_vector`. -/
def value_in_vector {T : Type} [DecidableEq T] (elem : T) : List T → Bool
  | [] => false
  | element :: rest => if element = elem then true else value_in_vector elem rest

/-- The inner loop of `get_object_cells` over the remaining neighbour positions of one cell:
a position already in `out` is skipped, a live one is appended. -/
def visitNeighbors (grid : gridType) : List Position → Object → Option Object
  | [], out => some out
  | neighborPos :: rest, out =>
    if value_in_vector neighborPos out then visitNeighbors grid rest out
    else
      match getCell grid neighborPos.1 neighborPos.2 with
      | none => none
      | some true => visitNeighbors grid rest (out ++ [neighborPos])
      | some false => visitNeighbors grid rest out

/-- The outer loop `for (cellIndex; cellIndex < out.size(); cellIndex++)` of
`get_object_cells`. Its bound grows while it runs, so it is run on `fuel`: one unit per
iteration and one for the final test; `none` when the fuel is used up. -/
def objectLoop (c : Calib) : Nat → Nat → Object → Option Object
  | 0, _, _ => none
  | fuel + 1, cellIndex, out =>
    if cellIndex < out.length then
      match out[cellIndex]? with
      | none => none
      | some cellPos =>
        match Calib.get_neighbor_positions c cellPos.1 cellPos.2 with
        | none => none
        | some neighbors =>
          match visitNeighbors c.grid neighbors out with
          | none => none
          | some out' => objectLoop c fuel (cellIndex + 1) out'
    else some out

/-- Source `Calib::get_object_cells`, run on `fuel`. -/
def Calib.get_object_cells (c : Calib) (fuel : Nat) (x y : Nat) : Option Object :=
  objectLoop c fuel 0 [(x, y)]

/-! ## Pattern text -/

/-- Source `to_str` at `unsigned`: the decimal digits. -/
def to_str (val : Nat) : List Char := (Nat.repr val).toList

/-- Source `Calib::str_n_times`. -/
def str_n_times (str : List Char) : Nat → List Char
  | 0 => []
  | n + 1 => str_n_times str n ++ str

/-- The write `rows[r][k] = ch` on a `vector<string>`. -/
def setChar (rows : List (List Char)) (r k : Nat) (ch : Char) : Option (List (List Char)) :=
  match rows[r]? with
  | none => none
  | some row => if k < row.length then some (rows.set r (row.set k ch)) else none

/-- Source `Calib::object_to_rle_object`. -/
def object_to_rle_object (obj : Object) (x y : Nat) : Option (List Char) :=
  let rows := List.replicate y (str_n_times ['b'] x)
  match obj.foldlM (fun rows pos => setChar rows pos.2 pos.1 'o') rows with
  | none => none
  | some rows => some (rows.foldl (fun out row => out ++ (row ++ ['$'])) [] ++ ['!'])

/-- Source `Calib::object_to_rle`. -/
def object_to_rle (obj : Object) (rule : ruleType × ruleType) (x y : Nat) :
    Option (List Char) :=
  let out := "x=".toList ++ to_str x ++ ",y=".toList ++ to_str y ++ ",rule=".toList
    ++ rule_to_rulestring rule ++ ['\n']
  match object_to_rle_object obj x y with
  | none => none
  | some body => some (out ++ body)

/-! ## The soup search engine (`src/searchers.hpp`) -/

/-- The value `2^64`: `unsigned long`, the type `get_width()` returns. -/
def ULONG : Nat := 18446744073709551616

/-- The expression `std::ceil(n / 12.0)` (or `/ 20.0`) stored in an `unsigned`. For a 32-bit
`n` the `double` quotient is either the exact integer or lies strictly between two integers,
so the result is the integer ceiling of `n / k`. -/
def ceilDiv (n k : Nat) : Nat := (n + (k - 1)) / k

/-- The class `DeathSearcher`: its data members. `soupSize`, `initialGridSize` and
`sizeDiff` have the initial values of the source (`initialGridSize = soupSize`, which is `16`
at that point); the members the source leaves uninitialised start at `0` here. -/
structure DeathSearcher where
  nIters : Nat := 0
  batchSize : Nat := 0
  soupPercentAlive : Nat := 0
  resultFilename : List Char := []
  result : List Object := []
  soupSize : Nat := 16
  initialGridSize : Nat := 16
  sizeDiff : Nat := 0
  caTemplate : Calib := {}
  deriving DecidableEq, Repr

/-- The sizing `if` chain of the constructor, after `nIters` and `soupSize` are assigned:
it sets `initialGridSize` only when `nIters <= 6` and `sizeDiff` only otherwise; then
`initialGridSize += sizeDiff << 1`. -/
def DeathSearcher.sizeGrid (d : DeathSearcher) : DeathSearcher :=
  let d :=
    if d.nIters ≤ 6 then
      { d with initialGridSize := (d.soupSize + (d.nIters * 2) % UINT) % UINT }
    else if d.nIters ≥ 66 then
      { d with sizeDiff := ceilDiv d.nIters 20 }
    else
      { d with sizeDiff := ceilDiv d.nIters 12 }
  { d with initialGridSize := (d.initialGridSize + (d.sizeDiff * 2) % UINT) % UINT }

/-- Source `DeathSearcher::DeathSearcher` (the seeding of `rand` is not modelled). It fails
when the rule string makes the parser write out of range, or when the template grid has no
column for `fill_grid` to read. -/
def DeathSearcher.new (ruleString : List Char) (newNIters newSoupSize newBatchSize : Nat)
    (newResultFilename : List Char) (newSoupPercentAlive : Nat) : Option DeathSearcher :=
  match rulestring_to_rule ruleString with
  | none => none
  | some rule =>
    let d : DeathSearcher := {}
    let d := { d with caTemplate := d.caTemplate.set_rule rule }
    let d := { d with nIters := newNIters, soupSize := newSoupSize, batchSize := newBatchSize,
                      resultFilename := newResultFilename,
                      soupPercentAlive := newSoupPercentAlive % 256 }
    let d := d.sizeGrid
    let d := { d with caTemplate := d.caTemplate.set_size d.initialGridSize d.initialGridSize }
    match d.caTemplate.fill_grid false with
    | none => none
    | some ca => some { d with caTemplate := ca }

/-- Source `DeathSearcher::get_random_soup`. `draw k` is the value of
`unsigned(double(rand())/RAND_MAX * 100)` at the `k`-th call of `rand`. -/
def DeathSearcher.get_random_soup (d : DeathSearcher) (draw : Nat → Nat) : Object :=
  (List.range d.soupSize).flatMap (fun y =>
    (List.range d.soupSize).filterMap (fun x =>
      if draw (y * d.soupSize + x) < d.soupPercentAlive then some (x, y) else none))

/-- The growth test in the loop of `run_one_search`:
`const unsigned long gridSize = ca.get_width();`
`if (i+1 > gridSize - soupSize) ca.add_size_all_sides(sizeDiff);`
with `i+1` computed in `unsigned` and the difference in `unsigned long`. -/
def DeathSearcher.grow_if_needed (d : DeathSearcher) (i : Nat) (ca : Calib) : Calib :=
  let gridSize := ca.get_width
  if (i + 1) % UINT > (gridSize + ULONG - d.soupSize) % ULONG then
    ca.add_size_all_sides d.sizeDiff
  else ca

/-- The body of the loop of `run_one_search`: the growth test, then `ca.update(false)`. -/
def DeathSearcher.loopBody (d : DeathSearcher) (i : Nat) (ca : Calib) : Option Calib :=
  match (d.grow_if_needed i ca).update false with
  | none => none
  | some (ca', _) => some ca'

/-- The offset `initialGridSize/2 - soupSize/2` of `run_one_search`, an `unsigned`. -/
def DeathSearcher.soupOffset (d : DeathSearcher) : Nat :=
  (d.initialGridSize / 2 + UINT - d.soupSize / 2) % UINT

/-- The bound `nIters-1` of the loop of `run_one_search`, an `unsigned`: it wraps to
`2^32 - 1` when `nIters` is `0`. -/
def DeathSearcher.passes (d : DeathSearcher) : Nat :=
  if d.nIters = 0 then UINT - 1 else d.nIters - 1

/-- Source `DeathSearcher::run_one_search` after the soup is generated, as one thread of
`run_search_batch` runs it. `ca` is the copy of the template the function gets by value. The
call reads members that no thread writes (`nIters`, `soupSize`, `sizeDiff`,
`initialGridSize`), works on its own `ca`, and ends with its one access to memory that other
threads write, `result.push_back(soup)`. The value is the list of the soups the call passes
to `result.push_back`: `[soup]` for an extinct trial and `[]` otherwise. -/
def DeathSearcher.run_one_search_on (d : DeathSearcher) (soup : Object) (ca : Calib) :
    Option (List Object) :=
  match ca.draw_object_to_grid soup d.soupOffset d.soupOffset with
  | none => none
  | some ca =>
    match forLoop d.loopBody d.passes 0 ca with
    | none => none
    | some ca =>
      match ca.update true with
      | none => none
      | some (_, population) => if population = 0 then some [soup] else some []

/-- Source `DeathSearcher::run_one_search`; `draw` is what `rand()` gives the call. -/
def DeathSearcher.run_one_search (d : DeathSearcher) (draw : Nat → Nat) (ca : Calib) :
    Option (List Object) :=
  d.run_one_search_on (d.get_random_soup draw) ca

/-- Source `DeathSearcher::run_search_batch`: `batchSize` threads are started, each running
`run_one_search` on this searcher with its own copy of `caTemplate`, and then joined;
`draws k` is what `rand()` gives thread `k`. The threads share the member `result`, and
nothing orders the `push_back` of one thread against that of another (there is no lock, and
the joins come after every thread is started). So when two or more threads call
`result.push_back` the calls are a data race, undefined behaviour, `none`; when at most one
thread calls it, its soup is appended. -/
def DeathSearcher.run_search_batch (d : DeathSearcher) (draws : Nat → Nat → Nat) :
    Option DeathSearcher :=
  match (List.range d.batchSize).mapM (fun k => d.run_one_search (draws k) d.caTemplate) with
  | none => none
  | some pushes =>
    if pushes.flatten.length ≤ 1 then some { d with result := d.result ++ pushes.flatten }
    else none

/-! ## Concrete objects used in the checks -/

/-- Game of Life, `B3/S23`: the rule a `Calib` object starts with. -/
def lifeRule : ruleType × ruleType :=
  ([false, false, false, true, false, false, false, false, false],
   [false, false, true, true, false, false, false, false, false])

/-- A grid of `w` columns of `h` dead cells with the listed cells alive. -/
def gridOf (w h : Nat) (live : List Position) : gridType :=
  (List.range w).map (fun x => (List.range h).map (fun y => decide ((x, y) ∈ live)))

/-- A `Calib` object after `set_size(w,h)` and `set_state(x,y,1)` on the listed cells. -/
def calibOf (w h : Nat) (live : List Position) : Calib :=
  { (Calib.set_size {} w h) with grid := gridOf w h live }

/-- A searcher for two iterations of a `2 × 2` soup on a `6 × 6` template, rule `B3/S23`. -/
def smallSearcher : DeathSearcher :=
  { nIters := 2, soupSize := 2, initialGridSize := 6, caTemplate := calibOf 6 6 [] }

/-! ## Definitions used to state the results -/

/-- The set indices of the entries of `r`, numbered from `i`, in the order of the scan. -/
def setIndices : ruleType → Nat → List Nat
  | [], _ => []
  | b :: rest, i => if b then i :: setIndices rest (i + 1) else setIndices rest (i + 1)

/-- A rectangular grid of `W` columns of `H` cells each. -/
def Rect (g : gridType) (W H : Nat) : Prop :=
  g.length = W ∧ ∀ col ∈ g, col.length = H

instance (g : gridType) (W H : Nat) : Decidable (Rect g W H) := by
  unfold Rect
  infer_instance

/-- The non-negative mathematical remainder of `x + d` modulo `n`. -/
def wrapCoord (n x : Nat) (d : Int) : Nat := (((x : Int) + d) % (n : Int)).toNat

/-- The eight Moore offsets: every `(dx,dy)` with `dx, dy ∈ {-1,0,1}` other than `(0,0)`. -/
def mooreOffsets : List (Int × Int) :=
  [(-1, -1), (-1, 0), (-1, 1), (0, -1), (0, 1), (1, -1), (1, 0), (1, 1)]

/-- The number of Moore offsets whose cell, taken on the `W × H` torus, has state `s`. -/
def mooreCount (g : gridType) (W H x y : Nat) (s : Bool) : Nat :=
  mooreOffsets.countP (fun d => getCell g (wrapCoord W x d.1) (wrapCoord H y d.2) == some s)

/-- The state of `(x,y)` in the next generation of the `W × H` torus `g`: `birth[n]` for a
dead cell and `survive[n]` for a live one, `n` the number of live Moore neighbours. -/
def nextState (birthRule surviveRule : ruleType) (g : gridType) (W H x y : Nat) : Bool :=
  if getCell g x y = some true then surviveRule.getD (mooreCount g W H x y true) false
  else birthRule.getD (mooreCount g W H x y true) false

/-- The number of live cells of a grid. -/
def population (g : gridType) : Nat := (g.map (fun col => col.count true)).sum

/-- The components of an offset list all lie in `{-1, 0, 1}`. -/
def UnitOffsets (offs : List (Int × Int)) : Prop :=
  ∀ d ∈ offs, (d.1 = -1 ∨ d.1 = 0 ∨ d.1 = 1) ∧ (d.2 = -1 ∨ d.2 = 0 ∨ d.2 = 1)

/-- The number of cells alive in the next generation among the columns `[a, b)` of the
`W × H` torus `src`, counted row by row. -/
def sweepSum (bR sR : ruleType) (src : gridType) (W H a b : Nat) : Nat :=
  ∑ j in Finset.range H, ∑ k in Finset.Ico a b, (nextState bR sR src W H k j).toNat

/-- The rows of the pattern body as the text describes them: `h` rows of `w` characters,
`'o'` at column `x` of row `y` when `(x,y)` is in the object and `'b'` otherwise. -/
def patternRows (obj : Object) (w h : Nat) : List (List Char) :=
  (List.range h).map (fun y => (List.range w).map (fun x => if (x, y) ∈ obj then 'o' else 'b'))

/-- One step of a path of live cells on the `W × H` torus: `q` is a Moore neighbour of `p`
and `q` is alive. -/
def liveStep (g : gridType) (W H : Nat) (p q : Position) : Prop :=
  (∃ d ∈ mooreOffsets, q = (wrapCoord W p.1 d.1, wrapCoord H p.2 d.2)) ∧
    getCell g q.1 q.2 = some true

/-- The state of the frontier loop of `get_object_cells` before it works on index `i`:
`out` has no repeats, holds in-bounds cells reachable from the seed, among them the seed,
and holds every live neighbour of the cells before index `i`. -/
def Frontier (g : gridType) (W H : Nat) (seed : Position) (i : Nat) (out : Object) : Prop :=
  out.Nodup ∧ (∀ p ∈ out, p.1 < W ∧ p.2 < H) ∧
  (∀ p ∈ out, Relation.ReflTransGen (liveStep g W H) seed p) ∧ seed ∈ out ∧
  i ≤ out.length ∧
  (∀ k p, k < i → out[k]? = some p → ∀ q, liveStep g W H p q → q ∈ out)

/-- The next generation of the `W × H` torus `g`, cell by cell. -/
def nextGen (bR sR : ruleType) (g : gridType) (W H : Nat) : gridType :=
  (List.range W).map (fun x => (List.range H).map (fun y => nextState bR sR g W H x y))

/-- The number of the eight Moore offsets whose column and row both pass a test: `p` and `q`
are the tests at the offsets `-1`, `0`, `1` of the column and of the row. -/
def offsetCount (pm p0 pp qm q0 qp : Bool) : Nat :=
  (pm && qm).toNat + (pm && q0).toNat + (pm && qp).toNat + (p0 && qm).toNat
    + (p0 && qp).toNat + (pp && qm).toNat + (pp && q0).toNat + (pp && qp).toNat

/-- The next state of a cell under `B3/S23`, from its state and its live-neighbour count. -/
def lifeNext (alive : Bool) (n : Nat) : Bool :=
  if alive then lifeRule.2.getD n false else lifeRule.1.getD n false

/-- The grid of a trial after `k` passes of the loop of `run_one_search`, as the text
describes a pass: grow the square grid when the growth test asks for it, then take the next
generation. `g0` is the template with the soup stamped on it. -/
def DeathSearcher.trialGrid (d : DeathSearcher) (bR sR : ruleType) (g0 : gridType) :
    Nat → gridType
  | 0 => g0
  | k + 1 =>
    nextGen bR sR (d.grow_if_needed k { grid := d.trialGrid bR sR g0 k }).grid
      (d.grow_if_needed k { grid := d.trialGrid bR sR g0 k }).grid.length
      (d.grow_if_needed k { grid := d.trialGrid bR sR g0 k }).grid.length

/-- The list built by `get_object_cells` as the text describes it: the seed first, then
in-bounds live cells of the `W × H` grid, no position twice. -/
def SeedFirst (g : gridType) (W H : Nat) (seed : Position) (out : Object) : Prop :=
  ∃ tail, out = seed :: tail ∧ out.Nodup ∧
    ∀ p ∈ tail, p.1 < W ∧ p.2 < H ∧ getCell g p.1 p.2 = some true

/-! ## Rule strings: format, failure and round trip -/

theorem appendDigits_eq (r : ruleType) (i : Nat) (out : List Char) :
    appendDigits r i out = out ++ (setIndices r i).map (fun k => Char.ofNat (k + 48)) := by
  induction r generalizing i out with
  | nil => simp [appendDigits, setIndices]
  | cons b rest ih =>
    cases b <;> simp [appendDigits, setIndices, ih]

theorem mem_setIndices (r : ruleType) (i k : Nat) :
    k ∈ setIndices r i ↔ i ≤ k ∧ r[k - i]? = some true := by
  induction r generalizing i with
  | nil => simp [setIndices]
  | cons b rest ih =>
    cases b
    · simp only [setIndices, ih, Bool.false_eq_true, if_false]
      constructor
      · rintro ⟨h1, h2⟩
        refine ⟨by omega, ?_⟩
        have : k - i = (k - (i + 1)) + 1 := by omega
        rw [this]; simpa using h2
      · rintro ⟨h1, h2⟩
        rcases Nat.eq_or_lt_of_le h1 with h | h
        · subst h; simp at h2
        · refine ⟨h, ?_⟩
          have : k - i = (k - (i + 1)) + 1 := by omega
          rw [this] at h2; simpa using h2
    · simp only [setIndices, if_true, List.mem_cons, ih]
      constructor
      · rintro (h | ⟨h1, h2⟩)
        · subst h; simp
        · refine ⟨by omega, ?_⟩
          have : k - i = (k - (i + 1)) + 1 := by omega
          rw [this]; simpa using h2
      · rintro ⟨h1, h2⟩
        rcases Nat.eq_or_lt_of_le h1 with h | h
        · left; exact h.symm
        · right
          refine ⟨h, ?_⟩
          have : k - i = (k - (i + 1)) + 1 := by omega
          rw [this] at h2; simpa using h2

theorem setIndices_sorted (r : ruleType) (i : Nat) :
    (setIndices r i).Sorted (· < ·) := by
  induction r generalizing i with
  | nil => simp [setIndices]
  | cons b rest ih =>
    cases b
    · simpa [setIndices] using ih (i + 1)
    · simp only [setIndices, if_true, List.sorted_cons]
      refine ⟨?_, ih (i + 1)⟩
      intro k hk
      have := (mem_setIndices rest (i + 1) k).1 hk
      omega

theorem setIndices_lt (r : ruleType) (i k : Nat) (h : k ∈ setIndices r i) :
    k < i + r.length := by
  have := (mem_setIndices r i k).1 h
  have h2 := this.2
  rw [List.getElem?_eq_some_iff] at h2
  obtain ⟨hlt, _⟩ := h2
  omega

theorem ofNat_digitChar (k : Nat) (h : k < 10) : Char.ofNat (k + 48) = Nat.digitChar k := by
  interval_cases k <;> decide

theorem rule_to_rulestring_valid (rule : ruleType × ruleType)
    (h1 : rule.1.length ≤ 10) (h2 : rule.2.length ≤ 10) :
    rule_to_rulestring rule = ['B'] ++ (setIndices rule.1 0).map Nat.digitChar ++ ['/', 'S']
      ++ (setIndices rule.2 0).map Nat.digitChar := by
  have e1 : (setIndices rule.1 0).map (fun k => Char.ofNat (k + 48))
      = (setIndices rule.1 0).map Nat.digitChar := by
    apply List.map_congr_left
    intro k hk
    have := setIndices_lt _ _ _ hk
    exact ofNat_digitChar k (by omega)
  have e2 : (setIndices rule.2 0).map (fun k => Char.ofNat (k + 48))
      = (setIndices rule.2 0).map Nat.digitChar := by
    apply List.map_congr_left
    intro k hk
    have := setIndices_lt _ _ _ hk
    exact ofNat_digitChar k (by omega)
  have hc : ¬ (rule.1.length > 10 ∨ rule.2.length > 10) := by omega
  simp only [rule_to_rulestring, hc, if_false, appendDigits_eq, e1, e2]

/-- C9. For every rule whose birth and survive sets each have at most 10 entries,
`rule_to_rulestring` returns `B`, then the decimal digits of exactly the set birth indices in
strictly ascending order, then `/S`, then the decimal digits of exactly the set survive
indices in strictly ascending order. -/
theorem rule_to_rulestring_format (rule : ruleType × ruleType)
    (h1 : rule.1.length ≤ 10) (h2 : rule.2.length ≤ 10) :
    ∃ bs ss : List Nat,
      rule_to_rulestring rule
        = ['B'] ++ bs.map Nat.digitChar ++ ['/', 'S'] ++ ss.map Nat.digitChar ∧
      bs.Sorted (· < ·) ∧ ss.Sorted (· < ·) ∧
      (∀ k, k ∈ bs ↔ rule.1[k]? = some true) ∧
      (∀ k, k ∈ ss ↔ rule.2[k]? = some true) := by
  refine ⟨setIndices rule.1 0, setIndices rule.2 0, rule_to_rulestring_valid rule h1 h2,
    setIndices_sorted _ _, setIndices_sorted _ _, ?_, ?_⟩ <;>
  · intro k
    simp [mem_setIndices]

theorem rule_to_rulestring_format_witness :
    lifeRule.1.length ≤ 10 ∧ lifeRule.2.length ≤ 10 ∧
    ∃ bs ss : List Nat,
      rule_to_rulestring lifeRule
        = ['B'] ++ bs.map Nat.digitChar ++ ['/', 'S'] ++ ss.map Nat.digitChar ∧
      bs.Sorted (· < ·) ∧ ss.Sorted (· < ·) ∧
      (∀ k, k ∈ bs ↔ lifeRule.1[k]? = some true) ∧
      (∀ k, k ∈ ss ↔ lifeRule.2[k]? = some true) :=
  ⟨by decide, by decide, rule_to_rulestring_format lifeRule (by decide) (by decide)⟩

/-- C10. `rule_to_rulestring` returns the sentinel `INVALID` if and only if the birth set or
the survive set has more than 10 entries; otherwise it returns a string that starts with
`B`. -/
theorem rule_to_rulestring_invalid_iff (rule : ruleType × ruleType) :
    (rule_to_rulestring rule = "INVALID".toList ↔ (rule.1.length > 10 ∨ rule.2.length > 10)) ∧
    (¬ (rule.1.length > 10 ∨ rule.2.length > 10) →
      ∃ rest, rule_to_rulestring rule = 'B' :: rest) := by
  have key : ¬ (rule.1.length > 10 ∨ rule.2.length > 10) →
      ∃ rest, rule_to_rulestring rule = 'B' :: rest := by
    intro hc
    refine ⟨(setIndices rule.1 0).map Nat.digitChar ++ ['/', 'S']
      ++ (setIndices rule.2 0).map Nat.digitChar, ?_⟩
    rw [rule_to_rulestring_valid rule (by omega) (by omega)]
    simp
  refine ⟨⟨?_, ?_⟩, key⟩
  · intro h
    by_contra hc
    obtain ⟨rest, hr⟩ := key hc
    have h' : (rule_to_rulestring rule).head? = some 'I' := by rw [h]; decide
    rw [hr] at h'
    simp at h'
  · intro hc
    simp [rule_to_rulestring, hc]

theorem digit_char_facts (k : Nat) (h : k < 10) :
    Char.ofNat (k + 48) ≠ 'B' ∧ Char.ofNat (k + 48) ≠ 'b' ∧ Char.ofNat (k + 48) ≠ 'S' ∧
    Char.ofNat (k + 48) ≠ 's' ∧ is_digit (Char.ofNat (k + 48)) = true ∧
    (Char.ofNat (k + 48)).toNat - '0'.toNat = k := by
  interval_cases k <;> decide

theorem parseLoop_digits_birth (ks : List Nat) (rest : List Char) (prev : Option Char)
    (B S : ruleType) (h : ∀ k ∈ ks, k < B.length ∧ k < 10) :
    ∃ prev', parseLoop (ks.map (fun k => Char.ofNat (k + 48)) ++ rest) prev ParserState.birth B S
      = parseLoop rest prev' ParserState.birth (ks.foldl (fun b k => b.set k true) B) S := by
  induction ks generalizing prev B with
  | nil => exact ⟨prev, rfl⟩
  | cons k ks ih =>
    obtain ⟨hk1, hk2⟩ := h k (List.mem_cons_self _ _)
    obtain ⟨f1, f2, f3, f4, f5, f6⟩ := digit_char_facts k hk2
    obtain ⟨p, hp⟩ := ih (some (Char.ofNat (k + 48))) (B.set k true)
      (fun j hj => by simpa using h j (List.mem_cons_of_mem _ hj))
    refine ⟨p, ?_⟩
    simp only [List.map_cons, List.cons_append, List.foldl_cons]
    simp only [parseLoop]
    simp only [f1, f2, f3, f4, f5, f6, or_self, if_false, if_true, setBit, hk1]
    exact hp

theorem parseLoop_digits_survive (ks : List Nat) (rest : List Char) (prev : Option Char)
    (B S : ruleType) (h : ∀ k ∈ ks, k < S.length ∧ k < 10) :
    ∃ prev', parseLoop (ks.map (fun k => Char.ofNat (k + 48)) ++ rest) prev ParserState.survive B S
      = parseLoop rest prev' ParserState.survive B (ks.foldl (fun b k => b.set k true) S) := by
  induction ks generalizing prev S with
  | nil => exact ⟨prev, rfl⟩
  | cons k ks ih =>
    obtain ⟨hk1, hk2⟩ := h k (List.mem_cons_self _ _)
    obtain ⟨f1, f2, f3, f4, f5, f6⟩ := digit_char_facts k hk2
    obtain ⟨p, hp⟩ := ih (some (Char.ofNat (k + 48))) (S.set k true)
      (fun j hj => by simpa using h j (List.mem_cons_of_mem _ hj))
    refine ⟨p, ?_⟩
    simp only [List.map_cons, List.cons_append, List.foldl_cons]
    simp only [parseLoop]
    simp only [f1, f2, f3, f4, f5, f6, or_self, if_false, if_true, setBit, hk1]
    exact hp

theorem foldl_set_setIndices (r pre : ruleType) (i : Nat) (hi : pre.length = i) :
    (setIndices r i).foldl (fun b k => b.set k true) (pre ++ List.replicate r.length false)
      = pre ++ r := by
  induction r generalizing pre i with
  | nil => simp [setIndices]
  | cons b rest ih =>
    have e : pre ++ List.replicate (b :: rest).length false
        = (pre ++ [false]) ++ List.replicate rest.length false := by
      simp [List.replicate_succ]
    cases b
    · simp only [setIndices, Bool.false_eq_true, if_false]
      rw [e, ih (pre ++ [false]) (i + 1) (by simp [hi])]
      simp
    · simp only [setIndices, if_true, List.foldl_cons]
      have e2 : (pre ++ List.replicate (true :: rest).length false).set i true
          = (pre ++ [true]) ++ List.replicate rest.length false := by
        subst hi
        simp [List.replicate_succ, List.set_append_right]
      rw [e2, ih (pre ++ [true]) (i + 1) (by simp [hi])]
      simp

/-- C1. For every rule whose birth set and survive set each have exactly 9 entries,
`rulestring_to_rule(rule_to_rulestring(r))` returns `r`. -/
theorem rule_round_trip (r : ruleType × ruleType)
    (h1 : r.1.length = 9) (h2 : r.2.length = 9) :
    rulestring_to_rule (rule_to_rulestring r) = some r := by
  have hc : ¬ (r.1.length > 10 ∨ r.2.length > 10) := by omega
  obtain ⟨B, S⟩ := r
  simp only at h1 h2 hc
  simp only [rule_to_rulestring, hc, if_false, appendDigits_eq, rulestring_to_rule]
  simp only [List.append_assoc, List.singleton_append, List.cons_append, List.nil_append]
  simp only [parseLoop]
  simp only [true_or, if_true]
  have hB : ∀ k ∈ setIndices B 0, k < (List.replicate 9 false).length ∧ k < 10 := by
    intro k hk
    have := setIndices_lt _ _ _ hk
    simp; omega
  have hS : ∀ k ∈ setIndices S 0, k < (List.replicate 9 false).length ∧ k < 10 := by
    intro k hk
    have := setIndices_lt _ _ _ hk
    simp; omega
  obtain ⟨p, hp⟩ := parseLoop_digits_birth (setIndices B 0)
    ('/' :: 'S' :: (setIndices S 0).map (fun k => Char.ofNat (k + 48))) (some 'B')
    (List.replicate 9 false) (List.replicate 9 false) hB
  rw [hp]
  simp only [parseLoop, show ¬ ('/' = 'B' ∨ '/' = 'b') by decide,
    show ¬ ('/' = 'S' ∨ '/' = 's') by decide,
    if_false, show is_digit '/' = false by decide, Bool.false_eq_true,
    show ¬ ('S' = 'B' ∨ 'S' = 'b') by decide, true_or, if_true, ne_eq,
    not_true_eq_false]
  obtain ⟨q, hq⟩ := parseLoop_digits_survive (setIndices S 0) [] (some 'S')
    ((setIndices B 0).foldl (fun b k => b.set k true) (List.replicate 9 false))
    (List.replicate 9 false) hS
  rw [List.append_nil] at hq
  rw [hq]; simp only [parseLoop]
  have eB := foldl_set_setIndices B [] 0 rfl
  have eS := foldl_set_setIndices S [] 0 rfl
  rw [h1] at eB
  rw [h2] at eS
  simp only [List.nil_append] at eB eS
  rw [eB, eS]

theorem rule_round_trip_witness :
    lifeRule.1.length = 9 ∧ lifeRule.2.length = 9 ∧
    rulestring_to_rule (rule_to_rulestring lifeRule) = some lifeRule :=
  ⟨by decide, by decide, rule_round_trip lifeRule (by decide) (by decide)⟩

/-! ## Coordinates on the torus -/

theorem wrapCoord_zero (n x : Nat) (hx : x < n) : wrapCoord n x 0 = x := by
  unfold wrapCoord
  rw [add_zero, Int.emod_eq_of_lt (by omega) (by omega)]
  simp

theorem wrapCoord_one (n x : Nat) (hx : x < n) :
    wrapCoord n x 1 = if x + 1 = n then 0 else x + 1 := by
  unfold wrapCoord
  split
  · next h =>
    have : ((x : Int) + 1) = (n : Int) := by omega
    rw [this, Int.emod_self]; rfl
  · next h =>
    rw [Int.emod_eq_of_lt (by omega) (by omega)]
    omega

theorem wrapCoord_neg_one (n x : Nat) (hx : x < n) :
    wrapCoord n x (-1) = if x = 0 then n - 1 else x - 1 := by
  unfold wrapCoord
  split
  · next h =>
    subst h
    have : ((0 : Nat) : Int) + -1 = ((n : Int) - 1) + (n : Int) * (-1) := by push_cast; ring
    rw [this, Int.add_mul_emod_self_left, Int.emod_eq_of_lt (by omega) (by omega)]
    omega
  · next h =>
    rw [Int.emod_eq_of_lt (by omega) (by omega)]
    omega

theorem wrapCoord_lt (n x : Nat) (d : Int) (hx : x < n)
    (hd : d = -1 ∨ d = 0 ∨ d = 1) : wrapCoord n x d < n := by
  rcases hd with h | h | h <;> subst h
  · rw [wrapCoord_neg_one n x hx]; split <;> omega
  · rw [wrapCoord_zero n x hx]; exact hx
  · rw [wrapCoord_one n x hx]; split <;> omega

theorem modulo_eq_wrapCoord (b x : Nat) (d : Int) (hb : b < 2147483648) (hx : x < b)
    (hd : d = -1 ∨ d = 0 ∨ d = 1) :
    modulo (toInt x + d) (b % UINT) = some (wrapCoord b x d) := by
  have hbU : b % UINT = b := Nat.mod_eq_of_lt (by unfold UINT; omega)
  have hxU : x % UINT = x := Nat.mod_eq_of_lt (by unfold UINT; omega)
  have hti : toInt x = (x : Int) := by
    unfold toInt; rw [hxU]; simp; omega
  rw [hbU, hti]
  have hb0 : b ≠ 0 := by omega
  unfold modulo
  simp only [hb0, if_false]
  rcases hd with h | h | h <;> subst h
  · rw [wrapCoord_neg_one b x hx]
    by_cases h0 : x = 0
    · subst h0
      simp only [if_true]
      have : ¬ (((0 : Nat) : Int) + -1 > 0) := by omega
      simp only [this, if_false]
      have : toUnsigned (((0 : Nat) : Int) + -1) = 4294967295 := by decide
      rw [this]
      have : (b + 4294967295) % UINT = b - 1 := by unfold UINT; omega
      rw [this, Nat.mod_eq_of_lt (by omega)]
    · simp only [h0, if_false]
      have hu : toUnsigned ((x : Int) + -1) = x - 1 := by unfold toUnsigned; omega
      by_cases h1 : x = 1
      · subst h1
        have : ¬ (((1 : Nat) : Int) + -1 > 0) := by omega
        simp only [this, if_false]
        rw [hu]
        have : (b + (1 - 1)) % UINT = b := by unfold UINT; omega
        rw [this]; simp
      · have : ((x : Int) + -1 > 0) := by omega
        simp only [this, if_true]
        rw [hu, Nat.mod_eq_of_lt (by omega)]
  · rw [wrapCoord_zero b x hx]
    have hu : toUnsigned ((x : Int) + 0) = x := by unfold toUnsigned; omega
    by_cases h0 : x = 0
    · subst h0
      have : ¬ (((0 : Nat) : Int) + 0 > 0) := by omega
      simp only [this, if_false, hu]
      have : (b + 0) % UINT = b := by unfold UINT; omega
      rw [this]; simp
    · have : ((x : Int) + 0 > 0) := by omega
      simp only [this, if_true, hu]
      rw [Nat.mod_eq_of_lt hx]
  · rw [wrapCoord_one b x hx]
    have hu : toUnsigned ((x : Int) + 1) = x + 1 := by unfold toUnsigned; omega
    have : ((x : Int) + 1 > 0) := by omega
    simp only [this, if_true, hu]
    split
    · next h => rw [h]; simp
    · next h => rw [Nat.mod_eq_of_lt (by omega)]

/-! ## Reading and writing cells of a rectangular grid -/

theorem Rect.col {g : gridType} {W H : Nat} (h : Rect g W H) {x : Nat} (hx : x < W) :
    ∃ col, g[x]? = some col ∧ col.length = H := by
  have hx' : x < g.length := by rw [h.1]; exact hx
  exact ⟨g[x], List.getElem?_eq_getElem hx', h.2 _ (List.getElem_mem hx')⟩

theorem getCell_rect {g : gridType} {W H : Nat} (h : Rect g W H) {x y : Nat}
    (hx : x < W) (hy : y < H) : ∃ b, getCell g x y = some b := by
  obtain ⟨col, hc, hl⟩ := h.col hx
  have hy' : y < col.length := by rw [hl]; exact hy
  exact ⟨col[y], by simp [getCell, hc, List.getElem?_eq_getElem hy']⟩

theorem getCell_eq_none_of_width {g : gridType} {x y : Nat} (hx : g.length ≤ x) :
    getCell g x y = none := by
  simp [getCell, List.getElem?_eq_none hx]

theorem getCell_eq_none_of_height {g : gridType} {W H : Nat} (h : Rect g W H) {x y : Nat}
    (hy : H ≤ y) : getCell g x y = none := by
  unfold getCell
  cases hc : g[x]? with
  | none => rfl
  | some col =>
    have : col ∈ g := List.getElem?_mem hc
    have hl := h.2 col this
    simp [List.getElem?_eq_none (by omega : col.length ≤ y)]

theorem getCell_some_lt {g : gridType} {W H : Nat} (h : Rect g W H) {x y : Nat} {b : Bool}
    (hb : getCell g x y = some b) : x < W ∧ y < H := by
  constructor
  · by_contra hx
    rw [getCell_eq_none_of_width (by rw [h.1]; omega)] at hb
    exact absurd hb (by simp)
  · by_contra hy
    rw [getCell_eq_none_of_height h (by omega)] at hb
    exact absurd hb (by simp)

theorem setCell_rect {g : gridType} {W H : Nat} (h : Rect g W H) {x y : Nat}
    (hx : x < W) (hy : y < H) (v : Bool) :
    ∃ g', setCell g x y v = some g' ∧ Rect g' W H ∧
      ∀ x' y', getCell g' x' y' = if x' = x ∧ y' = y then some v else getCell g x' y' := by
  obtain ⟨col, hc, hl⟩ := h.col hx
  have hy' : y < col.length := by rw [hl]; exact hy
  have hx' : x < g.length := by rw [h.1]; exact hx
  refine ⟨g.set x (col.set y v), by simp [setCell, hc, hy'], ⟨by simp [h.1], ?_⟩, ?_⟩
  · intro c hcm
    rcases List.mem_or_eq_of_mem_set hcm with h1 | h1
    · exact h.2 c h1
    · rw [h1]; simp [hl]
  · intro x' y'
    unfold getCell
    by_cases hxx : x' = x
    · subst hxx
      simp only [List.getElem?_set_self hx', true_and]
      by_cases hyy : y' = y
      · subst hyy
        simp [List.getElem?_set_self hy']
      · simp only [hyy, if_false, hc]
        rw [List.getElem?_set_ne (Ne.symm hyy)]
    · simp only [hxx, false_and, if_false]
      rw [List.getElem?_set_ne (Ne.symm hxx)]

theorem grid_ext {g g' : gridType} {W H : Nat} (h : Rect g W H) (h' : Rect g' W H)
    (he : ∀ x y, x < W → y < H → getCell g x y = getCell g' x y) : g = g' := by
  apply List.ext_getElem (by rw [h.1, h'.1])
  intro x hx1 hx2
  have hxW : x < W := by rw [← h.1]; exact hx1
  have l1 : (g[x]).length = H := h.2 _ (List.getElem_mem hx1)
  have l2 : (g'[x]).length = H := h'.2 _ (List.getElem_mem hx2)
  apply List.ext_getElem (by rw [l1, l2])
  intro y hy1 hy2
  have hyH : y < H := by rw [← l1]; exact hy1
  have := he x y hxW hyH
  simp only [getCell, List.getElem?_eq_getElem hx1, List.getElem?_eq_getElem hx2,
    List.getElem?_eq_getElem hy1, List.getElem?_eq_getElem hy2] at this
  exact Option.some.inj this

/-! ## Neighbour counting -/

theorem unitOffsets_neighborhood : UnitOffsets neighborhood := by
  intro d hd
  simp only [neighborhood, List.mem_cons, List.mem_singleton, List.not_mem_nil, or_false] at hd
  rcases hd with h | h | h | h | h | h | h | h <;> subst h <;> simp

theorem countLoop_eq {g : gridType} {W H : Nat} (h : Rect g W H)
    (hW : W < 2147483648) (hH : H < 2147483648) {x y : Nat} (hx : x < W) (hy : y < H)
    (s : Bool) (offs : List (Int × Int)) (ho : UnitOffsets offs) (sum : Nat)
    (hs : sum + offs.length < UINT) :
    countLoop g x y s offs sum = some (sum + offs.countP
      (fun d => getCell g (wrapCoord W x d.1) (wrapCoord H y d.2) == some s)) := by
  induction offs generalizing sum with
  | nil => simp [countLoop]
  | cons d rest ih =>
    obtain ⟨hd1, hd2⟩ := ho d (List.mem_cons_self _ _)
    obtain ⟨col0, hc0, hl0⟩ := h.col (by omega : 0 < W)
    have hX := wrapCoord_lt W x d.1 hx hd1
    have hY := wrapCoord_lt H y d.2 hy hd2
    obtain ⟨b, hb⟩ := getCell_rect h hX hY
    simp only [List.length_cons] at hs
    have hlt : sum + (if b = s then 1 else 0) < UINT := by split <;> omega
    rw [countLoop, h.1, modulo_eq_wrapCoord W x d.1 hW hx hd1, hc0]
    simp only [hl0, modulo_eq_wrapCoord H y d.2 hH hy hd2, hb, Nat.mod_eq_of_lt hlt]
    rw [ih (fun e he => ho e (List.mem_cons_of_mem _ he)) _ (by split <;> omega)]
    rw [List.countP_cons, hb]
    by_cases hbs : b = s
    · simp [hbs]; omega
    · simp [hbs]

theorem countP_neighborhood (p : Int × Int → Bool) :
    neighborhood.countP p = mooreOffsets.countP p := by
  simp only [neighborhood, mooreOffsets, List.countP_cons, List.countP_nil]
  omega

theorem numNeighborsOfState_eq {g : gridType} {W H : Nat} (h : Rect g W H)
    (hW : W < 2147483648) (hH : H < 2147483648) {x y : Nat} (hx : x < W) (hy : y < H)
    (s : Bool) :
    numNeighborsOfState g x y s = some (mooreCount g W H x y s) := by
  unfold numNeighborsOfState
  rw [countLoop_eq h hW hH hx hy s neighborhood unitOffsets_neighborhood 0
    (by simp [neighborhood, UINT]), countP_neighborhood]
  simp [mooreCount]

theorem mooreCount_le (g : gridType) (W H x y : Nat) (s : Bool) : mooreCount g W H x y s ≤ 8 := by
  unfold mooreCount
  exact le_trans (List.countP_le_length _) (by simp [mooreOffsets])

/-! ## Grids made by `set_size` and `set_state` -/

theorem vecResize_length {α : Type} (v : List α) (n : Nat) (d : α) :
    (vecResize v n d).length = n := by
  simp only [vecResize, List.length_append, List.length_take, List.length_replicate]
  omega

theorem set_size_rect (c : Calib) (w h : Nat) (hw : 0 < w) (hh : 0 < h) :
    Rect (c.set_size w h).grid w h ∧ (c.set_size w h).tmpGrid = (c.set_size w h).grid := by
  have hc : ¬ (w = 0 ∨ h = 0) := by omega
  simp only [Calib.set_size, Calib.resize_grids, hc, if_false, and_true]
  refine ⟨by simp [vecResize_length], ?_⟩
  intro col hcol
  obtain ⟨col', _, rfl⟩ := List.mem_map.1 hcol
  exact vecResize_length _ _ _

theorem set_state_rect (c c' : Calib) (W H x y : Nat) (v : Bool) (h : Rect c.grid W H)
    (hs : c.set_state x y v = some c') : Rect c'.grid W H ∧ c'.tmpGrid = c.tmpGrid := by
  unfold Calib.set_state at hs
  cases hg : setCell c.grid x y v with
  | none => rw [hg] at hs; exact absurd hs (by simp)
  | some g =>
    rw [hg] at hs
    have hc : c' = { c with grid := g } := (Option.some.inj hs).symm
    subst hc
    refine ⟨?_, rfl⟩
    unfold setCell at hg
    cases hcol : c.grid[x]? with
    | none => rw [hcol] at hg; exact absurd hg (by simp)
    | some col =>
      rw [hcol] at hg
      simp only at hg
      split at hg
      · next hy =>
        have hx : x < W := by
          rw [← h.1]; exact (List.getElem?_eq_some_iff.1 hcol).1
        have hy' : y < H := by
          rw [← h.2 col (List.getElem?_mem hcol)]; exact hy
        obtain ⟨g', hset, hR, _⟩ := setCell_rect h hx hy' v
        simp only [setCell, hcol, hy, if_true] at hset
        rw [← Option.some.inj hg, Option.some.inj hset]
        exact hR
      · exact absurd hg (by simp)

open Finset

/-! ## Loops -/

theorem forLoop_inv {σ : Type} (body : Nat → σ → Option σ) (P : Nat → σ → Prop) :
    ∀ (n lo : Nat) (s : σ), P lo s →
      (∀ i t, lo ≤ i → i < lo + n → P i t → ∃ t', body i t = some t' ∧ P (i + 1) t') →
      ∃ s', forLoop body n lo s = some s' ∧ P (lo + n) s' := by
  intro n
  induction n with
  | zero => intro lo s h0 _; exact ⟨s, rfl, by simpa using h0⟩
  | succ n ih =>
    intro lo s h0 hstep
    obtain ⟨t', ht, hP⟩ := hstep lo s (le_refl _) (by omega) h0
    obtain ⟨s', hs, hP'⟩ := ih (lo + 1) t' hP
      (fun i t h1 h2 hp => hstep i t (by omega) (by omega) hp)
    refine ⟨s', ?_, ?_⟩
    · simp only [forLoop, ht]; exact hs
    · have : lo + (n + 1) = lo + 1 + n := by omega
      rw [this]; exact hP'

/-! ## One cell, one row, one sweep of a generation step that reads a fixed grid -/

theorem stepCell_eq {bR sR : ruleType} {src dst : gridType} {W H : Nat}
    (hsrc : Rect src W H) (hdst : Rect dst W H)
    (hW : W < 2147483648) (hH : H < 2147483648) (hb : 9 ≤ bR.length) (hs : 9 ≤ sR.length)
    {x y : Nat} (hx : x < W) (hy : y < H) (doSum : Bool) (sum : Nat) :
    ∃ dst', stepCell bR sR src dst x y doSum sum
        = some (dst', if doSum then (sum + (nextState bR sR src W H x y).toNat) % UINT else sum) ∧
      Rect dst' W H ∧
      ∀ x' y', getCell dst' x' y'
        = if x' = x ∧ y' = y then some (nextState bR sR src W H x y) else getCell dst x' y' := by
  obtain ⟨cur, hcur⟩ := getCell_rect hsrc hx hy
  obtain ⟨dst', hset, hr, hg⟩ := setCell_rect hdst hx hy (nextState bR sR src W H x y)
  refine ⟨dst', ?_, hr, hg⟩
  have hn := mooreCount_le src W H x y true
  have hv : (if (!cur) = true then bR[mooreCount src W H x y true]?
      else sR[mooreCount src W H x y true]?) = some (nextState bR sR src W H x y) := by
    unfold nextState
    rw [hcur]
    cases cur
    · simp only [Bool.not_false, if_true]
      rw [List.getElem?_eq_getElem (by omega)]
      simp [List.getD_eq_getElem?_getD, List.getElem?_eq_getElem (show mooreCount src W H x y true < bR.length by omega)]
    · simp only [Bool.not_true, Bool.false_eq_true, if_false, if_true]
      rw [List.getElem?_eq_getElem (by omega)]
      simp [List.getD_eq_getElem?_getD, List.getElem?_eq_getElem (show mooreCount src W H x y true < sR.length by omega)]
  unfold stepCell
  rw [numNeighborsOfState_eq hsrc hW hH hx hy true, hcur]
  simp only [hv, hset]

theorem rowLoop_eq {bR sR : ruleType} {src dst : gridType} {W H : Nat}
    (hsrc : Rect src W H) (hdst : Rect dst W H)
    (hW : W < 2147483648) (hH : H < 2147483648) (hb : 9 ≤ bR.length) (hs : 9 ≤ sR.length)
    (x0 n : Nat) (hn : x0 + n ≤ W) {y : Nat} (hy : y < H) (doSum : Bool) (sum : Nat)
    (hsum : sum < UINT) :
    ∃ dst', forLoop (fun x st2 => stepCell bR sR src st2.1 x y doSum st2.2) n x0 (dst, sum)
        = some (dst', if doSum then
            (sum + ∑ k in Ico x0 (x0 + n), (nextState bR sR src W H k y).toNat) % UINT
          else sum) ∧
      Rect dst' W H ∧
      ∀ x' y', getCell dst' x' y'
        = if (x0 ≤ x' ∧ x' < x0 + n) ∧ y' = y then some (nextState bR sR src W H x' y)
          else getCell dst x' y' := by
  obtain ⟨s', hrun, hR, hG, hS⟩ := forLoop_inv
    (fun x st2 => stepCell bR sR src st2.1 x y doSum st2.2)
    (fun i st => Rect st.1 W H ∧
      (∀ x' y', getCell st.1 x' y'
        = if (x0 ≤ x' ∧ x' < i) ∧ y' = y then some (nextState bR sR src W H x' y)
          else getCell dst x' y') ∧
      st.2 = if doSum then
          (sum + ∑ k in Ico x0 i, (nextState bR sR src W H k y).toNat) % UINT
        else sum)
    n x0 (dst, sum)
    (by
      refine ⟨hdst, ?_, ?_⟩
      · intro x' y'
        have : ¬ ((x0 ≤ x' ∧ x' < x0) ∧ y' = y) := by omega
        simp only [this, if_false]
      · cases doSum
        · simp
        · simp [Nat.mod_eq_of_lt hsum])
    (by
      rintro i ⟨g, s⟩ hi1 hi2 ⟨hR, hG, hS⟩
      simp only at hR hG hS
      obtain ⟨g', hstep, hR', hG'⟩ := stepCell_eq hsrc hR hW hH hb hs
        (show i < W by omega) hy doSum s
      refine ⟨_, hstep, hR', ?_, ?_⟩
      · intro x' y'
        simp only
        rw [hG' x' y', hG x' y']
        by_cases hxy : x' = i ∧ y' = y
        · obtain ⟨h1, h2⟩ := hxy
          subst h1 h2
          have : (x0 ≤ x' ∧ x' < x' + 1) ∧ y' = y' := ⟨⟨hi1, by omega⟩, rfl⟩
          simp [this]
        · simp only [hxy, if_false]
          by_cases hyy : y' = y
          · have hne : x' ≠ i := fun h => hxy ⟨h, hyy⟩
            have : ((x0 ≤ x' ∧ x' < i + 1) ∧ y' = y) ↔ ((x0 ≤ x' ∧ x' < i) ∧ y' = y) := by
              constructor <;> rintro ⟨⟨h1, h2⟩, h3⟩ <;> exact ⟨⟨h1, by omega⟩, h3⟩
            simp only [this]
          · simp [hyy]
      · simp only
        cases doSum
        · simpa using hS
        · simp only [if_true] at hS ⊢
          rw [hS, Finset.sum_Ico_succ_top hi1]
          unfold UINT
          omega)
  refine ⟨s'.1, ?_, hR, hG⟩
  rw [hrun, ← hS]

theorem sweep_eq (bR sR : ruleType) {src dst : gridType} {W H : Nat}
    (hsrc : Rect src W H) (hdst : Rect dst W H)
    (hW : W < 2147483648) (hH : H < 2147483648) (hb : 9 ≤ bR.length) (hs : 9 ≤ sR.length)
    (x0 n : Nat) (hn : x0 + n ≤ W) (H' : Nat) (hH' : H' ≤ H) (doSum : Bool) (sum : Nat)
    (hsum : sum < UINT) :
    ∃ dst', forLoop (fun y st =>
          forLoop (fun x st2 => stepCell bR sR src st2.1 x y doSum st2.2) n x0 st) H' 0 (dst, sum)
        = some (dst', if doSum then
            (sum + ∑ j in range H', ∑ k in Ico x0 (x0 + n),
              (nextState bR sR src W H k j).toNat) % UINT
          else sum) ∧
      Rect dst' W H ∧
      ∀ x' y', getCell dst' x' y'
        = if (x0 ≤ x' ∧ x' < x0 + n) ∧ y' < H' then some (nextState bR sR src W H x' y')
          else getCell dst x' y' := by
  obtain ⟨s', hrun, hR, hG, hS⟩ := forLoop_inv
    (fun y st => forLoop (fun x st2 => stepCell bR sR src st2.1 x y doSum st2.2) n x0 st)
    (fun j st => Rect st.1 W H ∧
      (∀ x' y', getCell st.1 x' y'
        = if (x0 ≤ x' ∧ x' < x0 + n) ∧ y' < j then some (nextState bR sR src W H x' y')
          else getCell dst x' y') ∧
      st.2 = if doSum then
          (sum + ∑ j' in range j, ∑ k in Ico x0 (x0 + n),
            (nextState bR sR src W H k j').toNat) % UINT
        else sum)
    H' 0 (dst, sum)
    (by
      refine ⟨hdst, ?_, ?_⟩
      · intro x' y'
        simp
      · cases doSum
        · simp
        · simp [Nat.mod_eq_of_lt hsum])
    (by
      rintro j ⟨g, s⟩ _ hj2 ⟨hR, hG, hS⟩
      simp only at hR hG hS
      have hs' : s < UINT := by
        rw [hS]; cases doSum
        · simpa using hsum
        · simp only [if_true]; exact Nat.mod_lt _ (by unfold UINT; omega)
      obtain ⟨g', hrow, hR', hG'⟩ := rowLoop_eq hsrc hR hW hH hb hs x0 n hn
        (show j < H by omega) doSum s hs'
      refine ⟨_, hrow, hR', ?_, ?_⟩
      · intro x' y'
        simp only
        rw [hG' x' y', hG x' y']
        by_cases hx : x0 ≤ x' ∧ x' < x0 + n
        · by_cases hyj : y' = j
          · subst hyj
            simp [hx]
          · simp only [hx, true_and, hyj, if_false]
            have : y' < j + 1 ↔ y' < j := by omega
            simp only [this]
        · simp [hx]
      · simp only
        cases doSum
        · simpa using hS
        · simp only [if_true] at hS ⊢
          rw [hS, Finset.sum_range_succ]
          unfold UINT
          omega)
  refine ⟨s'.1, ?_, hR, ?_⟩
  · rw [hrun]
    simp only [Nat.zero_add] at hS
    rw [← hS]
  · simpa using hG

/-! ## Population -/

theorem list_sum_map_eq {α : Type} (l : List α) (F : α → Nat) (G : Nat → Nat)
    (h : ∀ i a, l[i]? = some a → F a = G i) :
    (l.map F).sum = ∑ i in range l.length, G i := by
  induction l using List.reverseRecOn with
  | nil => simp
  | append_singleton l a ih =>
    rw [List.map_append, List.sum_append, List.length_append, List.length_singleton,
      Finset.sum_range_succ]
    rw [ih (fun i b hb => h i b (by
      have hi : i < l.length := (List.getElem?_eq_some_iff.1 hb).1
      rw [List.getElem?_append_left hi]; exact hb))]
    have := h l.length a (by simp)
    simp [this]

theorem count_true_map (l : List Bool) :
    l.count true = (l.map (fun b => if b = true then 1 else 0)).sum := by
  induction l with
  | nil => simp
  | cons b rest ih =>
    rw [List.count_cons, List.map_cons, List.sum_cons, ih]
    cases b <;> simp <;> omega

theorem count_true_eq (l : List Bool) (G : Nat → Nat)
    (h : ∀ i b, l[i]? = some b → (if b = true then 1 else 0) = G i) :
    l.count true = ∑ i in range l.length, G i := by
  rw [count_true_map, list_sum_map_eq l (fun b => if b = true then 1 else 0) G h]

theorem population_eq_sum {g : gridType} {W H : Nat} (h : Rect g W H) :
    population g = ∑ x in range W, ∑ y in range H,
      (if getCell g x y = some true then 1 else 0) := by
  unfold population
  rw [list_sum_map_eq g (fun col => col.count true)
    (fun x => ∑ y in range H, (if getCell g x y = some true then 1 else 0)), h.1]
  intro x col hc
  have hl : col.length = H := h.2 col (List.getElem?_mem hc)
  rw [count_true_eq col (fun y => if getCell g x y = some true then 1 else 0), hl]
  intro y b hb
  simp [getCell, hc, hb]

theorem population_le {g : gridType} {W H : Nat} (h : Rect g W H) : population g ≤ W * H := by
  rw [population_eq_sum h]
  calc ∑ x in range W, ∑ y in range H, (if getCell g x y = some true then 1 else 0)
      ≤ ∑ x in range W, ∑ y in range H, 1 := by
        apply Finset.sum_le_sum; intro x _
        apply Finset.sum_le_sum; intro y _
        split <;> omega
    _ = W * H := by simp

theorem population_of_cells {g : gridType} {W H : Nat} (h : Rect g W H) (f : Nat → Nat → Bool)
    (hf : ∀ x y, x < W → y < H → getCell g x y = some (f x y)) :
    population g = ∑ y in range H, ∑ x in Ico 0 (0 + W), (f x y).toNat := by
  rw [population_eq_sum h, Finset.sum_comm]
  apply Finset.sum_congr rfl
  intro y hy
  rw [Nat.zero_add, Nat.Ico_zero_eq_range]
  apply Finset.sum_congr rfl
  intro x hx
  rw [hf x y (Finset.mem_range.1 hx) (Finset.mem_range.1 hy)]
  cases f x y <;> simp

/-! ## The neighbour count and the double-buffered step -/

theorem getElem?_getD_of_lt (r : ruleType) (n : Nat) (h : n < r.length) :
    r[n]? = some (r.getD n false) := by
  simp [List.getD_eq_getElem?_getD, List.getElem?_eq_getElem h]

/-- C3. On a rectangular `W × H` grid whose dimensions fit an `int`,
`get_num_neighbors_of_state(x,y,s)` returns, for every in-bounds `(x,y)` and every state `s`,
the number of the eight Moore offsets `(dx,dy)` whose cell `((x+dx) mod W, (y+dy) mod H)`
(non-negative remainder) has state `s`; and when `W, H >= 3` and `(W-1,H-1)` is the only
live cell, the live-neighbour count of `(0,0)` is `1`. -/
theorem get_num_neighbors_of_state_toroidal (c : Calib) (W H : Nat)
    (hrect : Rect c.grid W H) (hW0 : 0 < W) (hH0 : 0 < H)
    (hW : W < 2147483648) (hH : H < 2147483648) :
    (∀ x y s, x < W → y < H →
      c.get_num_neighbors_of_state x y s = some (mooreCount c.grid W H x y s)) ∧
    (3 ≤ W → 3 ≤ H →
      (∀ x y, getCell c.grid x y = some true ↔ (x = W - 1 ∧ y = H - 1)) →
      c.get_num_neighbors_of_state 0 0 true = some 1) := by
  have gen : ∀ x y s, x < W → y < H →
      c.get_num_neighbors_of_state x y s = some (mooreCount c.grid W H x y s) :=
    fun x y s hx hy => numNeighborsOfState_eq hrect hW hH hx hy s
  refine ⟨gen, ?_⟩
  intro h3W h3H honly
  rw [gen 0 0 true hW0 hH0]
  have e1 : wrapCoord W 0 (-1) = W - 1 := by rw [wrapCoord_neg_one W 0 hW0]; simp
  have e2 : wrapCoord W 0 0 = 0 := wrapCoord_zero W 0 hW0
  have e3 : wrapCoord W 0 1 = 1 := by
    rw [wrapCoord_one W 0 hW0]; simp; omega
  have f1 : wrapCoord H 0 (-1) = H - 1 := by rw [wrapCoord_neg_one H 0 hH0]; simp
  have f2 : wrapCoord H 0 0 = 0 := wrapCoord_zero H 0 hH0
  have f3 : wrapCoord H 0 1 = 1 := by
    rw [wrapCoord_one H 0 hH0]; simp; omega
  have hW1 : ¬ (0 = W - 1) := by omega
  have hW2 : ¬ (1 = W - 1) := by omega
  have hH1 : ¬ (0 = H - 1) := by omega
  have hH2 : ¬ (1 = H - 1) := by omega
  simp only [mooreCount, mooreOffsets, List.countP_cons, List.countP_nil, e1, e2, e3, f1, f2, f3,
    beq_iff_eq, honly, hW1, hW2, hH1, hH2, and_self, and_false, false_and, if_true, if_false]

theorem get_num_neighbors_of_state_toroidal_witness :
    Rect (calibOf 4 4 [(3, 3)]).grid 4 4 ∧
    ((∀ x y s, x < 4 → y < 4 →
      (calibOf 4 4 [(3, 3)]).get_num_neighbors_of_state x y s
        = some (mooreCount (calibOf 4 4 [(3, 3)]).grid 4 4 x y s)) ∧
    (3 ≤ 4 → 3 ≤ 4 →
      (∀ x y, getCell (calibOf 4 4 [(3, 3)]).grid x y = some true ↔ (x = 4 - 1 ∧ y = 4 - 1)) →
      (calibOf 4 4 [(3, 3)]).get_num_neighbors_of_state 0 0 true = some 1)) :=
  ⟨by decide, get_num_neighbors_of_state_toroidal (calibOf 4 4 [(3, 3)]) 4 4
    (by decide) (by decide) (by decide) (by decide) (by decide)⟩

/-- C2. On a rectangular `W × H` grid (`W, H > 0`, dimensions that fit an `int`) and a rule
whose sets have at least 9 entries, `update(doSum)` returns; afterwards the grid is still
`W × H`, each cell `(x,y)` holds `birth[n]` if it was dead and `survive[n]` if it was alive,
with `n` the number of live toroidal Moore neighbours of `(x,y)` in the grid before the
call; nothing but the grid changes; the return value is `0` when `doSum` is false and the
number of live cells of the new grid (as an `unsigned`, so exactly that number when
`W·H < 2^32`) when `doSum` is true. -/
theorem update_generation_step (c : Calib) (W H : Nat) (doSum : Bool)
    (hrect : Rect c.grid W H) (hW0 : 0 < W) (hH0 : 0 < H)
    (hW : W < 2147483648) (hH : H < 2147483648)
    (hb : 9 ≤ c.birthRule.length) (hs : 9 ≤ c.surviveRule.length) :
    ∃ newGrid sum, c.update doSum = some ({ c with grid := newGrid }, sum) ∧
      Rect newGrid W H ∧
      Calib.get_width { c with grid := newGrid } = W ∧
      Calib.get_height { c with grid := newGrid } = some H ∧
      (∀ x y, x < W → y < H →
        (getCell c.grid x y = some false →
          getCell newGrid x y = c.birthRule[mooreCount c.grid W H x y true]?) ∧
        (getCell c.grid x y = some true →
          getCell newGrid x y = c.surviveRule[mooreCount c.grid W H x y true]?)) ∧
      (doSum = false → sum = 0) ∧
      (doSum = true → sum = population newGrid % UINT) ∧
      (doSum = true → W * H < UINT → sum = population newGrid) := by
  obtain ⟨col0, hc0, hl0⟩ := hrect.col hW0
  obtain ⟨g', hrun, hR, hG⟩ := sweep_eq c.birthRule c.surviveRule
    hrect hrect hW hH hb hs 0 W (by omega) H (le_refl _) doSum 0 (by unfold UINT; omega)
  have hcell : ∀ x y, x < W → y < H →
      getCell g' x y = some (nextState c.birthRule c.surviveRule c.grid W H x y) := by
    intro x y hx hy
    rw [hG x y]
    have : (0 ≤ x ∧ x < 0 + W) ∧ y < H := ⟨⟨by omega, by omega⟩, hy⟩
    simp only [this, and_self, if_true]
  have hpop := population_of_cells hR _ hcell
  obtain ⟨col0', hc0', hl0'⟩ := hR.col hW0
  refine ⟨g', (if doSum then (0 + ∑ j in range H, ∑ k in Ico 0 (0 + W),
      (nextState c.birthRule c.surviveRule c.grid W H k j).toNat) % UINT else 0),
    ?_, hR, hR.1, ?_, ?_, ?_, ?_, ?_⟩
  · unfold Calib.update
    rw [hc0]
    simp only [hl0, hrect.1, hrun]
  · simp [Calib.get_height, hc0', hl0']
  · intro x y hx hy
    have hn := mooreCount_le c.grid W H x y true
    constructor
    · intro hd
      rw [hcell x y hx hy, getElem?_getD_of_lt _ _ (by omega)]
      simp [nextState, hd]
    · intro hd
      rw [hcell x y hx hy, getElem?_getD_of_lt _ _ (by omega)]
      simp [nextState, hd]
  · intro h; simp [h]
  · intro h; rw [hpop]; simp only [h, if_true, Nat.zero_add]
  · intro h hlt
    rw [if_pos h, Nat.zero_add, ← hpop]
    exact Nat.mod_eq_of_lt (lt_of_le_of_lt (population_le hR) hlt)

theorem update_generation_step_witness :
    Rect (calibOf 5 5 [(1, 2), (2, 2), (3, 2)]).grid 5 5 ∧
    9 ≤ (calibOf 5 5 [(1, 2), (2, 2), (3, 2)]).birthRule.length ∧
    9 ≤ (calibOf 5 5 [(1, 2), (2, 2), (3, 2)]).surviveRule.length ∧
    ∃ newGrid sum, (calibOf 5 5 [(1, 2), (2, 2), (3, 2)]).update true
        = some ({ (calibOf 5 5 [(1, 2), (2, 2), (3, 2)]) with grid := newGrid }, sum) ∧
      Rect newGrid 5 5 ∧
      Calib.get_width { (calibOf 5 5 [(1, 2), (2, 2), (3, 2)]) with grid := newGrid } = 5 ∧
      Calib.get_height { (calibOf 5 5 [(1, 2), (2, 2), (3, 2)]) with grid := newGrid }
        = some 5 ∧
      (∀ x y, x < 5 → y < 5 →
        (getCell (calibOf 5 5 [(1, 2), (2, 2), (3, 2)]).grid x y = some false →
          getCell newGrid x y = (calibOf 5 5 [(1, 2), (2, 2), (3, 2)]).birthRule[
            mooreCount (calibOf 5 5 [(1, 2), (2, 2), (3, 2)]).grid 5 5 x y true]?) ∧
        (getCell (calibOf 5 5 [(1, 2), (2, 2), (3, 2)]).grid x y = some true →
          getCell newGrid x y = (calibOf 5 5 [(1, 2), (2, 2), (3, 2)]).surviveRule[
            mooreCount (calibOf 5 5 [(1, 2), (2, 2), (3, 2)]).grid 5 5 x y true]?)) ∧
      (true = false → sum = 0) ∧
      (true = true → sum = population newGrid % UINT) ∧
      (true = true → 5 * 5 < UINT → sum = population newGrid) :=
  ⟨by decide, by decide, by decide,
    update_generation_step (calibOf 5 5 [(1, 2), (2, 2), (3, 2)]) 5 5 true
      (by decide) (by decide) (by decide) (by decide) (by decide) (by decide) (by decide)⟩

/-! ## Uniform growth -/

theorem getElem?_pad {α : Type} (l : List α) (m : Nat) (d : α) (i : Nat) :
    (List.replicate m d ++ l ++ List.replicate m d)[i]?
      = if i < m then some d
        else if i < m + l.length then l[i - m]?
        else if i < m + l.length + m then some d else none := by
  by_cases h1 : i < m
  · simp only [h1, if_true]
    rw [List.append_assoc, List.getElem?_append_left (by simpa using h1)]
    simp [List.getElem?_replicate, h1]
  · simp only [h1, if_false]
    by_cases h2 : i < m + l.length
    · simp only [h2, if_true]
      rw [List.getElem?_append_left (by simpa using h2),
        List.getElem?_append_right (by simpa using h1)]
      simp
    · simp only [h2, if_false]
      rw [List.getElem?_append_right (by simp; omega)]
      simp only [List.length_append, List.length_replicate, List.getElem?_replicate]
      by_cases h3 : i < m + l.length + m
      · have : i - (m + l.length) < m := by omega
        simp [h3, this]
      · have : ¬ (i - (m + l.length) < m) := by omega
        simp [h3, this]

theorem count_true_pad (col : List Bool) (m : Nat) :
    (List.replicate m false ++ col ++ List.replicate m false).count true = col.count true := by
  simp [List.count_append, List.count_replicate]

theorem replicate_false_getElem? (k y : Nat) (b : Bool)
    (h : (List.replicate k false)[y]? = some b) : b = false := by
  rw [List.getElem?_replicate] at h
  split at h
  · exact (Option.some.inj h).symm
  · exact absurd h (by simp)

theorem getCell_add_size (g : gridType) (m x' y' : Nat) (b : Bool)
    (h : getCell (Calib.add_size_all_sides { grid := g } m).grid x' y' = some b) :
    (m ≤ x' ∧ m ≤ y' ∧ getCell g (x' - m) (y' - m) = some b) ∨ b = false := by
  simp only [Calib.add_size_all_sides, getCell] at h
  rw [getElem?_pad] at h
  by_cases h1 : x' < m
  · simp only [h1, if_true] at h
    right; exact replicate_false_getElem? _ _ _ h
  · simp only [h1, if_false] at h
    by_cases h2 : x' < m + (g.map (fun col =>
        List.replicate m false ++ col ++ List.replicate m false)).length
    · simp only [h2, if_true, List.getElem?_map] at h
      cases hc : g[x' - m]? with
      | none => rw [hc] at h; exact absurd h (by simp)
      | some col =>
        rw [hc] at h
        simp only [Option.map_some'] at h
        rw [getElem?_pad] at h
        by_cases h3 : y' < m
        · simp only [h3, if_true] at h
          right; exact (Option.some.inj h).symm
        · simp only [h3, if_false] at h
          by_cases h4 : y' < m + col.length
          · simp only [h4, if_true] at h
            left
            refine ⟨by omega, by omega, ?_⟩
            simp [getCell, hc, h]
          · simp only [h4, if_false] at h
            split at h
            · right; exact (Option.some.inj h).symm
            · exact absurd h (by simp)
    · simp only [h2, if_false] at h
      by_cases h3 : x' < m + (g.map (fun col =>
          List.replicate m false ++ col ++ List.replicate m false)).length + m
      · simp only [h3, if_true] at h
        right; exact replicate_false_getElem? _ _ _ h
      · simp only [h3, if_false] at h
        exact absurd h (by simp)

theorem getCell_add_size_shift (g : gridType) (m x y : Nat) (b : Bool)
    (h : getCell g x y = some b) :
    getCell (Calib.add_size_all_sides { grid := g } m).grid (x + m) (y + m) = some b := by
  simp only [getCell] at h
  cases hc : g[x]? with
  | none => rw [hc] at h; exact absurd h (by simp)
  | some col =>
    rw [hc] at h
    simp only at h
    have hx : x < g.length := (List.getElem?_eq_some_iff.1 hc).1
    have hy : y < col.length := (List.getElem?_eq_some_iff.1 h).1
    simp only [Calib.add_size_all_sides, getCell]
    rw [getElem?_pad]
    have h1 : ¬ (x + m < m) := by omega
    have h2 : x + m < m + (g.map (fun col =>
        List.replicate m false ++ col ++ List.replicate m false)).length := by simp; omega
    simp only [h1, h2, if_false, if_true, List.getElem?_map, Nat.add_sub_cancel, hc,
      Option.map_some']
    rw [getElem?_pad]
    have h3 : ¬ (y + m < m) := by omega
    have h4 : y + m < m + col.length := by omega
    simp only [h3, h4, if_false, if_true, Nat.add_sub_cancel, h]

theorem population_add_size (g : gridType) (m : Nat) :
    population (Calib.add_size_all_sides { grid := g } m).grid = population g := by
  simp only [Calib.add_size_all_sides, population, List.map_append, List.map_replicate,
    List.sum_append, List.sum_replicate, List.count_replicate, List.map_map]
  have : (fun col : List Bool => col.count true) ∘
      (fun col => List.replicate m false ++ col ++ List.replicate m false)
      = fun col => col.count true := by
    funext col
    simp [List.count_append, List.count_replicate]
  rw [this]
  simp

theorem add_size_grid_eq (c : Calib) (m : Nat) :
    (c.add_size_all_sides m).grid = (Calib.add_size_all_sides { grid := c.grid } m).grid := rfl

/-- C5. On a rectangular `W × H` grid (`W, H > 0`) and for every margin `m`, after
`add_size_all_sides(m)` the cell `(x+m, y+m)` has the state `(x,y)` had, for all `x < W` and
`y < H`; every other cell of the grown grid is dead; and the live population is unchanged. -/
theorem add_size_all_sides_preserves (c : Calib) (W H m : Nat)
    (hrect : Rect c.grid W H) (hW0 : 0 < W) (hH0 : 0 < H) :
    (∀ x y, x < W → y < H →
      getCell (c.add_size_all_sides m).grid (x + m) (y + m) = getCell c.grid x y ∧
      (getCell c.grid x y).isSome = true) ∧
    (∀ x' y' b, getCell (c.add_size_all_sides m).grid x' y' = some b →
      ¬ (∃ x y, x < W ∧ y < H ∧ x' = x + m ∧ y' = y + m) → b = false) ∧
    population (c.add_size_all_sides m).grid = population c.grid := by
  refine ⟨?_, ?_, ?_⟩
  · intro x y hx hy
    obtain ⟨b, hb⟩ := getCell_rect hrect hx hy
    rw [add_size_grid_eq, getCell_add_size_shift c.grid m x y b hb, hb]
    exact ⟨rfl, rfl⟩
  · intro x' y' b hb hno
    rw [add_size_grid_eq] at hb
    rcases getCell_add_size c.grid m x' y' b hb with ⟨h1, h2, h3⟩ | h
    · exfalso
      obtain ⟨h4, h5⟩ := getCell_some_lt hrect h3
      exact hno ⟨x' - m, y' - m, h4, h5, by omega, by omega⟩
    · exact h
  · rw [add_size_grid_eq]
    exact population_add_size c.grid m

theorem add_size_all_sides_preserves_witness :
    Rect (calibOf 2 3 [(1, 2)]).grid 2 3 ∧
    (∀ x y, x < 2 → y < 3 →
      getCell ((calibOf 2 3 [(1, 2)]).add_size_all_sides 1).grid (x + 1) (y + 1)
        = getCell (calibOf 2 3 [(1, 2)]).grid x y ∧
      (getCell (calibOf 2 3 [(1, 2)]).grid x y).isSome = true) ∧
    (∀ x' y' b, getCell ((calibOf 2 3 [(1, 2)]).add_size_all_sides 1).grid x' y' = some b →
      ¬ (∃ x y, x < 2 ∧ y < 3 ∧ x' = x + 1 ∧ y' = y + 1) → b = false) ∧
    population ((calibOf 2 3 [(1, 2)]).add_size_all_sides 1).grid
      = population (calibOf 2 3 [(1, 2)]).grid :=
  ⟨by decide,
    add_size_all_sides_preserves (calibOf 2 3 [(1, 2)]) 2 3 1 (by decide) (by decide) (by decide)⟩

/-- C4 at a grid that is not square: after `set_size(2,3)` and `add_size_all_sides(1)` the
object records the height `5`, but `get_height()` returns `4` and the columns have the
lengths `4, 5, 5, 4`: the inserted columns are sized from the width. -/
theorem add_size_all_sides_not_square :
    (Calib.add_size_all_sides (Calib.set_size {} 2 3) 1).get_width = 4 ∧
    (Calib.add_size_all_sides (Calib.set_size {} 2 3) 1).get_height = some 4 ∧
    (Calib.add_size_all_sides (Calib.set_size {} 2 3) 1).height = 5 ∧
    (Calib.add_size_all_sides (Calib.set_size {} 2 3) 1).grid.map List.length = [4, 5, 5, 4] := by
  decide

/-! ## The sectioned step -/

theorem sweepSum_split (bR sR : ruleType) (src : gridType) (W H a b c : Nat)
    (hab : a ≤ b) (hbc : b ≤ c) :
    sweepSum bR sR src W H a c = sweepSum bR sR src W H a b + sweepSum bR sR src W H b c := by
  unfold sweepSum
  rw [← Finset.sum_add_distrib]
  apply Finset.sum_congr rfl
  intro j _
  exact (Finset.sum_Ico_consecutive _ hab hbc).symm

theorem update_section_eq (c : Calib) {tmp : gridType} {W H : Nat}
    (hsrc : Rect c.grid W H) (htmp : Rect tmp W H) (hW0 : 0 < W)
    (hW : W < 2147483648) (hH : H < 2147483648)
    (hb : 9 ≤ c.birthRule.length) (hs : 9 ≤ c.surviveRule.length)
    (hn : 0 < c.numThreads) (i : Nat) (hi : i < c.numThreads) (doSum : Bool) :
    ∃ tmp', c.update_section i tmp 0 doSum
        = some (tmp', if doSum then
            sweepSum c.birthRule c.surviveRule c.grid W H (i * (W / c.numThreads))
              (i * (W / c.numThreads) + W / c.numThreads) % UINT
          else 0) ∧
      Rect tmp' W H ∧
      ∀ x' y', getCell tmp' x' y'
        = if (i * (W / c.numThreads) ≤ x' ∧ x' < i * (W / c.numThreads) + W / c.numThreads)
              ∧ y' < H
          then some (nextState c.birthRule c.surviveRule c.grid W H x' y')
          else getCell tmp x' y' := by
  obtain ⟨col0, hc0, hl0⟩ := hsrc.col hW0
  have hle : (i + 1) * (W / c.numThreads) ≤ W :=
    le_trans (Nat.mul_le_mul_right _ hi) (Nat.mul_div_le W c.numThreads)
  have hle' : i * (W / c.numThreads) + W / c.numThreads ≤ W := by
    rw [Nat.succ_mul] at hle; exact hle
  have hWU : W < UINT := by unfold UINT; omega
  have e1 : (i * (W / c.numThreads)) % UINT = i * (W / c.numThreads) :=
    Nat.mod_eq_of_lt (lt_of_le_of_lt (le_trans (Nat.le_add_right _ _) hle') hWU)
  have e2 : (i * (W / c.numThreads) + W / c.numThreads) % UINT
      = i * (W / c.numThreads) + W / c.numThreads :=
    Nat.mod_eq_of_lt (lt_of_le_of_lt hle' hWU)
  obtain ⟨g', hrun, hR, hG⟩ := sweep_eq c.birthRule c.surviveRule
    hsrc htmp hW hH hb hs (i * (W / c.numThreads)) (W / c.numThreads) hle' H (le_refl _)
    doSum 0 (by unfold UINT; omega)
  refine ⟨g', ?_, hR, hG⟩
  unfold Calib.update_section
  have hn' : c.numThreads ≠ 0 := by omega
  simp only [hn', if_false, hsrc.1, e1, e2, hc0, hl0, Nat.add_sub_cancel_left, hrun, Nat.zero_add,
    sweepSum]

theorem foldl_sum_append (sums : List Nat) (s : Nat) :
    (sums ++ [s]).foldl (fun fullSum sum => (fullSum + sum) % UINT) 0
      = (sums.foldl (fun fullSum sum => (fullSum + sum) % UINT) 0 + s) % UINT := by
  simp [List.foldl_append]

/-- The sectioned step on a grid `W × H` with a scratch buffer of the same dimensions: the
columns below `numThreads * (W / numThreads)` get their next-generation states, the other
columns get what the scratch buffer held. -/
theorem update_using_threads_eq (c : Calib) {W H : Nat}
    (hsrc : Rect c.grid W H) (htmp : Rect c.tmpGrid W H) (hW0 : 0 < W)
    (hW : W < 2147483648) (hH : H < 2147483648)
    (hb : 9 ≤ c.birthRule.length) (hs : 9 ≤ c.surviveRule.length)
    (hn : 0 < c.numThreads) (doSum : Bool) :
    ∃ tmp', c.update_using_threads doSum
        = some ({ c with grid := tmp', tmpGrid := tmp' },
            if doSum then
              sweepSum c.birthRule c.surviveRule c.grid W H 0
                (c.numThreads * (W / c.numThreads)) % UINT
            else 0) ∧
      Rect tmp' W H ∧
      ∀ x' y', getCell tmp' x' y'
        = if x' < c.numThreads * (W / c.numThreads) ∧ y' < H
          then some (nextState c.birthRule c.surviveRule c.grid W H x' y')
          else getCell c.tmpGrid x' y' := by
  obtain ⟨s', hrun, hR, hG, hS⟩ := forLoop_inv
    (Calib.sectionThread c doSum)
    (fun k st => Rect st.1 W H ∧
      (∀ x' y', getCell st.1 x' y'
        = if x' < k * (W / c.numThreads) ∧ y' < H
          then some (nextState c.birthRule c.surviveRule c.grid W H x' y')
          else getCell c.tmpGrid x' y') ∧
      st.2.foldl (fun fullSum sum => (fullSum + sum) % UINT) 0
        = if doSum then
            sweepSum c.birthRule c.surviveRule c.grid W H 0 (k * (W / c.numThreads)) % UINT
          else 0)
    c.numThreads 0 (c.tmpGrid, [])
    (by
      refine ⟨htmp, ?_, ?_⟩
      · intro x' y'; simp
      · cases doSum <;> simp [sweepSum])
    (by
      rintro k ⟨g, sums⟩ _ hk ⟨hR, hG, hS⟩
      simp only at hR hG hS
      obtain ⟨g', hsec, hR', hG'⟩ := update_section_eq c hsrc hR hW0 hW hH hb hs hn k
        (by omega) doSum
      refine ⟨(g', sums ++ [if doSum then
            sweepSum c.birthRule c.surviveRule c.grid W H (k * (W / c.numThreads))
              (k * (W / c.numThreads) + W / c.numThreads) % UINT
          else 0]), by simp only [Calib.sectionThread, hsec], hR', ?_, ?_⟩
      · intro x' y'
        simp only
        rw [hG' x' y', hG x' y']
        by_cases hy : y' < H
        · simp only [hy, and_true, Nat.succ_mul]
          by_cases h1 : x' < k * (W / c.numThreads)
          · have h2 : x' < k * (W / c.numThreads) + W / c.numThreads :=
              Nat.lt_add_right _ h1
            simp [h1, h2]
          · by_cases h2 : x' < k * (W / c.numThreads) + W / c.numThreads
            · have : k * (W / c.numThreads) ≤ x' := Nat.le_of_not_lt h1
              simp [h1, h2, this]
            · simp [h1, h2]
        · simp [hy]
      · simp only
        rw [foldl_sum_append, hS]
        cases doSum
        · simp [UINT]
        · simp only [if_true]
          rw [sweepSum_split _ _ _ _ _ 0 (k * (W / c.numThreads)) ((k + 1) * (W / c.numThreads))
            (Nat.zero_le _) (Nat.mul_le_mul_right _ (Nat.le_succ k)), Nat.succ_mul]
          unfold UINT
          omega)
  refine ⟨s'.1, ?_, hR, ?_⟩
  · unfold Calib.update_using_threads
    rw [hrun]
    simp only [Nat.zero_add] at hS
    simp only [hS]
  · simpa using hG

/-! ## The in-place step -/

theorem setCell_same {g : gridType} {W H : Nat} (h : Rect g W H) {x y : Nat} {v : Bool}
    (hv : getCell g x y = some v) : setCell g x y v = some g := by
  obtain ⟨hx, hy⟩ := getCell_some_lt h hv
  obtain ⟨g', hset, hR, hG⟩ := setCell_rect h hx hy v
  rw [hset]
  congr 1
  apply grid_ext hR h
  intro x' y' _ _
  rw [hG x' y']
  split
  · next hxy => rw [hxy.1, hxy.2, hv]
  · rfl

theorem update_naively_rect (c : Calib) {W H : Nat} (hsrc : Rect c.grid W H) (hW0 : 0 < W)
    (hW : W < 2147483648) (hH : H < 2147483648)
    (hb : 9 ≤ c.birthRule.length) (hs : 9 ≤ c.surviveRule.length) (doSum : Bool) :
    ∃ g' s, c.update_naively doSum = some ({ c with grid := g' }, s) ∧ Rect g' W H := by
  obtain ⟨col0, hc0, hl0⟩ := hsrc.col hW0
  obtain ⟨s', hrun, hR⟩ := forLoop_inv
    (fun y st => forLoop (fun x st2 =>
      stepCell c.birthRule c.surviveRule st2.1 st2.1 x y doSum st2.2) c.grid.length 0 st)
    (fun _ st => Rect st.1 W H) H 0 (c.grid, 0) hsrc
    (by
      rintro j ⟨g, s⟩ _ hj hR
      simp only at hR
      obtain ⟨t', hrow, hR'⟩ := forLoop_inv
        (fun x st2 => stepCell c.birthRule c.surviveRule st2.1 st2.1 x j doSum st2.2)
        (fun _ st => Rect st.1 W H) c.grid.length 0 (g, s) hR
        (by
          rintro i ⟨g2, s2⟩ _ hi hR2
          simp only at hR2
          rw [hsrc.1] at hi
          obtain ⟨g3, hstep, hR3, _⟩ := stepCell_eq hR2 hR2 hW hH hb hs
            (show i < W by omega) (show j < H by omega) doSum s2
          exact ⟨_, hstep, hR3⟩)
      exact ⟨t', hrow, hR'⟩)
  refine ⟨s'.1, s'.2, ?_, hR⟩
  unfold Calib.update_naively
  rw [hc0]
  simp only [hl0, hrun]

theorem update_naively_still (c : Calib) {W H : Nat} (hsrc : Rect c.grid W H) (hW0 : 0 < W)
    (hW : W < 2147483648) (hH : H < 2147483648)
    (hb : 9 ≤ c.birthRule.length) (hs : 9 ≤ c.surviveRule.length) (doSum : Bool)
    (hfix : ∀ x y, x < W → y < H →
      getCell c.grid x y = some (nextState c.birthRule c.surviveRule c.grid W H x y)) :
    c.update_naively doSum
      = some (c, if doSum then
          sweepSum c.birthRule c.surviveRule c.grid W H 0 (0 + W) % UINT else 0) := by
  obtain ⟨col0, hc0, hl0⟩ := hsrc.col hW0
  have hrow : ∀ j, j < H → ∀ s, s < UINT →
      forLoop (fun x st2 => stepCell c.birthRule c.surviveRule st2.1 st2.1 x j doSum st2.2)
        W 0 (c.grid, s)
      = some (c.grid, if doSum then
          (s + ∑ k in Ico 0 (0 + W),
            (nextState c.birthRule c.surviveRule c.grid W H k j).toNat) % UINT else s) := by
    intro j hj s hs'
    obtain ⟨t', hrun, hG, hS⟩ := forLoop_inv
      (fun x st2 => stepCell c.birthRule c.surviveRule st2.1 st2.1 x j doSum st2.2)
      (fun i st => st.1 = c.grid ∧
        st.2 = if doSum then
          (s + ∑ k in Ico 0 i,
            (nextState c.birthRule c.surviveRule c.grid W H k j).toNat) % UINT else s)
      W 0 (c.grid, s)
      (by
        refine ⟨rfl, ?_⟩
        cases doSum
        · simp
        · simp [Nat.mod_eq_of_lt hs'])
      (by
        rintro i ⟨g2, s2⟩ _ hi ⟨hg2, hs2⟩
        simp only at hg2 hs2
        subst hg2
        have hiW : i < W := by omega
        obtain ⟨g3, hstep, hR3, hG3⟩ := stepCell_eq hsrc hsrc hW hH hb hs hiW hj doSum s2
        have hg3 : g3 = c.grid := by
          apply grid_ext hR3 hsrc
          intro x' y' _ _
          rw [hG3 x' y']
          split
          · next hxy => rw [hxy.1, hxy.2, hfix i j hiW hj]
          · rfl
        refine ⟨_, hstep, hg3, ?_⟩
        simp only
        cases doSum
        · simpa using hs2
        · simp only [if_true] at hs2 ⊢
          rw [hs2, Finset.sum_Ico_succ_top (Nat.zero_le i)]
          unfold UINT
          omega)
    rw [hrun]
    simp only [Nat.zero_add] at hS ⊢
    rw [← hS, ← hG]
  obtain ⟨t', hrun, hG, hS⟩ := forLoop_inv
    (fun y st => forLoop (fun x st2 =>
      stepCell c.birthRule c.surviveRule st2.1 st2.1 x y doSum st2.2) c.grid.length 0 st)
    (fun j st => st.1 = c.grid ∧
      st.2 = if doSum then
        (∑ j' in range j, ∑ k in Ico 0 (0 + W),
          (nextState c.birthRule c.surviveRule c.grid W H k j').toNat) % UINT else 0)
    H 0 (c.grid, 0)
    (by
      refine ⟨rfl, ?_⟩
      cases doSum <;> simp)
    (by
      rintro j ⟨g2, s2⟩ _ hj ⟨hg2, hs2⟩
      simp only at hg2 hs2
      subst hg2
      have hs2lt : s2 < UINT := by
        rw [hs2]; cases doSum
        · simp [UINT]
        · simp only [if_true]; exact Nat.mod_lt _ (by unfold UINT; omega)
      refine ⟨_, by rw [hsrc.1]; exact hrow j (by omega) s2 hs2lt, rfl, ?_⟩
      simp only
      cases doSum
      · simpa using hs2
      · simp only [if_true] at hs2 ⊢
        rw [hs2, Finset.sum_range_succ]
        unfold UINT
        omega)
  unfold Calib.update_naively
  rw [hc0]
  simp only [hl0, hrun]
  simp only [Nat.zero_add] at hS hG
  have : t' = (c.grid, if doSum then
      sweepSum c.birthRule c.surviveRule c.grid W H 0 (0 + W) % UINT else 0) := by
    apply Prod.ext
    · exact hG
    · simp only [hS, sweepSum, Nat.zero_add]
  rw [this]

/-! ## Sectioned step against the in-place step -/

/-- C6, as the code has it. On a rectangular `W × H` grid whose scratch buffer has the same
dimensions (what `set_size` and `set_state` leave, see `set_size_rect` and `set_state_rect`),
with `numThreads >= 1` dividing `W` and a rule whose sets
have at least 9 entries, `update_using_threads` and `update_naively` both return and leave
`W × H` grids; and when the sectioned step leaves the grid as it was (a still life),
`update_naively` leaves that same grid and returns the same value. -/
theorem threads_vs_naive (c : Calib) (W H : Nat) (doSum : Bool)
    (hsrc : Rect c.grid W H) (htmp : Rect c.tmpGrid W H) (hW0 : 0 < W) (hH0 : 0 < H)
    (hW : W < 2147483648) (hH : H < 2147483648)
    (hb : 9 ≤ c.birthRule.length) (hs : 9 ≤ c.surviveRule.length)
    (hn : 1 ≤ c.numThreads) (hdiv : c.numThreads ∣ W) :
    ∃ t st n sn, c.update_using_threads doSum = some (t, st) ∧
      c.update_naively doSum = some (n, sn) ∧
      Rect t.grid W H ∧ Rect n.grid W H ∧
      (t.grid = c.grid → n.grid = t.grid ∧ sn = st) := by
  obtain ⟨tmp', ht, hRt, hGt⟩ := update_using_threads_eq c hsrc htmp hW0 hW hH hb hs hn doSum
  obtain ⟨g', s, hnv, hRn⟩ := update_naively_rect c hsrc hW0 hW hH hb hs doSum
  have hmul : c.numThreads * (W / c.numThreads) = W := Nat.mul_div_cancel' hdiv
  refine ⟨_, _, _, _, ht, hnv, hRt, hRn, ?_⟩
  intro hsame
  simp only at hsame
  have hfix : ∀ x y, x < W → y < H →
      getCell c.grid x y = some (nextState c.birthRule c.surviveRule c.grid W H x y) := by
    intro x y hx hy
    have h := hGt x y
    rw [hmul] at h
    simp only [hx, hy, and_self, if_true] at h
    rw [hsame] at h
    exact h
  have hstill := update_naively_still c hsrc hW0 hW hH hb hs doSum hfix
  rw [hstill] at hnv
  have h1 := (Prod.mk.inj (Option.some.inj hnv)).1
  have h2 := (Prod.mk.inj (Option.some.inj hnv)).2
  constructor
  · simp only
    rw [hsame]
    exact (congrArg Calib.grid h1).symm
  · rw [← h2, hmul, Nat.zero_add]

/-- C6 as stated fails. A `3 × 3` grid made by `set_size(3,3)` and three `set_state` calls
(the row `y = 0` alive), one thread, rule `B3/S23`: the sectioned step leaves all nine cells
alive and returns `9`, the in-place step leaves four cells alive and returns `4`. -/
theorem threads_naive_differ :
    ((Calib.set_state (Calib.set_size {} 3 3) 0 0 true).bind
        (fun c => (Calib.set_state c 1 0 true).bind (fun c => Calib.set_state c 2 0 true))
      = some (calibOf 3 3 [(0, 0), (1, 0), (2, 0)])) ∧
    (calibOf 3 3 [(0, 0), (1, 0), (2, 0)]).numThreads = 1 ∧
    ((calibOf 3 3 [(0, 0), (1, 0), (2, 0)]).update_using_threads true).map
        (fun r => (r.1.grid, r.2))
      = some ([[true, true, true], [true, true, true], [true, true, true]], 9) ∧
    ((calibOf 3 3 [(0, 0), (1, 0), (2, 0)]).update_naively true).map
        (fun r => (r.1.grid, r.2))
      = some ([[true, true, false], [true, false, false], [true, false, false]], 4) ∧
    ((calibOf 3 3 [(0, 0), (1, 0), (2, 0)]).update_using_threads true).map
        (fun r => (r.1.grid, r.2))
      ≠ ((calibOf 3 3 [(0, 0), (1, 0), (2, 0)]).update_naively true).map
        (fun r => (r.1.grid, r.2)) := by
  decide

theorem threads_vs_naive_witness :
    Rect (Calib.set_num_threads (calibOf 4 4 [(1, 1), (2, 1), (1, 2), (2, 2)]) 2).grid 4 4 ∧
    (Calib.set_num_threads (calibOf 4 4 [(1, 1), (2, 1), (1, 2), (2, 2)]) 2).numThreads ∣ 4 ∧
    ∃ t st n sn,
      (Calib.set_num_threads (calibOf 4 4 [(1, 1), (2, 1), (1, 2), (2, 2)]) 2).update_using_threads
        true = some (t, st) ∧
      (Calib.set_num_threads (calibOf 4 4 [(1, 1), (2, 1), (1, 2), (2, 2)]) 2).update_naively
        true = some (n, sn) ∧
      Rect t.grid 4 4 ∧ Rect n.grid 4 4 ∧
      (t.grid = (Calib.set_num_threads (calibOf 4 4 [(1, 1), (2, 1), (1, 2), (2, 2)]) 2).grid →
        n.grid = t.grid ∧ sn = st) :=
  ⟨by decide, by decide,
    threads_vs_naive (Calib.set_num_threads (calibOf 4 4 [(1, 1), (2, 1), (1, 2), (2, 2)]) 2)
      4 4 true (by decide) (by decide) (by decide) (by decide) (by decide) (by decide)
      (by decide) (by decide) (by decide) (by decide)⟩

/-! ## Pattern text -/

theorem str_n_times_b (n : Nat) : str_n_times ['b'] n = List.replicate n 'b' := by
  induction n with
  | zero => rfl
  | succ n ih => rw [str_n_times, ih, List.replicate_succ']

theorem patternRows_nil (w h : Nat) :
    patternRows [] w h = List.replicate h (str_n_times ['b'] w) := by
  rw [str_n_times_b]
  apply List.ext_getElem
  · simp [patternRows]
  · intro i h1 h2
    simp only [patternRows, List.getElem_map, List.getElem_replicate]
    apply List.ext_getElem
    · simp
    · intro j h3 h4
      simp

theorem setChar_patternRows (S : Object) (w h x y : Nat) (hx : x < w) (hy : y < h) :
    setChar (patternRows S w h) y x 'o' = some (patternRows (S ++ [(x, y)]) w h) := by
  have hlen : (patternRows S w h).length = h := by simp [patternRows]
  have hy' : y < (patternRows S w h).length := by rw [hlen]; exact hy
  have hrow : (patternRows S w h)[y]? = some ((List.range w).map
      (fun x' => if (x', y) ∈ S then 'o' else 'b')) := by
    rw [List.getElem?_eq_getElem hy']
    simp [patternRows]
  unfold setChar
  rw [hrow]
  simp only [List.length_map, List.length_range, hx, if_true]
  congr 1
  apply List.ext_getElem
  · simp [patternRows]
  · intro i h1 h2
    have hi : i < h := by simpa [patternRows] using h2
    by_cases hiy : i = y
    · subst hiy
      rw [List.getElem_set_self]
      apply List.ext_getElem
      · simp [patternRows]
      · intro j h3 h4
        have hj : j < w := by simpa [patternRows] using h4
        by_cases hjx : j = x
        · subst hjx
          rw [List.getElem_set_self]
          simp [patternRows]
        · rw [List.getElem_set_ne (Ne.symm hjx)]
          simp [patternRows, hjx]
    · rw [List.getElem_set_ne (Ne.symm hiy)]
      simp only [patternRows, List.getElem_map, List.getElem_range]
      apply List.map_congr_left
      intro j _
      simp [hiy]

theorem foldlM_setChar (obj S : Object) (w h : Nat)
    (hobj : ∀ p ∈ obj, p.1 < w ∧ p.2 < h) :
    obj.foldlM (fun rows pos => setChar rows pos.2 pos.1 'o') (patternRows S w h)
      = some (patternRows (S ++ obj) w h) := by
  induction obj generalizing S with
  | nil => simp
  | cons p rest ih =>
    obtain ⟨h1, h2⟩ := hobj p (List.mem_cons_self _ _)
    rw [List.foldlM_cons, setChar_patternRows S w h p.1 p.2 h1 h2]
    simp only [Option.some_bind, Option.bind_eq_bind]
    rw [ih (S ++ [(p.1, p.2)]) (fun q hq => hobj q (List.mem_cons_of_mem _ hq))]
    simp

theorem foldl_rows (rows : List (List Char)) (acc : List Char) :
    rows.foldl (fun out row => out ++ (row ++ ['$'])) acc
      = acc ++ (rows.map (fun row => row ++ ['$'])).flatten := by
  induction rows generalizing acc with
  | nil => simp
  | cons r rest ih => simp [ih]

/-- C8. For every `w`, `h`, rule and object whose positions all satisfy `x < w` and
`y < h`, `object_to_rle` returns the header `x=<w>,y=<h>,rule=<rule_to_rulestring(rule)>`,
a newline, and the body: `h` rows of exactly `w` characters, `'o'` at column `x` of row `y`
when `(x,y)` is in the object and `'b'` otherwise, each row followed by the row terminator
`'$'`, and the pattern terminator `'!'` at the end. -/
theorem object_to_rle_layout (obj : Object) (rule : ruleType × ruleType) (w h : Nat)
    (hobj : ∀ p ∈ obj, p.1 < w ∧ p.2 < h) :
    object_to_rle obj rule w h
      = some ("x=".toList ++ (Nat.repr w).toList ++ ",y=".toList ++ (Nat.repr h).toList
          ++ ",rule=".toList ++ rule_to_rulestring rule ++ ['\n']
          ++ ((patternRows obj w h).map (fun row => row ++ ['$'])).flatten ++ ['!']) ∧
    (patternRows obj w h).length = h ∧
    (∀ row ∈ patternRows obj w h, row.length = w) ∧
    (∀ x y, x < w → y < h →
      ((patternRows obj w h).getD y []).getD x ' ' = if (x, y) ∈ obj then 'o' else 'b') := by
  refine ⟨?_, by simp [patternRows], ?_, ?_⟩
  · unfold object_to_rle object_to_rle_object
    simp only [← patternRows_nil]
    rw [foldlM_setChar obj [] w h hobj]
    simp only [List.nil_append, foldl_rows, to_str, List.append_assoc]
  · intro row hrow
    simp only [patternRows, List.mem_map, List.mem_range] at hrow
    obtain ⟨y, _, hy⟩ := hrow
    rw [← hy]; simp
  · intro x y hx hy
    simp [patternRows, List.getD_eq_getElem?_getD, List.getElem?_range, hx, hy]

theorem object_to_rle_layout_witness :
    (∀ p ∈ [((1, 1) : Position)], p.1 < 3 ∧ p.2 < 2) ∧
    object_to_rle [(1, 1)] lifeRule 3 2 = some "x=3,y=2,rule=B3/S23\nbbb$bob$!".toList :=
  ⟨by decide, (object_to_rle_layout [(1, 1)] lifeRule 3 2 (by decide)).1.trans (by decide)⟩

/-! ## Object extraction -/

theorem value_in_vector_iff {T : Type} [DecidableEq T] (e : T) (l : List T) :
    value_in_vector e l = true ↔ e ∈ l := by
  induction l with
  | nil => simp [value_in_vector]
  | cons a rest ih =>
    by_cases h : a = e
    · simp [value_in_vector, h]
    · simp only [value_in_vector, h, if_false, ih, List.mem_cons]
      constructor
      · intro h'; exact Or.inr h'
      · rintro (h' | h')
        · exact absurd h'.symm h
        · exact h'

theorem mem_neighborhood_iff (d : Int × Int) : d ∈ neighborhood ↔ d ∈ mooreOffsets := by
  simp only [neighborhood, mooreOffsets, List.mem_cons, List.mem_singleton, List.not_mem_nil,
    or_false]
  tauto

theorem positionsLoop_eq {g : gridType} {W H : Nat} (h : Rect g W H)
    (hW : W < 2147483648) (hH : H < 2147483648) {x y : Nat} (hx : x < W) (hy : y < H)
    (offs : List (Int × Int)) (ho : UnitOffsets offs) (acc : List Position) :
    positionsLoop g x y offs acc
      = some (acc ++ offs.map (fun d => (wrapCoord W x d.1, wrapCoord H y d.2))) := by
  induction offs generalizing acc with
  | nil => simp [positionsLoop]
  | cons d rest ih =>
    obtain ⟨hd1, hd2⟩ := ho d (List.mem_cons_self _ _)
    obtain ⟨col0, hc0, hl0⟩ := h.col (by omega : 0 < W)
    rw [positionsLoop, h.1, modulo_eq_wrapCoord W x d.1 hW hx hd1, hc0]
    simp only [hl0, modulo_eq_wrapCoord H y d.2 hH hy hd2]
    rw [ih (fun e he => ho e (List.mem_cons_of_mem _ he))]
    simp

theorem get_neighbor_positions_eq (c : Calib) {W H : Nat} (h : Rect c.grid W H)
    (hW : W < 2147483648) (hH : H < 2147483648) {x y : Nat} (hx : x < W) (hy : y < H) :
    c.get_neighbor_positions x y
      = some (neighborhood.map (fun d => (wrapCoord W x d.1, wrapCoord H y d.2))) := by
  unfold Calib.get_neighbor_positions
  rw [positionsLoop_eq h hW hH hx hy neighborhood unitOffsets_neighborhood []]
  simp

theorem visitNeighbors_spec {g : gridType} {W H : Nat} (h : Rect g W H)
    (ns : List Position) (out : Object) (hns : ∀ q ∈ ns, q.1 < W ∧ q.2 < H) :
    ∃ extra, visitNeighbors g ns out = some (out ++ extra) ∧
      (∀ q ∈ extra, q ∈ ns ∧ getCell g q.1 q.2 = some true ∧ q ∉ out) ∧
      extra.Nodup ∧
      (∀ q ∈ ns, getCell g q.1 q.2 = some true → q ∈ out ∨ q ∈ extra) := by
  induction ns generalizing out with
  | nil => exact ⟨[], by simp [visitNeighbors], by simp, by simp, by simp⟩
  | cons p rest ih =>
    have hrest : ∀ q ∈ rest, q.1 < W ∧ q.2 < H := fun q hq => hns q (List.mem_cons_of_mem _ hq)
    obtain ⟨hp1, hp2⟩ := hns p (List.mem_cons_self _ _)
    by_cases hin : p ∈ out
    · obtain ⟨extra, he, h1, h2, h3⟩ := ih out hrest
      refine ⟨extra, ?_, ?_, h2, ?_⟩
      · rw [visitNeighbors, (value_in_vector_iff p out).2 hin]; simpa using he
      · intro q hq
        obtain ⟨a, b, c'⟩ := h1 q hq
        exact ⟨List.mem_cons_of_mem _ a, b, c'⟩
      · intro q hq hlive
        rcases List.mem_cons.1 hq with hqp | hqr
        · left; rw [hqp]; exact hin
        · exact h3 q hqr hlive
    · have hv : value_in_vector p out = false := by
        cases hvv : value_in_vector p out with
        | false => rfl
        | true => exact absurd ((value_in_vector_iff p out).1 hvv) hin
      obtain ⟨b, hb⟩ := getCell_rect h hp1 hp2
      cases b with
      | false =>
        obtain ⟨extra, he, h1, h2, h3⟩ := ih out hrest
        refine ⟨extra, ?_, ?_, h2, ?_⟩
        · rw [visitNeighbors, hv]; simp only [Bool.false_eq_true, if_false, hb]; exact he
        · intro q hq
          obtain ⟨a, b, c'⟩ := h1 q hq
          exact ⟨List.mem_cons_of_mem _ a, b, c'⟩
        · intro q hq hlive
          rcases List.mem_cons.1 hq with hqp | hqr
          · rw [hqp, hb] at hlive; exact absurd hlive (by simp)
          · exact h3 q hqr hlive
      | true =>
        obtain ⟨extra, he, h1, h2, h3⟩ := ih (out ++ [p]) hrest
        refine ⟨p :: extra, ?_, ?_, ?_, ?_⟩
        · rw [visitNeighbors, hv]; simp only [Bool.false_eq_true, if_false, hb]
          rw [he]; simp
        · intro q hq
          rcases List.mem_cons.1 hq with hqp | hqe
          · rw [hqp]; exact ⟨List.mem_cons_self _ _, hb, hin⟩
          · obtain ⟨a, b, c'⟩ := h1 q hqe
            exact ⟨List.mem_cons_of_mem _ a, b, fun hc => c' (List.mem_append_left _ hc)⟩
        · rw [List.nodup_cons]
          refine ⟨?_, h2⟩
          intro hpe
          exact (h1 p hpe).2.2 (List.mem_append_right _ (List.mem_singleton_self p))
        · intro q hq hlive
          rcases List.mem_cons.1 hq with hqp | hqr
          · right; rw [hqp]; exact List.mem_cons_self _ _
          · rcases h3 q hqr hlive with h4 | h4
            · rcases List.mem_append.1 h4 with h5 | h5
              · left; exact h5
              · right; rw [List.mem_singleton.1 h5]; exact List.mem_cons_self _ _
            · right; exact List.mem_cons_of_mem _ h4

theorem Frontier.length_le {g : gridType} {W H : Nat} {seed : Position} {i : Nat}
    {out : Object} (h : Frontier g W H seed i out) : out.length ≤ W * H := by
  obtain ⟨hnd, hin, _⟩ := h
  have hsub : out.toFinset ⊆ Finset.range W ×ˢ Finset.range H := by
    intro p hp
    obtain ⟨h1, h2⟩ := hin p (List.mem_toFinset.1 hp)
    simp [Finset.mem_product, h1, h2]
  have := Finset.card_le_card hsub
  rw [List.toFinset_card_of_nodup hnd, Finset.card_product, Finset.card_range,
    Finset.card_range] at this
  exact this

theorem frontier_step (c : Calib) {W H : Nat} (hrect : Rect c.grid W H)
    (hW : W < 2147483648) (hH : H < 2147483648) {seed : Position} {i : Nat} {out : Object}
    (hF : Frontier c.grid W H seed i out) (hi : i < out.length) :
    ∃ cellPos neighbors out', out[i]? = some cellPos ∧
      c.get_neighbor_positions cellPos.1 cellPos.2 = some neighbors ∧
      visitNeighbors c.grid neighbors out = some out' ∧
      Frontier c.grid W H seed (i + 1) out' := by
  obtain ⟨hnd, hin, hreach, hseed, _, hclosed⟩ := hF
  have hcell : out[i]? = some out[i] := List.getElem?_eq_getElem hi
  have hmem : out[i] ∈ out := List.getElem_mem hi
  obtain ⟨hx, hy⟩ := hin _ hmem
  have hnb := get_neighbor_positions_eq c hrect hW hH hx hy
  have hns : ∀ q ∈ neighborhood.map
      (fun d => (wrapCoord W (out[i]).1 d.1, wrapCoord H (out[i]).2 d.2)),
      q.1 < W ∧ q.2 < H := by
    intro q hq
    obtain ⟨d, hd, rfl⟩ := List.mem_map.1 hq
    obtain ⟨hd1, hd2⟩ := unitOffsets_neighborhood d hd
    exact ⟨wrapCoord_lt W _ d.1 hx hd1, wrapCoord_lt H _ d.2 hy hd2⟩
  obtain ⟨extra, hv, he1, he2, he3⟩ := visitNeighbors_spec hrect _ out hns
  refine ⟨out[i], _, out ++ extra, hcell, hnb, hv, ?_, ?_, ?_, ?_, ?_, ?_⟩
  · rw [List.nodup_append]
    exact ⟨hnd, he2, fun a ha hb => (he1 a hb).2.2 ha⟩
  · intro p hp
    rcases List.mem_append.1 hp with h1 | h1
    · exact hin p h1
    · exact hns p (he1 p h1).1
  · intro p hp
    rcases List.mem_append.1 hp with h1 | h1
    · exact hreach p h1
    · obtain ⟨hpn, hlive, _⟩ := he1 p h1
      obtain ⟨d, hd, hdp⟩ := List.mem_map.1 hpn
      exact Relation.ReflTransGen.tail (hreach _ hmem)
        ⟨⟨d, (mem_neighborhood_iff d).1 hd, hdp.symm⟩, hlive⟩
  · exact List.mem_append_left _ hseed
  · rw [List.length_append]; omega
  · intro k p hk hkp q hq
    by_cases hki : k < i
    · have : out[k]? = some p := by
        rw [List.getElem?_append_left (by omega)] at hkp; exact hkp
      exact List.mem_append_left _ (hclosed k p hki this q hq)
    · have hke : k = i := by omega
      subst hke
      rw [List.getElem?_append_left hi, hcell] at hkp
      have hp : out[k] = p := Option.some.inj hkp
      obtain ⟨⟨d, hd, hdq⟩, hlive⟩ := hq
      have hqn : q ∈ neighborhood.map
          (fun d => (wrapCoord W (out[k]).1 d.1, wrapCoord H (out[k]).2 d.2)) := by
        rw [hp]
        exact List.mem_map.2 ⟨d, (mem_neighborhood_iff d).2 hd, hdq.symm⟩
      rcases he3 q hqn hlive with h1 | h1
      · exact List.mem_append_left _ h1
      · exact List.mem_append_right _ h1

theorem objectLoop_spec (c : Calib) {W H : Nat} (hrect : Rect c.grid W H)
    (hW : W < 2147483648) (hH : H < 2147483648) {seed : Position} :
    ∀ (fuel i : Nat) (out : Object), Frontier c.grid W H seed i out →
      W * H + 1 ≤ fuel + i →
      ∃ out', objectLoop c fuel i out = some out' ∧
        Frontier c.grid W H seed out'.length out' := by
  intro fuel
  induction fuel with
  | zero =>
    intro i out hF hfuel
    have h1 := hF.length_le
    have h2 := hF.2.2.2.2.1
    omega
  | succ fuel ih =>
    intro i out hF hfuel
    by_cases hi : i < out.length
    · obtain ⟨cellPos, neighbors, out', h1, h2, h3, hF'⟩ := frontier_step c hrect hW hH hF hi
      obtain ⟨res, hres, hFres⟩ := ih (i + 1) out' hF' (by omega)
      refine ⟨res, ?_, hFres⟩
      rw [objectLoop]
      simp only [hi, if_true, h1, h2, h3]
      exact hres
    · refine ⟨out, ?_, ?_⟩
      · rw [objectLoop]; simp only [hi, if_false]
      · have h2 := hF.2.2.2.2.1
        have : i = out.length := by omega
        rw [← this]; exact hF

theorem frontier_complete {g : gridType} {W H : Nat} {seed : Position} {out : Object}
    (hF : Frontier g W H seed out.length out) (p : Position) :
    p ∈ out ↔ Relation.ReflTransGen (liveStep g W H) seed p := by
  obtain ⟨_, _, hreach, hseed, _, hclosed⟩ := hF
  constructor
  · exact hreach p
  · intro h
    induction h with
    | refl => exact hseed
    | tail _ hstep ih =>
      obtain ⟨k, hk, hkp⟩ := List.getElem_of_mem ih
      exact hclosed k _ hk (by rw [List.getElem?_eq_getElem hk, hkp]) _ hstep

theorem liveStep_diag_up {g : gridType} {W H a b : Nat} (ha : a + 1 < W) (hb : b + 1 < H)
    (hl : getCell g (a + 1) (b + 1) = some true) :
    liveStep g W H (a, b) (a + 1, b + 1) := by
  refine ⟨⟨(1, 1), by simp [mooreOffsets], ?_⟩, hl⟩
  simp only
  rw [wrapCoord_one W a (by omega), wrapCoord_one H b (by omega)]
  have h1 : ¬ (a + 1 = W) := by omega
  have h2 : ¬ (b + 1 = H) := by omega
  simp [h1, h2]

theorem liveStep_diag_down {g : gridType} {W H a b : Nat} (ha : a + 1 < W) (hb : b + 1 < H)
    (hl : getCell g a b = some true) :
    liveStep g W H (a + 1, b + 1) (a, b) := by
  refine ⟨⟨(-1, -1), by simp [mooreOffsets], ?_⟩, hl⟩
  simp only
  rw [wrapCoord_neg_one W (a + 1) ha, wrapCoord_neg_one H (b + 1) hb]
  simp

/-- C7. On a rectangular `W × H` grid (`W, H > 0`, dimensions that fit an `int`) and an
in-bounds live seed `(x,y)`, `get_object_cells(x,y)` returns (any fuel of at least `W·H + 1`
is enough); the result has no position twice; a position is in it exactly when it can be
reached from the seed by a path of toroidally Moore-adjacent live cells, and all its
positions are alive. When the live cells are exactly a diagonal chain `(i,j)`, `(i+1,j+1)`,
`(i+2,j+2)`, the result is those three positions, each once, whichever of them is the seed. -/
theorem get_object_cells_component (c : Calib) (W H x y fuel : Nat)
    (hrect : Rect c.grid W H) (hW0 : 0 < W) (hH0 : 0 < H)
    (hW : W < 2147483648) (hH : H < 2147483648) (hx : x < W) (hy : y < H)
    (hlive : getCell c.grid x y = some true) (hfuel : W * H + 1 ≤ fuel) :
    ∃ out, c.get_object_cells fuel x y = some out ∧ out.Nodup ∧
      (∀ p, p ∈ out ↔ Relation.ReflTransGen (liveStep c.grid W H) (x, y) p) ∧
      (∀ p ∈ out, getCell c.grid p.1 p.2 = some true) ∧
      (∀ i j, i + 2 < W → j + 2 < H →
        (∀ a b, getCell c.grid a b = some true ↔
          (a, b) ∈ [(i, j), (i + 1, j + 1), (i + 2, j + 2)]) →
        out.Perm [(i, j), (i + 1, j + 1), (i + 2, j + 2)]) := by
  have hF0 : Frontier c.grid W H (x, y) 0 [(x, y)] := by
    refine ⟨by simp, ?_, ?_, by simp, by simp, ?_⟩
    · intro p hp; rw [List.mem_singleton.1 hp]; exact ⟨hx, hy⟩
    · intro p hp; rw [List.mem_singleton.1 hp]
    · intro k p hk; omega
  obtain ⟨out, hrun, hF⟩ := objectLoop_spec c hrect hW hH fuel 0 [(x, y)] hF0 (by omega)
  have hiff := frontier_complete hF
  have hall : ∀ p ∈ out, getCell c.grid p.1 p.2 = some true := by
    intro p hp
    have hr := (hiff p).1 hp
    cases hr with
    | refl => exact hlive
    | tail _ hstep => exact hstep.2
  refine ⟨out, hrun, hF.1, hiff, hall, ?_⟩
  intro i j hi hj honly
  have l0 : getCell c.grid i j = some true := (honly i j).2 (by simp)
  have l1 : getCell c.grid (i + 1) (j + 1) = some true := (honly _ _).2 (by simp)
  have l2 : getCell c.grid (i + 2) (j + 2) = some true := (honly _ _).2 (by simp)
  have s01 : liveStep c.grid W H (i, j) (i + 1, j + 1) :=
    liveStep_diag_up (by omega) (by omega) l1
  have s12 : liveStep c.grid W H (i + 1, j + 1) (i + 2, j + 2) :=
    liveStep_diag_up (a := i + 1) (b := j + 1) (by omega) (by omega) l2
  have s10 : liveStep c.grid W H (i + 1, j + 1) (i, j) :=
    liveStep_diag_down (by omega) (by omega) l0
  have s21 : liveStep c.grid W H (i + 2, j + 2) (i + 1, j + 1) :=
    liveStep_diag_down (a := i + 1) (b := j + 1) (by omega) (by omega) l1
  have hseed : (x, y) ∈ [(i, j), (i + 1, j + 1), (i + 2, j + 2)] := (honly x y).1 hlive
  have hnd3 : [(i, j), (i + 1, j + 1), (i + 2, j + 2)].Nodup := by
    simp only [List.nodup_cons, List.mem_cons, List.mem_singleton, Prod.mk.injEq,
      List.not_mem_nil, List.nodup_nil, not_false_eq_true, and_true, not_or]
    omega
  rw [List.perm_ext_iff_of_nodup hF.1 hnd3]
  intro p
  constructor
  · intro hp
    exact (honly p.1 p.2).1 (hall p hp)
  · intro hp
    rw [hiff p]
    simp only [List.mem_cons, List.mem_singleton, List.not_mem_nil, or_false] at hp hseed
    have r := @Relation.ReflTransGen.single _ (liveStep c.grid W H)
    have t := @Relation.ReflTransGen.trans _ (liveStep c.grid W H)
    rcases hseed with hs | hs | hs <;> rcases hp with hp | hp | hp <;> rw [hs, hp]
    · exact r s01
    · exact t (r s01) (r s12)
    · exact r s10
    · exact r s12
    · exact t (r s21) (r s10)
    · exact r s21

theorem get_object_cells_component_witness :
    Rect (calibOf 5 5 [(1, 1), (2, 2), (3, 3)]).grid 5 5 ∧
    getCell (calibOf 5 5 [(1, 1), (2, 2), (3, 3)]).grid 2 2 = some true ∧
    ∃ out, (calibOf 5 5 [(1, 1), (2, 2), (3, 3)]).get_object_cells 26 2 2 = some out ∧
      out.Nodup ∧
      (∀ p, p ∈ out ↔ Relation.ReflTransGen
        (liveStep (calibOf 5 5 [(1, 1), (2, 2), (3, 3)]).grid 5 5) (2, 2) p) ∧
      (∀ p ∈ out, getCell (calibOf 5 5 [(1, 1), (2, 2), (3, 3)]).grid p.1 p.2 = some true) ∧
      (∀ i j, i + 2 < 5 → j + 2 < 5 →
        (∀ a b, getCell (calibOf 5 5 [(1, 1), (2, 2), (3, 3)]).grid a b = some true ↔
          (a, b) ∈ [(i, j), (i + 1, j + 1), (i + 2, j + 2)]) →
        out.Perm [(i, j), (i + 1, j + 1), (i + 2, j + 2)]) :=
  ⟨by decide, by decide,
    get_object_cells_component (calibOf 5 5 [(1, 1), (2, 2), (3, 3)]) 5 5 2 2 26
      (by decide) (by decide) (by decide) (by decide) (by decide) (by decide) (by decide)
      (by decide) (by decide)⟩

/-! ## The parser at digit 9, and resizing to a zero dimension -/

/-- C11 at the digit `9`. Both sets are made with 9 entries, so the write at index `9` that
`B9/S` asks for is out of range and the parser does not return a rule; the serialiser does
print a tenth entry as the digit `9`. -/
theorem rulestring_to_rule_nine :
    rulestring_to_rule "B9/S".toList = none ∧
    rulestring_to_rule "B3/S9".toList = none ∧
    rule_to_rulestring (List.replicate 9 false ++ [true], List.replicate 9 false)
      = "B9/S".toList := by
  decide

/-- C12. When `w = 0` or `h = 0`, `set_size(w,h)` leaves the grid as it was: every cell state
and what `get_width` and `get_height` report are the same as before the call. -/
theorem set_size_zero_noop (c : Calib) (w h : Nat) (hz : w = 0 ∨ h = 0) :
    (c.set_size w h).grid = c.grid ∧
    (∀ x y, (c.set_size w h).get_state x y = c.get_state x y) ∧
    (c.set_size w h).get_width = c.get_width ∧
    (c.set_size w h).get_height = c.get_height := by
  have hg : (c.set_size w h).grid = c.grid := by
    simp only [Calib.set_size, Calib.resize_grids, hz, if_true]
  refine ⟨hg, ?_, ?_, ?_⟩
  · intro x y; simp only [Calib.get_state, hg]
  · simp only [Calib.get_width, hg]
  · simp only [Calib.get_height, hg]

theorem set_size_zero_noop_witness :
    ((0 : Nat) = 0 ∨ (5 : Nat) = 0) ∧
    ((calibOf 2 3 [(1, 2)]).set_size 0 5).grid = (calibOf 2 3 [(1, 2)]).grid ∧
    (∀ x y, ((calibOf 2 3 [(1, 2)]).set_size 0 5).get_state x y
      = (calibOf 2 3 [(1, 2)]).get_state x y) ∧
    ((calibOf 2 3 [(1, 2)]).set_size 0 5).get_width = (calibOf 2 3 [(1, 2)]).get_width ∧
    ((calibOf 2 3 [(1, 2)]).set_size 0 5).get_height = (calibOf 2 3 [(1, 2)]).get_height :=
  ⟨by decide, set_size_zero_noop (calibOf 2 3 [(1, 2)]) 0 5 (by decide)⟩

/-! ## Filling a grid -/

theorem fill_grid_eq (c : Calib) {W H : Nat} (hrect : Rect c.grid W H) (hW0 : 0 < W)
    (state : Bool) :
    ∃ g, c.fill_grid state = some { c with grid := g } ∧ Rect g W H ∧
      ∀ x y, x < W → y < H → getCell g x y = some state := by
  obtain ⟨col0, hc0, hl0⟩ := hrect.col hW0
  obtain ⟨g, hrun, hR, hG⟩ := forLoop_inv
    (fun y g => forLoop (fun x g2 => setCell g2 x y state) c.grid.length 0 g)
    (fun j g => Rect g W H ∧ ∀ x y, x < W → y < j → getCell g x y = some state)
    H 0 c.grid ⟨hrect, fun x y _ hy => absurd hy (by omega)⟩
    (by
      rintro j g _ hj ⟨hR, hG⟩
      obtain ⟨g', hrow, hR', hG'⟩ := forLoop_inv
        (fun x g2 => setCell g2 x j state)
        (fun i g2 => Rect g2 W H ∧ ∀ x y, x < W → (y < j ∨ (y = j ∧ x < i)) →
          getCell g2 x y = some state)
        c.grid.length 0 g
        ⟨hR, fun x y hx hy => by
          rcases hy with hy | ⟨_, hy⟩
          · exact hG x y hx hy
          · omega⟩
        (by
          rintro i g2 _ hi ⟨hR2, hG2⟩
          rw [hrect.1] at hi
          obtain ⟨g3, hset, hR3, hG3⟩ := setCell_rect hR2 (show i < W by omega)
            (show j < H by omega) state
          refine ⟨g3, hset, hR3, ?_⟩
          intro x y hx hy
          rw [hG3 x y]
          by_cases hxy : x = i ∧ y = j
          · simp [hxy]
          · simp only [hxy, if_false]
            apply hG2 x y hx
            rcases hy with hy | ⟨hy1, hy2⟩
            · exact Or.inl hy
            · right
              refine ⟨hy1, ?_⟩
              have : x ≠ i := fun h => hxy ⟨h, hy1⟩
              omega)
      refine ⟨g', hrow, hR', ?_⟩
      intro x y hx hy
      apply hG' x y hx
      rw [hrect.1]
      by_cases hyj : y = j
      · right; exact ⟨hyj, by omega⟩
      · left; omega)
  refine ⟨g, ?_, hR, ?_⟩
  · unfold Calib.fill_grid
    rw [hc0]
    simp only [hl0, hrun]
  · intro x y hx hy
    exact hG x y hx (by omega)

/-! ## The constructor of the searcher -/

theorem ceilDiv_eq_ceil (n k : Nat) (hk : 0 < k) :
    ceilDiv n k = ⌈(n : ℚ) / (k : ℚ)⌉₊ := by
  have hkq : (0 : ℚ) < k := by exact_mod_cast hk
  have h1 : k * ceilDiv n k ≤ n + (k - 1) := Nat.mul_div_le _ _
  have h2 : n + (k - 1) < k * ceilDiv n k + k := by
    have := Nat.lt_mul_div_succ (n + (k - 1)) hk
    rw [Nat.mul_succ] at this
    exact this
  symm
  by_cases hm : ceilDiv n k = 0
  · rw [hm] at h2 ⊢
    have hn : n = 0 := by omega
    subst hn
    simp
  · rw [Nat.ceil_eq_iff hm]
    constructor
    · rw [lt_div_iff₀ hkq]
      have hpos : 1 ≤ ceilDiv n k := Nat.one_le_iff_ne_zero.2 hm
      have h3 : (ceilDiv n k - 1) * k < n := by
        have : (ceilDiv n k - 1) * k + k = k * ceilDiv n k := by
          rw [Nat.sub_mul, Nat.one_mul, Nat.mul_comm k]
          exact Nat.sub_add_cancel (Nat.le_mul_of_pos_left k hpos)
        omega
      exact_mod_cast h3
    · rw [div_le_iff₀ hkq]
      have h3 : n ≤ ceilDiv n k * k := by
        rw [Nat.mul_comm]; omega
      exact_mod_cast h3

theorem sizeGrid_small (d : DeathSearcher) (h : d.nIters ≤ 6) :
    d.sizeGrid = { d with initialGridSize :=
      ((d.soupSize + (d.nIters * 2) % UINT) % UINT + (d.sizeDiff * 2) % UINT) % UINT } := by
  simp only [DeathSearcher.sizeGrid, h, if_true]

theorem sizeGrid_large (d : DeathSearcher) (h : 66 ≤ d.nIters) :
    d.sizeGrid = { { d with sizeDiff := ceilDiv d.nIters 20 } with
      initialGridSize := (d.initialGridSize + (ceilDiv d.nIters 20 * 2) % UINT) % UINT } := by
  have h1 : ¬ d.nIters ≤ 6 := by omega
  have h2 : d.nIters ≥ 66 := h
  simp only [DeathSearcher.sizeGrid, h1, h2, if_true, if_false]

theorem sizeGrid_mid (d : DeathSearcher) (h1 : 7 ≤ d.nIters) (h2 : d.nIters ≤ 65) :
    d.sizeGrid = { { d with sizeDiff := ceilDiv d.nIters 12 } with
      initialGridSize := (d.initialGridSize + (ceilDiv d.nIters 12 * 2) % UINT) % UINT } := by
  have h3 : ¬ d.nIters ≤ 6 := by omega
  have h4 : ¬ d.nIters ≥ 66 := by omega
  simp only [DeathSearcher.sizeGrid, h3, h4, if_false]

theorem sizeGrid_keeps (d : DeathSearcher) :
    d.sizeGrid.nIters = d.nIters ∧ d.sizeGrid.soupSize = d.soupSize ∧
    d.sizeGrid.result = d.result ∧ d.sizeGrid.caTemplate = d.caTemplate := by
  simp only [DeathSearcher.sizeGrid]
  split_ifs <;> exact ⟨rfl, rfl, rfl, rfl⟩

theorem sizeGrid_congr (d e : DeathSearcher) (h1 : d.nIters = e.nIters)
    (h2 : d.soupSize = e.soupSize) (h3 : d.initialGridSize = e.initialGridSize)
    (h4 : d.sizeDiff = e.sizeDiff) :
    d.sizeGrid.initialGridSize = e.sizeGrid.initialGridSize ∧
    d.sizeGrid.sizeDiff = e.sizeGrid.sizeDiff := by
  simp only [DeathSearcher.sizeGrid, h1, h2, h3, h4]
  split_ifs <;> exact ⟨rfl, rfl⟩

theorem set_size_keeps_rule (c : Calib) (w h : Nat) :
    (c.set_size w h).birthRule = c.birthRule ∧ (c.set_size w h).surviveRule = c.surviveRule ∧
    (c.set_size w h).numThreads = c.numThreads := by
  simp only [Calib.set_size, Calib.resize_grids]
  split_ifs <;> exact ⟨rfl, rfl, rfl⟩

theorem new_spec (ruleString : List Char) (rule : ruleType × ruleType)
    (n s b : Nat) (fn : List Char) (pct : Nat)
    (hrule : rulestring_to_rule ruleString = some rule)
    (hS : 0 < (DeathSearcher.sizeGrid { nIters := n, soupSize := s }).initialGridSize) :
    ∃ d, DeathSearcher.new ruleString n s b fn pct = some d ∧
      d.nIters = n ∧ d.soupSize = s ∧ d.result = [] ∧
      d.initialGridSize = (DeathSearcher.sizeGrid { nIters := n, soupSize := s }).initialGridSize ∧
      d.sizeDiff = (DeathSearcher.sizeGrid { nIters := n, soupSize := s }).sizeDiff ∧
      d.caTemplate.birthRule = rule.1 ∧ d.caTemplate.surviveRule = rule.2 ∧
      Rect d.caTemplate.grid d.initialGridSize d.initialGridSize ∧
      (∀ x y, x < d.initialGridSize → y < d.initialGridSize →
        getCell d.caTemplate.grid x y = some false) := by
  unfold DeathSearcher.new
  simp only [hrule]
  generalize hd1 : ({ nIters := n, batchSize := b, soupPercentAlive := pct % 256, resultFilename := fn, soupSize := s, caTemplate := Calib.set_rule {} rule } : DeathSearcher) = d1
  have hk := sizeGrid_keeps d1
  have hcg := sizeGrid_congr d1 { nIters := n, soupSize := s }
    (by rw [← hd1]) (by rw [← hd1]) (by rw [← hd1]) (by rw [← hd1])
  rw [← hcg.1, ← hcg.2]
  rw [← hcg.1] at hS
  obtain ⟨hR, _⟩ := set_size_rect d1.sizeGrid.caTemplate _ _ hS hS
  obtain ⟨g, hfill, hRg, hG⟩ := fill_grid_eq _ hR hS false
  have hsk := set_size_keeps_rule d1.sizeGrid.caTemplate d1.sizeGrid.initialGridSize
    d1.sizeGrid.initialGridSize
  rw [hfill]
  refine ⟨_, rfl, ?_⟩
  simp only [hk.1, hk.2.1, hk.2.2.1, true_and]
  refine ⟨by rw [← hd1], by rw [← hd1], by rw [← hd1], ?_, ?_, hRg, hG⟩
  · rw [hsk.1, hk.2.2.2, ← hd1]; rfl
  · rw [hsk.2.1, hk.2.2.2, ← hd1]; rfl

/-- C13. For every `nIters` (and a soup side that leaves room for the margin in an
`unsigned`), the constructor returns a searcher in which: when `nIters <= 6` the growth
increment `sizeDiff` is `0` and the initial margin, half of grid side minus soup side, is
`nIters`; when `nIters >= 66`, `sizeDiff` is the ceiling of `nIters/20`; when
`7 <= nIters <= 65`, `sizeDiff` is the ceiling of `nIters/12`. So `nIters = 5` gives margin
`5`, `nIters = 100` gives increment `5`, `nIters = 30` gives increment `3`. -/
theorem constructor_margin_sizing (ruleString : List Char) (rule : ruleType × ruleType)
    (nIters soupSize batchSize : Nat) (filename : List Char) (percent : Nat)
    (hrule : rulestring_to_rule ruleString = some rule)
    (hn : nIters < UINT) (hs0 : 0 < soupSize) (hs : soupSize + 12 < UINT) :
    ∃ d, DeathSearcher.new ruleString nIters soupSize batchSize filename percent = some d ∧
      d.nIters = nIters ∧ d.soupSize = soupSize ∧
      (nIters ≤ 6 → d.sizeDiff = 0 ∧ d.initialGridSize = soupSize + 2 * nIters ∧
        (d.initialGridSize - d.soupSize) / 2 = nIters) ∧
      (66 ≤ nIters → d.sizeDiff = ⌈(nIters : ℚ) / 20⌉₊) ∧
      (7 ≤ nIters → nIters ≤ 65 → d.sizeDiff = ⌈(nIters : ℚ) / 12⌉₊) ∧
      (nIters = 5 → (d.initialGridSize - d.soupSize) / 2 = 5) ∧
      (nIters = 100 → d.sizeDiff = 5) ∧
      (nIters = 30 → d.sizeDiff = 3) := by
  have hsmall : nIters ≤ 6 →
      (DeathSearcher.sizeGrid { nIters := nIters, soupSize := soupSize }).sizeDiff = 0 ∧
      (DeathSearcher.sizeGrid { nIters := nIters, soupSize := soupSize }).initialGridSize
        = soupSize + 2 * nIters := by
    intro h
    rw [sizeGrid_small _ h]
    simp only [UINT] at hs ⊢
    refine ⟨trivial, ?_⟩
    omega
  have hlarge : 66 ≤ nIters →
      (DeathSearcher.sizeGrid { nIters := nIters, soupSize := soupSize }).sizeDiff
        = ceilDiv nIters 20 ∧
      (DeathSearcher.sizeGrid { nIters := nIters, soupSize := soupSize }).initialGridSize
        = 16 + 2 * ceilDiv nIters 20 := by
    intro h
    rw [sizeGrid_large _ h]
    simp only [UINT, ceilDiv] at hn ⊢
    refine ⟨trivial, ?_⟩
    omega
  have hmid : 7 ≤ nIters → nIters ≤ 65 →
      (DeathSearcher.sizeGrid { nIters := nIters, soupSize := soupSize }).sizeDiff
        = ceilDiv nIters 12 ∧
      (DeathSearcher.sizeGrid { nIters := nIters, soupSize := soupSize }).initialGridSize
        = 16 + 2 * ceilDiv nIters 12 := by
    intro h1 h2
    rw [sizeGrid_mid _ h1 h2]
    simp only [UINT, ceilDiv] at hn ⊢
    refine ⟨trivial, ?_⟩
    omega
  have hS : 0 < (DeathSearcher.sizeGrid
      { nIters := nIters, soupSize := soupSize }).initialGridSize := by
    by_cases h1 : nIters ≤ 6
    · rw [(hsmall h1).2]; omega
    · by_cases h2 : 66 ≤ nIters
      · rw [(hlarge h2).2]; omega
      · rw [(hmid (by omega) (by omega)).2]; omega
  obtain ⟨d, hd, e1, e2, _, e4, e5, _⟩ :=
    new_spec ruleString rule nIters soupSize batchSize filename percent hrule hS
  refine ⟨d, hd, e1, e2, ?_, ?_, ?_, ?_, ?_, ?_⟩
  · intro h
    rw [e5, e4, e2, (hsmall h).1, (hsmall h).2]
    exact ⟨rfl, rfl, by omega⟩
  · intro h
    rw [e5, (hlarge h).1]
    exact_mod_cast ceilDiv_eq_ceil nIters 20 (by omega)
  · intro h1 h2
    rw [e5, (hmid h1 h2).1]
    exact_mod_cast ceilDiv_eq_ceil nIters 12 (by omega)
  · intro h
    rw [e4, e2, (hsmall (by omega)).2]
    omega
  · intro h
    rw [e5, (hlarge (by omega)).1, h]
    rfl
  · intro h
    rw [e5, (hmid (by omega) (by omega)).1, h]
    rfl

theorem constructor_margin_sizing_witness :
    rulestring_to_rule "b3/s23".toList = some lifeRule ∧ 5 < UINT ∧ 16 + 12 < UINT ∧
    ∃ d, DeathSearcher.new "b3/s23".toList 5 16 400 [] 50 = some d ∧
      d.nIters = 5 ∧ d.soupSize = 16 ∧
      (5 ≤ 6 → d.sizeDiff = 0 ∧ d.initialGridSize = 16 + 2 * 5 ∧
        (d.initialGridSize - d.soupSize) / 2 = 5) ∧
      (66 ≤ 5 → d.sizeDiff = ⌈((5 : Nat) : ℚ) / 20⌉₊) ∧
      (7 ≤ 5 → 5 ≤ 65 → d.sizeDiff = ⌈((5 : Nat) : ℚ) / 12⌉₊) ∧
      (5 = 5 → (d.initialGridSize - d.soupSize) / 2 = 5) ∧
      (5 = 100 → d.sizeDiff = 5) ∧
      (5 = 30 → d.sizeDiff = 3) :=
  ⟨by decide, by decide, by decide,
    constructor_margin_sizing "b3/s23".toList lifeRule 5 16 400 [] 50
      (by decide) (by decide) (by decide) (by decide)⟩

/-- C14 at a soup side other than `16`: `DeathSearcher("b3/s23", 30, 32, 400, "", 50)` gets
a `22 × 22` template grid, `16 + 2·3`; the configured soup side `32` with the increment `3`
on each side would be `38`. Only the branch `nIters <= 6` recomputes `initialGridSize` from
the configured `soupSize`. -/
theorem constructor_grid_ignores_soup_size :
    (DeathSearcher.new "b3/s23".toList 30 32 400 [] 50).map
        (fun d => (d.soupSize, d.sizeDiff, d.initialGridSize))
      = some (32, 3, 22) ∧
    (DeathSearcher.new "b3/s23".toList 30 32 400 [] 50).map
        (fun d => (d.caTemplate.get_width, d.caTemplate.get_height))
      = some (22, some 22) ∧
    (DeathSearcher.new "b3/s23".toList 5 32 400 [] 50).map
        (fun d => (d.soupSize, d.sizeDiff, d.initialGridSize))
      = some (32, 0, 42) := by
  decide

/-! ## The double-buffered step as a function of the grid -/

theorem nextGen_rect (bR sR : ruleType) (g : gridType) (W H : Nat) :
    Rect (nextGen bR sR g W H) W H := by
  refine ⟨by simp [nextGen], ?_⟩
  intro col hcol
  simp only [nextGen, List.mem_map] at hcol
  obtain ⟨x, _, rfl⟩ := hcol
  simp

theorem getCell_nextGen (bR sR : ruleType) (g : gridType) (W H : Nat) {x y : Nat}
    (hx : x < W) (hy : y < H) :
    getCell (nextGen bR sR g W H) x y = some (nextState bR sR g W H x y) := by
  simp [getCell, nextGen, List.getElem?_range, hx, hy]

theorem update_eq (c : Calib) {W H : Nat} (hrect : Rect c.grid W H) (hW0 : 0 < W)
    (hW : W < 2147483648) (hH : H < 2147483648)
    (hb : 9 ≤ c.birthRule.length) (hs : 9 ≤ c.surviveRule.length) (doSum : Bool) :
    c.update doSum
      = some ({ c with grid := nextGen c.birthRule c.surviveRule c.grid W H },
          if doSum then population (nextGen c.birthRule c.surviveRule c.grid W H) % UINT
          else 0) := by
  obtain ⟨col0, hc0, hl0⟩ := hrect.col hW0
  obtain ⟨g', hrun, hR, hG⟩ := sweep_eq c.birthRule c.surviveRule
    hrect hrect hW hH hb hs 0 W (by omega) H (le_refl _) doSum 0 (by unfold UINT; omega)
  have hcell : ∀ x y, x < W → y < H →
      getCell g' x y = some (nextState c.birthRule c.surviveRule c.grid W H x y) := by
    intro x y hx hy
    rw [hG x y]
    have : (0 ≤ x ∧ x < 0 + W) ∧ y < H := ⟨⟨by omega, by omega⟩, hy⟩
    simp only [this, and_self, if_true]
  have hg : g' = nextGen c.birthRule c.surviveRule c.grid W H := by
    apply grid_ext hR (nextGen_rect _ _ _ _ _)
    intro x y hx hy
    rw [hcell x y hx hy, getCell_nextGen _ _ _ _ _ hx hy]
  have hpop := population_of_cells hR _ hcell
  unfold Calib.update
  rw [hc0]
  simp only [hl0, hrect.1, hrun, Nat.zero_add]
  rw [← hg, hpop]
  simp only [Nat.zero_add]

/-! ## Neighbour counts when the live cells are a product of columns and rows -/

theorem mooreCount_product (g : gridType) (W H a b : Nat) (px py : Nat → Bool)
    (hlive : ∀ u v, getCell g u v = some true ↔ (px u = true ∧ py v = true)) :
    mooreCount g W H a b true
      = offsetCount (px (wrapCoord W a (-1))) (px (wrapCoord W a 0)) (px (wrapCoord W a 1))
          (py (wrapCoord H b (-1))) (py (wrapCoord H b 0)) (py (wrapCoord H b 1)) := by
  simp only [mooreCount, mooreOffsets, List.countP_cons, List.countP_nil, beq_iff_eq, hlive,
    offsetCount]
  generalize px (wrapCoord W a (-1)) = pm
  generalize px (wrapCoord W a 0) = p0
  generalize px (wrapCoord W a 1) = pp
  generalize py (wrapCoord H b (-1)) = qm
  generalize py (wrapCoord H b 0) = q0
  generalize py (wrapCoord H b 1) = qp
  cases pm <;> cases p0 <;> cases pp <;> cases qm <;> cases q0 <;> cases qp <;> rfl

theorem nextState_product (bR sR : ruleType) (g : gridType) (W H a b : Nat)
    (px py : Nat → Bool) (ha : a < W) (hb : b < H)
    (hlive : ∀ u v, getCell g u v = some true ↔ (px u = true ∧ py v = true)) :
    nextState bR sR g W H a b
      = if (px a && py b) = true then
          sR.getD (offsetCount (px (wrapCoord W a (-1))) (px a) (px (wrapCoord W a 1))
            (py (wrapCoord H b (-1))) (py b) (py (wrapCoord H b 1))) false
        else
          bR.getD (offsetCount (px (wrapCoord W a (-1))) (px a) (px (wrapCoord W a 1))
            (py (wrapCoord H b (-1))) (py b) (py (wrapCoord H b 1))) false := by
  unfold nextState
  rw [mooreCount_product g W H a b px py hlive, wrapCoord_zero W a ha, wrapCoord_zero H b hb]
  simp only [hlive, Bool.and_eq_true]

theorem life_block_bool : ∀ pm p0 pp qm q0 qp : Bool,
    (p0 = true → (pm != pp) = true) → (p0 = false → (pm && pp) = false) →
    (q0 = true → (qm != qp) = true) → (q0 = false → (qm && qp) = false) →
    lifeNext (p0 && q0) (offsetCount pm p0 pp qm q0 qp) = (p0 && q0) := by
  decide

theorem life_lone_bool : ∀ pm p0 pp qm q0 qp : Bool,
    (p0 = true → (pm || pp) = false) → (pm && pp) = false →
    (q0 = true → (qm || qp) = false) → (qm && qp) = false →
    lifeNext (p0 && q0) (offsetCount pm p0 pp qm q0 qp) = false := by
  decide

theorem wrapCoord_cases (W a : Nat) (ha : a < W) :
    ((a = 0 ∧ wrapCoord W a (-1) = W - 1) ∨ (a ≠ 0 ∧ wrapCoord W a (-1) = a - 1)) ∧
    ((a + 1 = W ∧ wrapCoord W a 1 = 0) ∨ (a + 1 ≠ W ∧ wrapCoord W a 1 = a + 1)) := by
  rw [wrapCoord_neg_one W a ha, wrapCoord_one W a ha]
  constructor
  · by_cases h0 : a = 0
    · left; exact ⟨h0, if_pos h0⟩
    · right; exact ⟨h0, if_neg h0⟩
  · by_cases h1 : a + 1 = W
    · left; exact ⟨h1, if_pos h1⟩
    · right; exact ⟨h1, if_neg h1⟩

theorem block_axis (W x a : Nat) (hW : 4 ≤ W) (hx : x + 1 < W) (ha : a < W) :
    (decide (a = x ∨ a = x + 1) = true →
      (decide (wrapCoord W a (-1) = x ∨ wrapCoord W a (-1) = x + 1)
        != decide (wrapCoord W a 1 = x ∨ wrapCoord W a 1 = x + 1)) = true) ∧
    (decide (a = x ∨ a = x + 1) = false →
      (decide (wrapCoord W a (-1) = x ∨ wrapCoord W a (-1) = x + 1)
        && decide (wrapCoord W a 1 = x ∨ wrapCoord W a 1 = x + 1)) = false) := by
  obtain ⟨hm, hp⟩ := wrapCoord_cases W a ha
  generalize wrapCoord W a (-1) = wm at hm ⊢
  generalize wrapCoord W a 1 = wp at hp ⊢
  simp only [bne_iff_ne, ne_eq, decide_eq_true_eq, decide_eq_false_iff_not, Bool.and_eq_false_imp,
    decide_eq_decide]
  omega

theorem lone_axis (W x a : Nat) (hW : 3 ≤ W) (hx : x < W) (ha : a < W) :
    (decide (a = x) = true →
      (decide (wrapCoord W a (-1) = x) || decide (wrapCoord W a 1 = x)) = false) ∧
    (decide (wrapCoord W a (-1) = x) && decide (wrapCoord W a 1 = x)) = false := by
  obtain ⟨hm, hp⟩ := wrapCoord_cases W a ha
  generalize wrapCoord W a (-1) = wm at hm ⊢
  generalize wrapCoord W a 1 = wp at hp ⊢
  simp only [decide_eq_true_eq, Bool.or_eq_false_iff, decide_eq_false_iff_not,
    Bool.and_eq_false_imp]
  omega

/-! ## The block and the lone cell under `B3/S23` -/

theorem sum_range_pair (W x : Nat) (hx : x + 1 < W) :
    ∑ u in range W, (if u = x ∨ u = x + 1 then 1 else 0) = 2 := by
  rw [Finset.sum_boole]
  have : (range W).filter (fun u => u = x ∨ u = x + 1) = {x, x + 1} := by
    ext u
    simp only [Finset.mem_filter, Finset.mem_range, Finset.mem_insert, Finset.mem_singleton]
    omega
  rw [this, Finset.card_pair (by omega)]
  rfl

theorem getCell_of_live_iff {g : gridType} {W H a b : Nat} (hrect : Rect g W H)
    (ha : a < W) (hb : b < H) (p : Bool) (h : getCell g a b = some true ↔ p = true) :
    getCell g a b = some p := by
  obtain ⟨v, hv⟩ := getCell_rect hrect ha hb
  rw [hv] at h ⊢
  cases v <;> cases p <;> simp_all

/-- C15. On a `W × H` grid with `W, H >= 4` (dimensions that fit an `int`) whose live cells
are exactly the block `(x,y)`, `(x+1,y)`, `(x,y+1)`, `(x+1,y+1)` lying inside the grid, one
`update(true)` under `B3/S23` returns `4` and leaves the object, so every cell, unchanged. -/
theorem block_still_life (c : Calib) (W H x y : Nat)
    (hrect : Rect c.grid W H) (hW4 : 4 ≤ W) (hH4 : 4 ≤ H)
    (hW : W < 2147483648) (hH : H < 2147483648) (hx : x + 1 < W) (hy : y + 1 < H)
    (hbr : c.birthRule = lifeRule.1) (hsr : c.surviveRule = lifeRule.2)
    (hlive : ∀ u v, getCell c.grid u v = some true ↔
      ((u = x ∨ u = x + 1) ∧ (v = y ∨ v = y + 1))) :
    c.update true = some (c, 4) := by
  have hlive' : ∀ u v, getCell c.grid u v = some true ↔
      (decide (u = x ∨ u = x + 1) = true ∧ decide (v = y ∨ v = y + 1) = true) := by
    intro u v; rw [hlive u v]; simp only [decide_eq_true_eq]
  have hnext : ∀ a b, a < W → b < H →
      nextState c.birthRule c.surviveRule c.grid W H a b
        = (decide (a = x ∨ a = x + 1) && decide (b = y ∨ b = y + 1)) := by
    intro a b ha hb
    rw [nextState_product _ _ _ W H a b _ _ ha hb hlive', hbr, hsr]
    obtain ⟨h1, h2⟩ := block_axis W x a hW4 hx ha
    obtain ⟨h3, h4⟩ := block_axis H y b hH4 hy hb
    exact life_block_bool _ _ _ _ _ _ h1 h2 h3 h4
  have hsame : nextGen c.birthRule c.surviveRule c.grid W H = c.grid := by
    apply grid_ext (nextGen_rect _ _ _ _ _) hrect
    intro a b ha hb
    rw [getCell_nextGen _ _ _ _ _ ha hb, hnext a b ha hb]
    symm
    apply getCell_of_live_iff hrect ha hb
    rw [hlive' a b, Bool.and_eq_true]
  have hpop : population c.grid = 4 := by
    rw [population_eq_sum hrect]
    have e : ∀ u v, (if getCell c.grid u v = some true then 1 else 0)
        = (if u = x ∨ u = x + 1 then 1 else 0) * (if v = y ∨ v = y + 1 then 1 else 0) := by
      intro u v
      simp only [hlive u v]
      by_cases h1 : u = x ∨ u = x + 1 <;> by_cases h2 : v = y ∨ v = y + 1 <;> simp [h1, h2]
    simp only [e]
    simp only [← Finset.mul_sum, ← Finset.sum_mul]
    rw [sum_range_pair W x hx, sum_range_pair H y hy]; norm_num
  rw [update_eq c hrect (by omega) hW hH (by rw [hbr]; decide) (by rw [hsr]; decide) true,
    hsame, hpop]
  rfl

theorem block_still_life_witness :
    Rect (calibOf 4 4 [(1, 1), (2, 1), (1, 2), (2, 2)]).grid 4 4 ∧
    (∀ u v, getCell (calibOf 4 4 [(1, 1), (2, 1), (1, 2), (2, 2)]).grid u v = some true ↔
      ((u = 1 ∨ u = 1 + 1) ∧ (v = 1 ∨ v = 1 + 1))) ∧
    (calibOf 4 4 [(1, 1), (2, 1), (1, 2), (2, 2)]).update true
      = some (calibOf 4 4 [(1, 1), (2, 1), (1, 2), (2, 2)], 4) :=
  have hlive : ∀ u v,
      getCell (calibOf 4 4 [(1, 1), (2, 1), (1, 2), (2, 2)]).grid u v = some true ↔
        ((u = 1 ∨ u = 1 + 1) ∧ (v = 1 ∨ v = 1 + 1)) := by
    intro u v
    by_cases hu : u < 4
    · by_cases hv : v < 4
      · interval_cases u <;> interval_cases v <;> decide
      · rw [getCell_eq_none_of_height (W := 4) (H := 4) (by decide) (by omega)]
        simp; omega
    · rw [getCell_eq_none_of_width (by simp [calibOf, gridOf]; omega)]
      simp; omega
  ⟨by decide, hlive,
    block_still_life (calibOf 4 4 [(1, 1), (2, 1), (1, 2), (2, 2)]) 4 4 1 1
      (by decide) (by decide) (by decide) (by decide) (by decide) (by decide) (by decide)
      (by decide) (by decide) hlive⟩

/-- C16. On a `W × H` grid with `W, H >= 3` (dimensions that fit an `int`) whose only live
cell is `(x,y)`, one `update(true)` under `B3/S23` returns `0` and leaves every cell dead. -/
theorem lone_cell_dies (c : Calib) (W H x y : Nat)
    (hrect : Rect c.grid W H) (hW3 : 3 ≤ W) (hH3 : 3 ≤ H)
    (hW : W < 2147483648) (hH : H < 2147483648) (hx : x < W) (hy : y < H)
    (hbr : c.birthRule = lifeRule.1) (hsr : c.surviveRule = lifeRule.2)
    (hlive : ∀ u v, getCell c.grid u v = some true ↔ (u = x ∧ v = y)) :
    ∃ g', c.update true = some ({ c with grid := g' }, 0) ∧ Rect g' W H ∧
      ∀ u v, u < W → v < H → getCell g' u v = some false := by
  have hlive' : ∀ u v, getCell c.grid u v = some true ↔
      (decide (u = x) = true ∧ decide (v = y) = true) := by
    intro u v; rw [hlive u v]; simp only [decide_eq_true_eq]
  have hnext : ∀ a b, a < W → b < H →
      nextState c.birthRule c.surviveRule c.grid W H a b = false := by
    intro a b ha hb
    rw [nextState_product _ _ _ W H a b _ _ ha hb hlive', hbr, hsr]
    obtain ⟨h1, h2⟩ := lone_axis W x a hW3 hx ha
    obtain ⟨h3, h4⟩ := lone_axis H y b hH3 hy hb
    exact life_lone_bool _ _ _ _ _ _ h1 h2 h3 h4
  have hcell : ∀ u v, u < W → v < H →
      getCell (nextGen c.birthRule c.surviveRule c.grid W H) u v = some false := by
    intro u v hu hv
    rw [getCell_nextGen _ _ _ _ _ hu hv, hnext u v hu hv]
  have hpop : population (nextGen c.birthRule c.surviveRule c.grid W H) = 0 := by
    rw [population_eq_sum (nextGen_rect _ _ _ _ _)]
    apply Finset.sum_eq_zero
    intro u hu
    apply Finset.sum_eq_zero
    intro v hv
    rw [hcell u v (Finset.mem_range.1 hu) (Finset.mem_range.1 hv)]
    simp
  refine ⟨_, ?_, nextGen_rect _ _ _ _ _, hcell⟩
  rw [update_eq c hrect (by omega) hW hH (by rw [hbr]; decide) (by rw [hsr]; decide) true, hpop]
  rfl

theorem lone_cell_dies_witness :
    Rect (calibOf 3 3 [(1, 1)]).grid 3 3 ∧
    (∀ u v, getCell (calibOf 3 3 [(1, 1)]).grid u v = some true ↔ (u = 1 ∧ v = 1)) ∧
    ∃ g', (calibOf 3 3 [(1, 1)]).update true
        = some ({ (calibOf 3 3 [(1, 1)]) with grid := g' }, 0) ∧ Rect g' 3 3 ∧
      ∀ u v, u < 3 → v < 3 → getCell g' u v = some false :=
  have hlive : ∀ u v,
      getCell (calibOf 3 3 [(1, 1)]).grid u v = some true ↔ (u = 1 ∧ v = 1) := by
    intro u v
    by_cases hu : u < 3
    · by_cases hv : v < 3
      · interval_cases u <;> interval_cases v <;> decide
      · rw [getCell_eq_none_of_height (W := 3) (H := 3) (by decide) (by omega)]
        simp; omega
    · rw [getCell_eq_none_of_width (by simp [calibOf, gridOf]; omega)]
      simp; omega
  ⟨by decide, hlive,
    lone_cell_dies (calibOf 3 3 [(1, 1)]) 3 3 1 1
      (by decide) (by decide) (by decide) (by decide) (by decide) (by decide) (by decide)
      (by decide) (by decide) hlive⟩

/-! ## Thread counts that do not divide the width -/

/-- C18, as the code has it. On a rectangular `W × H` grid whose scratch buffer has the same
dimensions, with `numThreads >= 1` not dividing `W` and a rule whose sets have at least 9
entries, `update_using_threads` returns; the columns below
`numThreads * (W / numThreads)` hold their next-generation states and the columns from that
bound on hold what the scratch buffer `tmpGrid` held there before the step. They hold the
grid's own states from before the step when the scratch buffer agreed with the grid on
those columns. -/
theorem threads_trailing_columns (c : Calib) (W H : Nat) (doSum : Bool)
    (hsrc : Rect c.grid W H) (htmp : Rect c.tmpGrid W H) (hW0 : 0 < W) (hH0 : 0 < H)
    (hW : W < 2147483648) (hH : H < 2147483648)
    (hb : 9 ≤ c.birthRule.length) (hs : 9 ≤ c.surviveRule.length)
    (hn : 1 ≤ c.numThreads) (hndiv : ¬ c.numThreads ∣ W) :
    ∃ t st, c.update_using_threads doSum = some (t, st) ∧ Rect t.grid W H ∧
      c.numThreads * (W / c.numThreads) < W ∧
      (∀ x y, x < c.numThreads * (W / c.numThreads) → y < H →
        getCell t.grid x y = some (nextState c.birthRule c.surviveRule c.grid W H x y)) ∧
      (∀ x y, c.numThreads * (W / c.numThreads) ≤ x → x < W → y < H →
        getCell t.grid x y = getCell c.tmpGrid x y) ∧
      ((∀ x y, c.numThreads * (W / c.numThreads) ≤ x → x < W → y < H →
          getCell c.tmpGrid x y = getCell c.grid x y) →
        ∀ x y, c.numThreads * (W / c.numThreads) ≤ x → x < W → y < H →
          getCell t.grid x y = getCell c.grid x y) := by
  obtain ⟨tmp', ht, hRt, hGt⟩ := update_using_threads_eq c hsrc htmp hW0 hW hH hb hs hn doSum
  have hlt : c.numThreads * (W / c.numThreads) < W := by
    rcases Nat.lt_or_ge (c.numThreads * (W / c.numThreads)) W with h | h
    · exact h
    · exfalso
      apply hndiv
      have hle := Nat.mul_div_le W c.numThreads
      exact ⟨W / c.numThreads, (Nat.le_antisymm hle h).symm⟩
  have htrail : ∀ x y, c.numThreads * (W / c.numThreads) ≤ x → x < W → y < H →
      getCell tmp' x y = getCell c.tmpGrid x y := by
    intro x y hx _ _
    rw [hGt x y]
    have : ¬ (x < c.numThreads * (W / c.numThreads) ∧ y < H) := fun h => by
      exact absurd h.1 (Nat.not_lt.2 hx)
    simp only [this, if_false]
  refine ⟨_, _, ht, hRt, hlt, ?_, htrail, ?_⟩
  · intro x y hx hy
    simp only
    rw [hGt x y]
    simp only [hx, hy, and_self, if_true]
  · intro hagree x y hx hxW hy
    simp only
    rw [htrail x y hx hxW hy, hagree x y hx hxW hy]

/-- C18 as stated fails. After `set_size(3,3)`, `set_num_threads(2)` and
`set_state(2,0,1)`, the column `2` is outside both sections; it ends the sectioned step with
the all-dead contents of the scratch buffer, so the cell `(2,0)`, alive before the step, is
dead after it. -/
theorem threads_trailing_not_frozen :
    (Calib.set_state (Calib.set_num_threads (Calib.set_size {} 3 3) 2) 2 0 true
      = some (Calib.set_num_threads (calibOf 3 3 [(2, 0)]) 2)) ∧
    ¬ (2 ∣ 3) ∧ 2 * (3 / 2) ≤ 2 ∧
    getCell (Calib.set_num_threads (calibOf 3 3 [(2, 0)]) 2).grid 2 0 = some true ∧
    ((Calib.set_num_threads (calibOf 3 3 [(2, 0)]) 2).update_using_threads false).bind
        (fun r => getCell r.1.grid 2 0) = some false := by
  decide

theorem threads_trailing_columns_witness :
    Rect (Calib.set_num_threads (calibOf 3 3 [(2, 0)]) 2).grid 3 3 ∧
    ¬ ((Calib.set_num_threads (calibOf 3 3 [(2, 0)]) 2).numThreads ∣ 3) ∧
    ∃ t st, (Calib.set_num_threads (calibOf 3 3 [(2, 0)]) 2).update_using_threads false
        = some (t, st) ∧ Rect t.grid 3 3 ∧
      (Calib.set_num_threads (calibOf 3 3 [(2, 0)]) 2).numThreads
        * (3 / (Calib.set_num_threads (calibOf 3 3 [(2, 0)]) 2).numThreads) < 3 ∧
      (∀ x y, x < (Calib.set_num_threads (calibOf 3 3 [(2, 0)]) 2).numThreads
          * (3 / (Calib.set_num_threads (calibOf 3 3 [(2, 0)]) 2).numThreads) → y < 3 →
        getCell t.grid x y = some (nextState
          (Calib.set_num_threads (calibOf 3 3 [(2, 0)]) 2).birthRule
          (Calib.set_num_threads (calibOf 3 3 [(2, 0)]) 2).surviveRule
          (Calib.set_num_threads (calibOf 3 3 [(2, 0)]) 2).grid 3 3 x y)) ∧
      (∀ x y, (Calib.set_num_threads (calibOf 3 3 [(2, 0)]) 2).numThreads
          * (3 / (Calib.set_num_threads (calibOf 3 3 [(2, 0)]) 2).numThreads) ≤ x → x < 3 →
        y < 3 → getCell t.grid x y
          = getCell (Calib.set_num_threads (calibOf 3 3 [(2, 0)]) 2).tmpGrid x y) ∧
      ((∀ x y, (Calib.set_num_threads (calibOf 3 3 [(2, 0)]) 2).numThreads
            * (3 / (Calib.set_num_threads (calibOf 3 3 [(2, 0)]) 2).numThreads) ≤ x → x < 3 →
          y < 3 → getCell (Calib.set_num_threads (calibOf 3 3 [(2, 0)]) 2).tmpGrid x y
            = getCell (Calib.set_num_threads (calibOf 3 3 [(2, 0)]) 2).grid x y) →
        ∀ x y, (Calib.set_num_threads (calibOf 3 3 [(2, 0)]) 2).numThreads
            * (3 / (Calib.set_num_threads (calibOf 3 3 [(2, 0)]) 2).numThreads) ≤ x → x < 3 →
          y < 3 → getCell t.grid x y
            = getCell (Calib.set_num_threads (calibOf 3 3 [(2, 0)]) 2).grid x y) :=
  ⟨by decide, by decide,
    threads_trailing_columns (Calib.set_num_threads (calibOf 3 3 [(2, 0)]) 2) 3 3 false
      (by decide) (by decide) (by decide) (by decide) (by decide) (by decide) (by decide)
      (by decide) (by decide) (by decide)⟩

/-! ## One trial of the searcher -/

theorem draw_object_to_grid_eq (ca : Calib) {W H : Nat} (hrect : Rect ca.grid W H)
    (obj : Object) (ox oy : Nat)
    (hobj : ∀ p ∈ obj, (p.1 + ox) % UINT < W ∧ (p.2 + oy) % UINT < H) :
    ∃ g, ca.draw_object_to_grid obj ox oy = some { ca with grid := g } ∧ Rect g W H ∧
      ∀ x y, getCell g x y
        = if ∃ p ∈ obj, (p.1 + ox) % UINT = x ∧ (p.2 + oy) % UINT = y then some true
          else getCell ca.grid x y := by
  have key : ∀ (obj : Object) (g0 : gridType), Rect g0 W H →
      (∀ p ∈ obj, (p.1 + ox) % UINT < W ∧ (p.2 + oy) % UINT < H) →
      ∃ g, obj.foldlM (fun g pos =>
            setCell g ((pos.1 + ox) % UINT) ((pos.2 + oy) % UINT) true) g0 = some g ∧
        Rect g W H ∧
        ∀ x y, getCell g x y
          = if ∃ p ∈ obj, (p.1 + ox) % UINT = x ∧ (p.2 + oy) % UINT = y then some true
            else getCell g0 x y := by
    intro obj
    induction obj with
    | nil => intro g0 h0 _; exact ⟨g0, rfl, h0, by simp⟩
    | cons p rest ih =>
      intro g0 h0 hall
      obtain ⟨h1, h2⟩ := hall p (List.mem_cons_self _ _)
      obtain ⟨g1, hset, hR1, hG1⟩ := setCell_rect h0 h1 h2 true
      obtain ⟨g, hfold, hR, hG⟩ := ih g1 hR1 (fun q hq => hall q (List.mem_cons_of_mem _ hq))
      refine ⟨g, ?_, hR, ?_⟩
      · rw [List.foldlM_cons, hset]
        exact hfold
      · intro x y
        rw [hG x y, hG1 x y]
        by_cases hr : ∃ q ∈ rest, (q.1 + ox) % UINT = x ∧ (q.2 + oy) % UINT = y
        · have : ∃ q ∈ p :: rest, (q.1 + ox) % UINT = x ∧ (q.2 + oy) % UINT = y := by
            obtain ⟨q, hq, h⟩ := hr
            exact ⟨q, List.mem_cons_of_mem _ hq, h⟩
          rw [if_pos hr, if_pos this]
        · rw [if_neg hr]
          by_cases hp : x = (p.1 + ox) % UINT ∧ y = (p.2 + oy) % UINT
          · have : ∃ q ∈ p :: rest, (q.1 + ox) % UINT = x ∧ (q.2 + oy) % UINT = y :=
              ⟨p, List.mem_cons_self _ _, hp.1.symm, hp.2.symm⟩
            rw [if_pos hp, if_pos this]
          · have : ¬ ∃ q ∈ p :: rest, (q.1 + ox) % UINT = x ∧ (q.2 + oy) % UINT = y := by
              rintro ⟨q, hq, h3, h4⟩
              rcases List.mem_cons.1 hq with rfl | hq'
              · exact hp ⟨h3.symm, h4.symm⟩
              · exact hr ⟨q, hq', h3, h4⟩
            rw [if_neg hp, if_neg this]
  obtain ⟨g, hfold, hR, hG⟩ := key obj ca.grid hrect hobj
  refine ⟨g, ?_, hR, hG⟩
  unfold Calib.draw_object_to_grid
  rw [hfold]

theorem add_size_square (c : Calib) (n m : Nat) (hrect : Rect c.grid n n)
    (hm : m * 2 < UINT) :
    Rect (c.add_size_all_sides m).grid (n + 2 * m) (n + 2 * m) := by
  have hmod : (m * 2) % UINT = m * 2 := Nat.mod_eq_of_lt hm
  constructor
  · simp only [Calib.add_size_all_sides, List.length_append, List.length_replicate,
      List.length_map, hrect.1]
    omega
  · intro col hcol
    simp only [Calib.add_size_all_sides, List.mem_append, List.mem_replicate, List.mem_map,
      List.length_map, hrect.1, hmod] at hcol
    rcases hcol with (⟨_, rfl⟩ | ⟨col', hc', rfl⟩) | ⟨_, rfl⟩
    · simp; omega
    · simp [hrect.2 col' hc']; omega
    · simp; omega

theorem grow_if_needed_grid (d : DeathSearcher) (i : Nat) (ca : Calib) :
    (d.grow_if_needed i ca).grid = (d.grow_if_needed i { grid := ca.grid }).grid ∧
    (d.grow_if_needed i ca).birthRule = ca.birthRule ∧
    (d.grow_if_needed i ca).surviveRule = ca.surviveRule := by
  simp only [DeathSearcher.grow_if_needed, Calib.get_width]
  split_ifs
  · exact ⟨rfl, rfl, rfl⟩
  · exact ⟨rfl, rfl, rfl⟩

/-- The side of the square grid after the growth test of pass `i`. -/
theorem grow_if_needed_square (d : DeathSearcher) (i n B : Nat) (ca : Calib)
    (hrect : Rect ca.grid n n) (hn0 : 0 < n) (hi : i + 1 < UINT)
    (hB : n ≤ B ∨ n ≤ d.soupSize + i + 2 * d.sizeDiff) (hBb : B < 65536)
    (hsmall : d.soupSize + 2 * d.sizeDiff < 65536) :
    ∃ n', Rect (d.grow_if_needed i ca).grid n' n' ∧ 0 < n' ∧
      (n' ≤ B ∨ n' ≤ d.soupSize + (i + 1) + 2 * d.sizeDiff) := by
  unfold DeathSearcher.grow_if_needed
  simp only [Calib.get_width, hrect.1]
  split_ifs with hc
  · refine ⟨n + 2 * d.sizeDiff, add_size_square ca n d.sizeDiff hrect (by unfold UINT; omega),
      by omega, ?_⟩
    right
    rw [Nat.mod_eq_of_lt hi] at hc
    unfold ULONG at hc
    unfold UINT at hi
    omega
  · refine ⟨n, hrect, hn0, ?_⟩
    rcases hB with h | h
    · left; exact h
    · right; omega

theorem loopBody_eq (d : DeathSearcher) (i n B : Nat) (ca : Calib)
    (hrect : Rect ca.grid n n) (hn0 : 0 < n) (hi : i + 1 < UINT)
    (hB : n ≤ B ∨ n ≤ d.soupSize + i + 2 * d.sizeDiff) (hBb : B < 65536)
    (hsmall : d.soupSize + (i + 1) + 2 * d.sizeDiff < 65536)
    (hb : 9 ≤ ca.birthRule.length) (hs : 9 ≤ ca.surviveRule.length) :
    ∃ ca' n', d.loopBody i ca = some ca' ∧
      ca'.grid = nextGen ca.birthRule ca.surviveRule
        (d.grow_if_needed i { grid := ca.grid }).grid
        (d.grow_if_needed i { grid := ca.grid }).grid.length
        (d.grow_if_needed i { grid := ca.grid }).grid.length ∧
      Rect ca'.grid n' n' ∧ 0 < n' ∧
      (n' ≤ B ∨ n' ≤ d.soupSize + (i + 1) + 2 * d.sizeDiff) ∧
      ca'.birthRule = ca.birthRule ∧ ca'.surviveRule = ca.surviveRule := by
  obtain ⟨n', hR, hn', hB'⟩ := grow_if_needed_square d i n B ca hrect hn0 hi hB hBb
    (by omega)
  obtain ⟨hg, hbr, hsr⟩ := grow_if_needed_grid d i ca
  have hlt : n' < 2147483648 := by omega
  have hup := update_eq (d.grow_if_needed i ca) hR hn' hlt hlt
    (by rw [hbr]; exact hb) (by rw [hsr]; exact hs) false
  refine ⟨{ (d.grow_if_needed i ca) with
      grid := nextGen (d.grow_if_needed i ca).birthRule (d.grow_if_needed i ca).surviveRule
        (d.grow_if_needed i ca).grid n' n' }, n', ?_, ?_, ?_, hn', hB', ?_, ?_⟩
  · unfold DeathSearcher.loopBody
    rw [hup]
  · simp only
    rw [← hg, hR.1, hbr, hsr]
  · exact nextGen_rect _ _ _ _ _
  · exact hbr
  · exact hsr

/-- The state of a trial after `k` passes of the loop: the grid is `trialGrid k`, a square
whose side stays below the bound, and the rule is the template's. -/
theorem trial_loop (d : DeathSearcher) (ca0 : Calib) (S : Nat)
    (hrect : Rect ca0.grid S S) (hS0 : 0 < S) (hS : S < 65536)
    (hb : 9 ≤ ca0.birthRule.length) (hs : 9 ≤ ca0.surviveRule.length)
    (k : Nat) (hk : d.soupSize + k + 2 * d.sizeDiff < 65536) :
    ∃ ca n, forLoop d.loopBody k 0 ca0 = some ca ∧
      ca.grid = d.trialGrid ca0.birthRule ca0.surviveRule ca0.grid k ∧
      Rect ca.grid n n ∧ 0 < n ∧ (n ≤ S ∨ n ≤ d.soupSize + k + 2 * d.sizeDiff) ∧
      ca.birthRule = ca0.birthRule ∧ ca.surviveRule = ca0.surviveRule := by
  obtain ⟨ca, hrun, hP⟩ := forLoop_inv d.loopBody
    (fun i ca => ca.grid = d.trialGrid ca0.birthRule ca0.surviveRule ca0.grid i ∧
      (∃ n, Rect ca.grid n n ∧ 0 < n ∧ (n ≤ S ∨ n ≤ d.soupSize + i + 2 * d.sizeDiff)) ∧
      ca.birthRule = ca0.birthRule ∧ ca.surviveRule = ca0.surviveRule)
    k 0 ca0
    ⟨rfl, ⟨S, hrect, hS0, Or.inl (le_refl _)⟩, rfl, rfl⟩
    (by
      rintro i ca _ hi ⟨hg, ⟨n, hR, hn0, hB⟩, hbr, hsr⟩
      obtain ⟨ca', n', hbody, hg', hR', hn', hB', hbr', hsr'⟩ :=
        loopBody_eq d i n S ca hR hn0 (by unfold UINT; omega) hB hS (by omega)
          (by rw [hbr]; exact hb) (by rw [hsr]; exact hs)
      refine ⟨ca', hbody, ?_, ⟨n', hR', hn', hB'⟩, hbr'.trans hbr, hsr'.trans hsr⟩
      rw [hg', hg, hbr, hsr]
      rfl)
  obtain ⟨hg, ⟨n, hR, hn0, hB⟩, hbr, hsr⟩ := hP
  rw [Nat.zero_add] at hg hB
  exact ⟨ca, n, hrun, hg, hR, hn0, hB, hbr, hsr⟩

/-- One call of `run_one_search`, taken alone. For `nIters >= 1`, a square template grid and
a soup that is stamped inside it (all sizes small enough that no counter wraps), the call
takes its copy of the template through `nIters - 1` passes of grow-if-needed and next
generation and then one more next generation, `nIters` generation steps in all; it passes
the unevolved soup to `result.push_back` when the grid after the last step has no live cell,
and does not call `push_back` otherwise. -/
theorem run_one_search_on_spec (d : DeathSearcher) (ca : Calib) (soup : Object) (S : Nat)
    (hn1 : 1 ≤ d.nIters) (hrect : Rect ca.grid S S) (hS0 : 0 < S) (hS : S < 65536)
    (hb : 9 ≤ ca.birthRule.length) (hs : 9 ≤ ca.surviveRule.length)
    (hsoup : ∀ p ∈ soup, (p.1 + d.soupOffset) % UINT < S ∧ (p.2 + d.soupOffset) % UINT < S)
    (hbig : d.soupSize + d.nIters + 2 * d.sizeDiff < 65536) :
    ∃ ca0 final, ca.draw_object_to_grid soup d.soupOffset d.soupOffset = some ca0 ∧
      (∃ traj : Nat → gridType, traj 0 = ca0.grid ∧
        (∀ k, k + 1 < d.nIters →
          traj (k + 1) = nextGen ca.birthRule ca.surviveRule
            (d.grow_if_needed k { grid := traj k }).grid
            (d.grow_if_needed k { grid := traj k }).grid.length
            (d.grow_if_needed k { grid := traj k }).grid.length) ∧
        final = nextGen ca.birthRule ca.surviveRule (traj (d.nIters - 1))
          (traj (d.nIters - 1)).length (traj (d.nIters - 1)).length) ∧
      d.run_one_search_on soup ca
        = some (if population final = 0 then [soup] else []) := by
  obtain ⟨g0, hdraw, hR0, _⟩ := draw_object_to_grid_eq ca hrect soup d.soupOffset d.soupOffset
    hsoup
  obtain ⟨caK, n, hloop, hg, hR, hn0, hB, hbr, hsr⟩ := trial_loop d { ca with grid := g0 } S
    hR0 hS0 hS hb hs (d.nIters - 1) (by omega)
  simp only at hg hbr hsr
  have hlt : n < 2147483648 := by omega
  have hup := update_eq caK hR hn0 hlt hlt (by rw [hbr]; exact hb) (by rw [hsr]; exact hs) true
  have hcount : d.passes = d.nIters - 1 := by
    unfold DeathSearcher.passes
    exact if_neg (by omega)
  have hpop : population (nextGen caK.birthRule caK.surviveRule caK.grid n n) % UINT
      = population (nextGen caK.birthRule caK.surviveRule caK.grid n n) := by
    apply Nat.mod_eq_of_lt
    have h1 := population_le (nextGen_rect caK.birthRule caK.surviveRule caK.grid n n)
    have h2 : n * n ≤ 65535 * 65535 := Nat.mul_le_mul (by omega) (by omega)
    unfold UINT
    omega
  refine ⟨{ ca with grid := g0 },
    nextGen ca.birthRule ca.surviveRule caK.grid n n, hdraw,
    ⟨d.trialGrid ca.birthRule ca.surviveRule g0, rfl, fun k _ => rfl, ?_⟩, ?_⟩
  · rw [← hg, hR.1]
  · unfold DeathSearcher.run_one_search_on
    rw [hbr, hsr] at hup hpop
    rw [hdraw]
    simp only []
    rw [hcount, hloop]
    simp only []
    rw [hup]
    simp only [if_true]
    rw [hpop]
    split_ifs <;> rfl

theorem run_one_search_on_spec_small :
    Rect smallSearcher.caTemplate.grid 6 6 ∧
    (∀ p ∈ [((0, 0) : Position)],
      (p.1 + smallSearcher.soupOffset) % UINT < 6 ∧ (p.2 + smallSearcher.soupOffset) % UINT < 6) ∧
    ∃ ca0 final,
      smallSearcher.caTemplate.draw_object_to_grid [(0, 0)] smallSearcher.soupOffset
        smallSearcher.soupOffset = some ca0 ∧
      (∃ traj : Nat → gridType, traj 0 = ca0.grid ∧
        (∀ k, k + 1 < smallSearcher.nIters →
          traj (k + 1) = nextGen smallSearcher.caTemplate.birthRule
            smallSearcher.caTemplate.surviveRule
            (smallSearcher.grow_if_needed k { grid := traj k }).grid
            (smallSearcher.grow_if_needed k { grid := traj k }).grid.length
            (smallSearcher.grow_if_needed k { grid := traj k }).grid.length) ∧
        final = nextGen smallSearcher.caTemplate.birthRule smallSearcher.caTemplate.surviveRule
          (traj (smallSearcher.nIters - 1))
          (traj (smallSearcher.nIters - 1)).length (traj (smallSearcher.nIters - 1)).length) ∧
      smallSearcher.run_one_search_on [(0, 0)] smallSearcher.caTemplate
        = some (if population final = 0 then [[(0, 0)]] else []) :=
  ⟨by decide, by decide,
    run_one_search_on_spec smallSearcher smallSearcher.caTemplate [(0, 0)] 6
      (by decide) (by decide) (by decide) (by decide) (by decide) (by decide) (by decide)
      (by decide)⟩

/-- C17 on batches, as `run_search_batch` calls `run_one_search`. The searcher is
`DeathSearcher("b3/s23", 2, 2, batchSize, "", percent)`. A thread whose soup is the single
cell `(0,0)` has an extinct trial and passes that soup to `result.push_back`. In a batch of
one thread the soup is appended to `result`; so it is in a batch of two threads of which
only the first is extinct (the second has the `2 × 2` block, a still life). In a batch of two
threads that are both extinct, both call `push_back` on the shared `result` with nothing
ordering the calls: a data race, and `result` is not the previous collection with the two
soups appended. The same holds with `percent = 0`, where every soup is empty and every trial
is extinct. -/
theorem batch_push_back_race :
    (DeathSearcher.new "b3/s23".toList 2 2 2 [] 50).bind
        (fun d => d.run_one_search (fun j => if j = 0 then 0 else 99) d.caTemplate)
      = some [[(0, 0)]] ∧
    ((DeathSearcher.new "b3/s23".toList 2 2 1 [] 50).bind
        (fun d => d.run_search_batch (fun _ j => if j = 0 then 0 else 99))).map
        (fun d => d.result)
      = some [[(0, 0)]] ∧
    ((DeathSearcher.new "b3/s23".toList 2 2 2 [] 50).bind
        (fun d => d.run_search_batch
          (fun k j => if k = 0 then (if j = 0 then 0 else 99) else 0))).map
        (fun d => d.result)
      = some [[(0, 0)]] ∧
    (DeathSearcher.new "b3/s23".toList 2 2 2 [] 50).bind
        (fun d => d.run_search_batch (fun _ j => if j = 0 then 0 else 99))
      = none ∧
    (DeathSearcher.new "b3/s23".toList 2 2 2 [] 0).bind
        (fun d => d.run_one_search (fun _ => 0) d.caTemplate)
      = some [[]] ∧
    (DeathSearcher.new "b3/s23".toList 2 2 2 [] 0).bind
        (fun d => d.run_search_batch (fun _ _ => 0))
      = none := by
  decide

/-- C19 at `nIters = 7`, soup side `16`. The constructor makes an `18 × 18` template with
increment `1`. In the second pass of the loop (`i = 1`, one step already taken) the growth
test `2 > 18 - 16` fails, so the step is taken on the `18 × 18` grid, narrower than the
`16 + 2·1 + 2 = 20` the soup's reach needs; only the third pass grows the grid. -/
theorem growth_lags_behind_reach :
    ((DeathSearcher.new "b3/s23".toList 7 16 400 [] 50).bind (fun d =>
        (d.caTemplate.draw_object_to_grid [] d.soupOffset d.soupOffset).bind (fun ca0 =>
          (d.loopBody 0 ca0).map (fun ca1 =>
            (d.sizeDiff, (d.grow_if_needed 1 ca1).get_width, d.soupSize + 2 * 1 + 2)))))
      = some (1, 18, 20) ∧
    ((DeathSearcher.new "b3/s23".toList 7 16 400 [] 50).bind (fun d =>
        (d.caTemplate.draw_object_to_grid [] d.soupOffset d.soupOffset).bind (fun ca0 =>
          (forLoop d.loopBody 2 0 ca0).map (fun ca2 =>
            ((d.grow_if_needed 2 ca2).get_width, d.soupSize + 2 * 2 + 2)))))
      = some (20, 22) := by
  decide

/-! ## Runs of at most six iterations -/

theorem setBit_length (r r' : ruleType) (i : Nat) (h : setBit r i = some r') :
    r'.length = r.length := by
  unfold setBit at h
  split at h
  · rw [← Option.some.inj h, List.length_set]
  · exact absurd h (by simp)

theorem parseLoop_length : ∀ (s : List Char) (prev : Option Char) (st : ParserState)
    (B S : ruleType) (r : ruleType × ruleType), parseLoop s prev st B S = some r →
    r.1.length = B.length ∧ r.2.length = S.length := by
  intro s
  induction s with
  | nil =>
    intro prev st B S r h
    simp only [parseLoop] at h
    rw [← Option.some.inj h]
    exact ⟨rfl, rfl⟩
  | cons chr rest ih =>
    intro prev st B S r h
    simp only [parseLoop] at h
    by_cases h1 : chr = 'B' ∨ chr = 'b'
    · rw [if_pos h1] at h
      exact ih _ _ _ _ _ h
    · rw [if_neg h1] at h
      by_cases h2 : chr = 'S' ∨ chr = 's'
      · rw [if_pos h2] at h
        cases prev with
        | none => exact ih _ _ _ _ _ h
        | some p =>
          simp only at h
          by_cases h3 : p ≠ '/'
          · rw [if_pos h3] at h; exact ih _ _ _ _ _ h
          · rw [if_neg h3] at h; exact ih _ _ _ _ _ h
      · rw [if_neg h2] at h
        cases st with
        | inactive => exact ih _ _ _ _ _ h
        | birth =>
          simp only at h
          by_cases hd : is_digit chr = true
          · rw [if_pos hd] at h
            cases hb : setBit B (chr.toNat - '0'.toNat) with
            | none => rw [hb] at h; exact absurd h (by simp)
            | some b =>
              rw [hb] at h
              have := ih _ _ _ _ _ h
              rw [setBit_length B b _ hb] at this
              exact this
          · rw [if_neg hd] at h; exact ih _ _ _ _ _ h
        | survive =>
          simp only at h
          by_cases hd : is_digit chr = true
          · rw [if_pos hd] at h
            cases hb : setBit S (chr.toNat - '0'.toNat) with
            | none => rw [hb] at h; exact absurd h (by simp)
            | some b =>
              rw [hb] at h
              have := ih _ _ _ _ _ h
              rw [setBit_length S b _ hb] at this
              exact this
          · rw [if_neg hd] at h; exact ih _ _ _ _ _ h

theorem rulestring_to_rule_length (s : List Char) (r : ruleType × ruleType)
    (h : rulestring_to_rule s = some r) : r.1.length = 9 ∧ r.2.length = 9 := by
  have := parseLoop_length s none ParserState.inactive _ _ r h
  simpa using this

theorem unitOffsets_moore : UnitOffsets mooreOffsets := by
  intro d hd
  exact unitOffsets_neighborhood d ((mem_neighborhood_iff d).2 hd)

/-- A cell outside the box of the live cells widened by one stays dead when no cell is born
without a live neighbour. -/
theorem nextState_outside (bR sR : ruleType) (g : gridType) (W H lo hi a b : Nat)
    (hb0 : bR.getD 0 false = false)
    (hbox : ∀ u v, getCell g u v = some true → lo ≤ u ∧ u < hi ∧ lo ≤ v ∧ v < hi)
    (hlo : 1 ≤ lo) (hW : hi + 1 ≤ W) (hH : hi + 1 ≤ H) (ha : a < W) (hb : b < H)
    (hout : ¬ (lo - 1 ≤ a ∧ a < hi + 1 ∧ lo - 1 ≤ b ∧ b < hi + 1)) :
    nextState bR sR g W H a b = false := by
  have hdead : ¬ getCell g a b = some true := by
    intro h
    have := hbox a b h
    omega
  have hcount : mooreCount g W H a b true = 0 := by
    unfold mooreCount
    rw [List.countP_eq_zero]
    intro d hd
    simp only [beq_iff_eq]
    intro hl
    have hbx := hbox _ _ hl
    obtain ⟨hd1, hd2⟩ := unitOffsets_moore d hd
    obtain ⟨hxm, hxp⟩ := wrapCoord_cases W a ha
    obtain ⟨hym, hyp⟩ := wrapCoord_cases H b hb
    have hx0 := wrapCoord_zero W a ha
    have hy0 := wrapCoord_zero H b hb
    rcases hd1 with h1 | h1 | h1 <;> rcases hd2 with h2 | h2 | h2 <;>
      rw [h1, h2] at hbx <;> omega
  unfold nextState
  rw [if_neg hdead, hcount, hb0]

theorem get_random_soup_mem (d : DeathSearcher) (draw : Nat → Nat) (p : Nat × Nat)
    (hp : p ∈ d.get_random_soup draw) : p.1 < d.soupSize ∧ p.2 < d.soupSize := by
  unfold DeathSearcher.get_random_soup at hp
  simp only [List.mem_flatMap, List.mem_filterMap, List.mem_range] at hp
  obtain ⟨y, hy, x, hx, h⟩ := hp
  split_ifs at h
  cases h
  exact ⟨hx, hy⟩

/-- One pass of the loop of `run_one_search` on a grid of side `s + 2 * n`, under any rule:
the growth test fails and the pass leaves a grid of the same side. When the rule has no birth
on `0` neighbours and the live cells lie in the soup square widened by `i`, the live cells of
the next grid lie in the square widened by `i + 1`. -/
theorem loopBody_small (d : DeathSearcher) (n s i : Nat) (ca : Calib)
    (hd : d.soupSize = s) (hn6 : n ≤ 6) (hs : s < 65536) (hi : i + 1 < n)
    (hbl : 9 ≤ ca.birthRule.length) (hsl : 9 ≤ ca.surviveRule.length)
    (hrect : Rect ca.grid (s + 2 * n) (s + 2 * n))
    (hbox : ca.birthRule.getD 0 false = false → ∀ u v, getCell ca.grid u v = some true →
      n - i ≤ u ∧ u < n + s + i ∧ n - i ≤ v ∧ v < n + s + i) :
    ¬ ((i + 1) % UINT > (ca.get_width + ULONG - d.soupSize) % ULONG) ∧
    ∃ ca', d.loopBody i ca = some ca' ∧
      ca'.birthRule = ca.birthRule ∧ ca'.surviveRule = ca.surviveRule ∧
      Rect ca'.grid (s + 2 * n) (s + 2 * n) ∧
      (ca.birthRule.getD 0 false = false → ∀ u v, getCell ca'.grid u v = some true →
        n - (i + 1) ≤ u ∧ u < n + s + (i + 1) ∧ n - (i + 1) ≤ v ∧ v < n + s + (i + 1)) := by
  have hcond : ¬ ((i + 1) % UINT > (ca.get_width + ULONG - d.soupSize) % ULONG) := by
    simp only [Calib.get_width, hrect.1, hd, UINT, ULONG]
    omega
  have hgrow : d.grow_if_needed i ca = ca := by
    unfold DeathSearcher.grow_if_needed
    exact if_neg hcond
  have hup := update_eq ca hrect (by omega) (by omega) (by omega) hbl hsl false
  generalize hW : s + 2 * n = W at hrect hup
  refine ⟨hcond, { ca with grid := nextGen ca.birthRule ca.surviveRule ca.grid W W },
    ?_, rfl, rfl, nextGen_rect _ _ _ _ _, ?_⟩
  · unfold DeathSearcher.loopBody
    rw [hgrow, hup]
  · intro hb0 u v huv
    obtain ⟨hu, hv⟩ := getCell_some_lt (nextGen_rect _ _ _ _ _) huv
    simp only at huv
    rw [getCell_nextGen _ _ _ _ _ hu hv] at huv
    by_contra hout
    have := nextState_outside ca.birthRule ca.surviveRule ca.grid W W
      (n - i) (n + s + i) u v hb0 (hbox hb0) (by omega) (by omega) (by omega) hu hv
      (by omega)
    rw [this] at huv
    exact absurd huv (by simp)

/-- Claim C20, amended in its confinement part only. For every rule, every `nIters` with
`1 <= nIters <= 6` and every soup side, the constructor builds a template of side
`soupSize + 2 * nIters` and `run_one_search` stamps the soup at offset `nIters`; in every
pass of its loop the growth test fails, so `add_size_all_sides` is never called, and the grid
keeps its side; the soup square widened by `t < nIters` on each side,
`[nIters - t, nIters + soupSize + t)` on both axes, lies inside the grid; the final counting
step runs and leaves a grid of the same side. For a rule whose birth set excludes `0`, after
`t < nIters` passes every live cell lies in the soup square widened by `t`. -/
theorem small_runs_need_no_growth (ruleString : List Char) (rule : ruleType × ruleType)
    (nIters soupSize batchSize : Nat) (filename : List Char) (percent : Nat)
    (draw : Nat → Nat)
    (hrule : rulestring_to_rule ruleString = some rule)
    (hn1 : 1 ≤ nIters) (hn6 : nIters ≤ 6) (hs : soupSize < 65536) :
    ∃ d ca0, DeathSearcher.new ruleString nIters soupSize batchSize filename percent = some d ∧
      d.initialGridSize = soupSize + 2 * nIters ∧ d.soupOffset = nIters ∧
      d.caTemplate.draw_object_to_grid (d.get_random_soup draw) d.soupOffset d.soupOffset
        = some ca0 ∧
      (∀ t, t < nIters → ∃ ca, forLoop d.loopBody t 0 ca0 = some ca ∧
        ca.get_width = d.initialGridSize ∧
        ¬ ((t + 1) % UINT > (ca.get_width + ULONG - d.soupSize) % ULONG) ∧
        d.grow_if_needed t ca = ca ∧
        nIters + soupSize + t < d.initialGridSize ∧
        (rule.1.getD 0 false = false → ∀ u v, getCell ca.grid u v = some true →
          nIters - t ≤ u ∧ u < nIters + soupSize + t ∧
          nIters - t ≤ v ∧ v < nIters + soupSize + t)) ∧
      ∃ ca fin pop, forLoop d.loopBody d.passes 0 ca0 = some ca ∧
        ca.update true = some (fin, pop) ∧ fin.get_width = d.initialGridSize ∧
        ∀ u v, getCell fin.grid u v = some true →
          u < nIters + soupSize + nIters ∧ v < nIters + soupSize + nIters := by
  have hsz : (DeathSearcher.sizeGrid { nIters := nIters, soupSize := soupSize }).initialGridSize
      = soupSize + 2 * nIters := by
    rw [sizeGrid_small _ hn6]
    simp only [UINT]
    omega
  obtain ⟨d, hnew, hdn, hds, _, hdi, _, hbr, hsr, hR, hG⟩ :=
    new_spec ruleString rule nIters soupSize batchSize filename percent hrule
      (by rw [hsz]; omega)
  rw [hsz] at hdi
  rw [hdi] at hR hG
  obtain ⟨hbl, hsl⟩ := rulestring_to_rule_length ruleString rule hrule
  have hoff : d.soupOffset = nIters := by
    unfold DeathSearcher.soupOffset
    rw [hdi, hds]
    simp only [UINT]
    omega
  have hmem := get_random_soup_mem d draw
  rw [hds] at hmem
  have hmod : ∀ p ∈ d.get_random_soup draw,
      (p.1 + nIters) % UINT = p.1 + nIters ∧ (p.2 + nIters) % UINT = p.2 + nIters := by
    intro p hp
    have := hmem p hp
    simp only [UINT]
    omega
  obtain ⟨g, hdraw, hRg, hGg⟩ := draw_object_to_grid_eq d.caTemplate hR
    (d.get_random_soup draw) nIters nIters (by
      intro p hp
      have := hmem p hp
      have := hmod p hp
      omega)
  have hbase : ∀ u v, getCell g u v = some true →
      nIters - 0 ≤ u ∧ u < nIters + soupSize + 0 ∧
      nIters - 0 ≤ v ∧ v < nIters + soupSize + 0 := by
    intro u v huv
    obtain ⟨hu, hv⟩ := getCell_some_lt hRg huv
    rw [hGg u v] at huv
    split_ifs at huv with hex
    · obtain ⟨p, hp, h1, h2⟩ := hex
      have := hmem p hp
      have := hmod p hp
      omega
    · rw [hG u v hu hv] at huv
      exact absurd huv (by simp)
  have hloop : ∀ t, t < nIters → ∃ ca, forLoop d.loopBody t 0 { d.caTemplate with grid := g }
        = some ca ∧
      ca.birthRule = rule.1 ∧ ca.surviveRule = rule.2 ∧
      Rect ca.grid (soupSize + 2 * nIters) (soupSize + 2 * nIters) ∧
      (rule.1.getD 0 false = false → ∀ u v, getCell ca.grid u v = some true →
        nIters - t ≤ u ∧ u < nIters + soupSize + t ∧
        nIters - t ≤ v ∧ v < nIters + soupSize + t) := by
    intro t ht
    obtain ⟨ca, hrun, hP⟩ := forLoop_inv d.loopBody
      (fun i ca => ca.birthRule = rule.1 ∧ ca.surviveRule = rule.2 ∧
        Rect ca.grid (soupSize + 2 * nIters) (soupSize + 2 * nIters) ∧
        (rule.1.getD 0 false = false → ∀ u v, getCell ca.grid u v = some true →
          nIters - i ≤ u ∧ u < nIters + soupSize + i ∧
          nIters - i ≤ v ∧ v < nIters + soupSize + i))
      t 0 { d.caTemplate with grid := g } ⟨hbr, hsr, hRg, fun _ => hbase⟩
      (by
        intro i ca _ hi ⟨h1, h2, h3, h4⟩
        obtain ⟨_, ca', hb, hb1, hb2, hb3, hb4⟩ := loopBody_small d nIters soupSize i ca hds
          hn6 hs (by omega) (by rw [h1]; omega) (by rw [h2]; omega)
          h3 (by rw [h1]; exact h4)
        exact ⟨ca', hb, by rw [hb1, h1], by rw [hb2, h2], hb3, by rw [h1] at hb4; exact hb4⟩)
    rw [Nat.zero_add] at hP
    exact ⟨ca, hrun, hP⟩
  refine ⟨d, { d.caTemplate with grid := g }, hnew, hdi, hoff, ?_, ?_, ?_⟩
  · rw [hoff]; exact hdraw
  · intro t ht
    obtain ⟨ca, hrun, _, _, h3, h4⟩ := hloop t ht
    have hcond : ¬ ((t + 1) % UINT > (ca.get_width + ULONG - d.soupSize) % ULONG) := by
      simp only [Calib.get_width, h3.1, hds, UINT, ULONG]
      omega
    refine ⟨ca, hrun, ?_, hcond, ?_, ?_, h4⟩
    · rw [hdi]; exact h3.1
    · unfold DeathSearcher.grow_if_needed
      exact if_neg hcond
    · rw [hdi]; omega
  · have hp : d.passes = nIters - 1 := by
      unfold DeathSearcher.passes
      rw [hdn]
      exact if_neg (by omega)
    obtain ⟨ca, hrun, h1, h2, h3, _⟩ := hloop (nIters - 1) (by omega)
    have hup := update_eq ca h3 (by omega) (by omega) (by omega)
      (by rw [h1]; omega) (by rw [h2]; omega) true
    refine ⟨ca, _, _, by rw [hp]; exact hrun, hup, ?_, ?_⟩
    · rw [hdi]
      exact (nextGen_rect _ _ _ _ _).1
    · intro u v huv
      have := getCell_some_lt (nextGen_rect _ _ _ _ _) huv
      omega

theorem small_runs_need_no_growth_witness :
    rulestring_to_rule "B0/S".toList
      = some ([true, false, false, false, false, false, false, false, false],
          List.replicate 9 false) ∧
    1 ≤ 2 ∧ 2 ≤ 6 ∧ 2 < 65536 ∧
    ∃ d ca0, DeathSearcher.new "B0/S".toList 2 2 1 [] 50 = some d ∧
      d.initialGridSize = 2 + 2 * 2 ∧ d.soupOffset = 2 ∧
      d.caTemplate.draw_object_to_grid (d.get_random_soup (fun _ => 0)) d.soupOffset
        d.soupOffset = some ca0 ∧
      (∀ t, t < 2 → ∃ ca, forLoop d.loopBody t 0 ca0 = some ca ∧
        ca.get_width = d.initialGridSize ∧
        ¬ ((t + 1) % UINT > (ca.get_width + ULONG - d.soupSize) % ULONG) ∧
        d.grow_if_needed t ca = ca ∧
        2 + 2 + t < d.initialGridSize ∧
        (([true, false, false, false, false, false, false, false, false],
            List.replicate 9 false).1.getD 0 false = false →
          ∀ u v, getCell ca.grid u v = some true →
            2 - t ≤ u ∧ u < 2 + 2 + t ∧ 2 - t ≤ v ∧ v < 2 + 2 + t)) ∧
      ∃ ca fin pop, forLoop d.loopBody d.passes 0 ca0 = some ca ∧
        ca.update true = some (fin, pop) ∧ fin.get_width = d.initialGridSize ∧
        ∀ u v, getCell fin.grid u v = some true → u < 2 + 2 + 2 ∧ v < 2 + 2 + 2 :=
  ⟨by decide, by decide, by decide, by decide,
    small_runs_need_no_growth "B0/S".toList
      ([true, false, false, false, false, false, false, false, false],
        List.replicate 9 false) 2 2 1 [] 50 (fun _ => 0)
      (by decide) (by decide) (by decide) (by decide)⟩

/-- C20 under a rule that births on `0` neighbours: `DeathSearcher("B0/S", 2, 2, 1, "", 50)`
with an empty soup has soup square `[2, 4)` in a grid of side `6`; after one pass of the loop
of `run_one_search` the corner cell `(0, 0)` is alive, outside the square widened by one,
`[1, 5)`. -/
theorem birth_on_zero_leaves_square :
    (DeathSearcher.new "B0/S".toList 2 2 1 [] 50).map
        (fun d => (d.nIters, d.soupSize, d.soupOffset, d.initialGridSize))
      = some (2, 2, 2, 6) ∧
    (DeathSearcher.new "B0/S".toList 2 2 1 [] 50).map
        (fun d => d.get_random_soup (fun _ => 100))
      = some [] ∧
    (DeathSearcher.new "B0/S".toList 2 2 1 [] 50).bind
        (fun d => (d.caTemplate.draw_object_to_grid (d.get_random_soup (fun _ => 100))
            d.soupOffset d.soupOffset).bind
          (fun ca0 => (forLoop d.loopBody 1 0 ca0).bind (fun ca => getCell ca.grid 0 0)))
      = some true ∧
    ¬ (2 - 1 ≤ 0) := by
  decide

/-! ## The stamp offset of a trial -/

/-- C21 at a soup side larger than the template. `DeathSearcher("b3/s23", 30, 32, 400, "", 50)`
has a template of side `22`, so `soupOffset = 22/2 - 32/2` wraps to `2^32 - 5`, and
`draw_object_to_grid` of a generated soup writes out of range: the first cell `(0,0)` of a
full soup goes to column `2^32 - 5`. At soup side `23` nothing wraps, the offset is `0`, and
the soup's last column `22` is out of range. -/
theorem soup_offset_underflow :
    (DeathSearcher.new "b3/s23".toList 30 32 400 [] 50).map
        (fun d => (d.soupSize, d.initialGridSize, d.soupOffset))
      = some (32, 22, 4294967291) ∧
    (DeathSearcher.new "b3/s23".toList 30 32 400 [] 50).map
        (fun d => (d.get_random_soup (fun _ => 0)).head?)
      = some (some (0, 0)) ∧
    (DeathSearcher.new "b3/s23".toList 30 32 400 [] 50).bind
        (fun d => d.caTemplate.draw_object_to_grid (d.get_random_soup (fun _ => 0))
          d.soupOffset d.soupOffset)
      = none ∧
    (DeathSearcher.new "b3/s23".toList 30 23 400 [] 50).map
        (fun d => (d.soupSize, d.initialGridSize, d.soupOffset))
      = some (23, 22, 0) ∧
    (DeathSearcher.new "b3/s23".toList 30 23 400 [] 50).bind
        (fun d => d.caTemplate.draw_object_to_grid (d.get_random_soup (fun _ => 0))
          d.soupOffset d.soupOffset)
      = none := by
  decide

/-! ## The guard of the survive marker -/

/-- The loop of `rulestring_to_rule` at an `S` or `s`: survive mode when the character before
it is `/`, the mode as it was otherwise. -/
theorem parseLoop_marker (chr : Char) (rest : List Char) (prev : Option Char)
    (state : ParserState) (B S : ruleType) (hchr : chr = 'S' ∨ chr = 's') :
    parseLoop (chr :: rest) prev state B S
      = parseLoop rest (some chr) (if prev = some '/' then ParserState.survive else state)
          B S := by
  have hB : ¬ (chr = 'B' ∨ chr = 'b') := by
    rcases hchr with h | h <;> rw [h] <;> decide
  simp only [parseLoop]
  rw [if_neg hB, if_pos hchr]
  cases prev with
  | none => simp
  | some p =>
    by_cases hp : p = '/'
    · simp [hp]
    · simp [hp]

/-- In inactive mode a text with no `B`, no `b` and no `S` or `s` right after a `/` leaves
both sets as they are. -/
theorem parseLoop_inactive : ∀ (rest : List Char) (prev : Option Char) (B S : ruleType),
    (∀ c ∈ rest, c ≠ 'B' ∧ c ≠ 'b') →
    (prev = some '/' → ∀ c, rest.head? = some c → c ≠ 'S' ∧ c ≠ 's') →
    ¬ List.IsInfix ['/', 'S'] rest → ¬ List.IsInfix ['/', 's'] rest →
    parseLoop rest prev ParserState.inactive B S = some (B, S) := by
  intro rest
  induction rest with
  | nil => intro prev B S _ _ _ _; rfl
  | cons chr rest ih =>
    intro prev B S hB hprev h1 h2
    have hB' : ¬ (chr = 'B' ∨ chr = 'b') := by
      have := hB chr (List.mem_cons_self _ _)
      tauto
    have hrec : parseLoop rest (some chr) ParserState.inactive B S = some (B, S) := by
      apply ih
      · exact fun c hc => hB c (List.mem_cons_of_mem _ hc)
      · intro hc c hhead
        have hchr : chr = '/' := (Option.some.inj hc)
        cases rest with
        | nil => simp at hhead
        | cons d rest' =>
          simp only [List.head?_cons, Option.some.injEq] at hhead
          subst hhead
          subst hchr
          constructor
          · rintro rfl
            exact h1 (List.IsPrefix.isInfix ⟨rest', rfl⟩)
          · rintro rfl
            exact h2 (List.IsPrefix.isInfix ⟨rest', rfl⟩)
      · exact fun h => h1 (List.IsInfix.trans h (List.infix_cons List.infix_rfl))
      · exact fun h => h2 (List.IsInfix.trans h (List.infix_cons List.infix_rfl))
    by_cases hS : chr = 'S' ∨ chr = 's'
    · rw [parseLoop_marker chr rest prev _ B S hS]
      have hne : prev ≠ some '/' := by
        intro hp
        have := hprev hp chr (by simp)
        tauto
      rw [if_neg hne]
      exact hrec
    · simp only [parseLoop]
      rw [if_neg hB', if_neg hS]
      exact hrec

/-- Claim C22. In the loop of `rulestring_to_rule`, at an `S` or `s`: when the character
before it is `/` the loop goes on in survive mode; when it is the first character or follows
any other character the loop goes on in the mode it was in, with both sets as they were, so
the digits after it go where they went before. A text with no `B`, no `b`, no `/S` and no
`/s` parses to nine `false` birth bits and nine `false` survive bits. In `b3s23` the digits
`2` and `3` after the unguarded `s` are birth digits; in `s23` they are ignored. -/
theorem survive_marker_guard (chr : Char) (rest : List Char) (prev : Option Char)
    (state : ParserState) (B S : ruleType) (str : List Char)
    (hchr : chr = 'S' ∨ chr = 's') :
    (prev = some '/' → parseLoop (chr :: rest) prev state B S
      = parseLoop rest (some chr) ParserState.survive B S) ∧
    (prev ≠ some '/' → parseLoop (chr :: rest) prev state B S
      = parseLoop rest (some chr) state B S) ∧
    rulestring_to_rule (chr :: rest) = parseLoop rest (some chr) ParserState.inactive
      (List.replicate 9 false) (List.replicate 9 false) ∧
    ((∀ c ∈ str, c ≠ 'B' ∧ c ≠ 'b') → ¬ List.IsInfix ['/', 'S'] str →
      ¬ List.IsInfix ['/', 's'] str →
      rulestring_to_rule str = some (List.replicate 9 false, List.replicate 9 false)) ∧
    rulestring_to_rule "b3s23".toList
      = some ([false, false, true, true, false, false, false, false, false],
          List.replicate 9 false) ∧
    rulestring_to_rule "s23".toList
      = some (List.replicate 9 false, List.replicate 9 false) := by
  refine ⟨?_, ?_, ?_, ?_, by decide, by decide⟩
  · intro hp
    rw [parseLoop_marker chr rest prev state B S hchr, if_pos hp]
  · intro hp
    rw [parseLoop_marker chr rest prev state B S hchr, if_neg hp]
  · unfold rulestring_to_rule
    rw [parseLoop_marker chr rest none _ _ _ hchr, if_neg (by simp)]
  · intro hB h1 h2
    exact parseLoop_inactive str none _ _ hB (by simp) h1 h2

theorem survive_marker_guard_witness :
    (('s' : Char) = 'S' ∨ ('s' : Char) = 's') ∧
    ((some 'B' = some '/' → parseLoop ('s' :: "23".toList) (some 'B') ParserState.birth
        (List.replicate 9 false) (List.replicate 9 false)
      = parseLoop "23".toList (some 's') ParserState.survive
        (List.replicate 9 false) (List.replicate 9 false)) ∧
    (some 'B' ≠ some '/' → parseLoop ('s' :: "23".toList) (some 'B') ParserState.birth
        (List.replicate 9 false) (List.replicate 9 false)
      = parseLoop "23".toList (some 's') ParserState.birth
        (List.replicate 9 false) (List.replicate 9 false)) ∧
    rulestring_to_rule ('s' :: "23".toList) = parseLoop "23".toList (some 's')
      ParserState.inactive (List.replicate 9 false) (List.replicate 9 false) ∧
    ((∀ c ∈ "x/23 S".toList, c ≠ 'B' ∧ c ≠ 'b') → ¬ List.IsInfix ['/', 'S'] "x/23 S".toList →
      ¬ List.IsInfix ['/', 's'] "x/23 S".toList →
      rulestring_to_rule "x/23 S".toList
        = some (List.replicate 9 false, List.replicate 9 false)) ∧
    rulestring_to_rule "b3s23".toList
      = some ([false, false, true, true, false, false, false, false, false],
          List.replicate 9 false) ∧
    rulestring_to_rule "s23".toList
      = some (List.replicate 9 false, List.replicate 9 false)) :=
  ⟨by decide, survive_marker_guard 's' "23".toList (some 'B') ParserState.birth
    (List.replicate 9 false) (List.replicate 9 false) "x/23 S".toList (by decide)⟩

/-! ## The sectioned step against the double-buffered step -/

theorem population_nextGen (bR sR : ruleType) (g : gridType) (W H : Nat) :
    population (nextGen bR sR g W H) = sweepSum bR sR g W H 0 W := by
  rw [population_of_cells (nextGen_rect bR sR g W H) (fun x y => nextState bR sR g W H x y)
    (fun x y hx hy => getCell_nextGen bR sR g W H hx hy)]
  unfold sweepSum
  rw [Nat.zero_add]

/-- Claim C23. On a rectangular `W × H` grid, with any scratch buffer `tmp` of the same
dimensions, `numThreads >= 1` dividing `W` and a rule whose sets have at least 9 entries
(dimensions that fit an `int`), `update_using_threads(doSum)` and `update(doSum)` started
from the same grid both return, leave the same grid and return the same value; the rule and
the thread count are left as they were by both. -/
theorem update_using_threads_refines_update (c : Calib) (tmp : gridType) (W H : Nat)
    (doSum : Bool)
    (hsrc : Rect c.grid W H) (htmp : Rect tmp W H) (hW0 : 0 < W)
    (hW : W < 2147483648) (hH : H < 2147483648)
    (hb : 9 ≤ c.birthRule.length) (hs : 9 ≤ c.surviveRule.length)
    (hn : 1 ≤ c.numThreads) (hdiv : c.numThreads ∣ W) :
    ∃ t u v, Calib.update_using_threads { c with tmpGrid := tmp } doSum = some (t, v) ∧
      c.update doSum = some (u, v) ∧ t.grid = u.grid ∧
      t.birthRule = u.birthRule ∧ t.surviveRule = u.surviveRule ∧
      t.numThreads = u.numThreads := by
  obtain ⟨tmp', ht, hRt, hGt⟩ := update_using_threads_eq { c with tmpGrid := tmp }
    hsrc htmp hW0 hW hH hb hs hn doSum
  have hu := update_eq c hsrc hW0 hW hH hb hs doSum
  have hmul : c.numThreads * (W / c.numThreads) = W := Nat.mul_div_cancel' hdiv
  simp only [hmul] at ht hGt
  have hg : tmp' = nextGen c.birthRule c.surviveRule c.grid W H := by
    apply grid_ext hRt (nextGen_rect _ _ _ _ _)
    intro x y hx hy
    rw [hGt x y, getCell_nextGen _ _ _ _ _ hx hy]
    simp only [hx, hy, and_self, if_true]
  rw [population_nextGen] at hu
  exact ⟨_, _, _, ht, hu, hg, rfl, rfl, rfl⟩

theorem update_using_threads_refines_update_witness :
    Rect (Calib.set_num_threads (calibOf 4 4 [(1, 1), (2, 1), (1, 2)]) 2).grid 4 4 ∧
    Rect (gridOf 4 4 [(0, 0), (3, 3)]) 4 4 ∧
    (Calib.set_num_threads (calibOf 4 4 [(1, 1), (2, 1), (1, 2)]) 2).numThreads ∣ 4 ∧
    ∃ t u v, Calib.update_using_threads
        { (Calib.set_num_threads (calibOf 4 4 [(1, 1), (2, 1), (1, 2)]) 2) with
          tmpGrid := gridOf 4 4 [(0, 0), (3, 3)] } true = some (t, v) ∧
      (Calib.set_num_threads (calibOf 4 4 [(1, 1), (2, 1), (1, 2)]) 2).update true
        = some (u, v) ∧ t.grid = u.grid ∧
      t.birthRule = u.birthRule ∧ t.surviveRule = u.surviveRule ∧
      t.numThreads = u.numThreads :=
  ⟨by decide, by decide, by decide,
    update_using_threads_refines_update
      (Calib.set_num_threads (calibOf 4 4 [(1, 1), (2, 1), (1, 2)]) 2)
      (gridOf 4 4 [(0, 0), (3, 3)]) 4 4 true
      (by decide) (by decide) (by decide) (by decide) (by decide) (by decide) (by decide)
      (by decide) (by decide)⟩

/-! ## Object extraction from any seed -/

theorem modulo_some_lt (a : Int) (b : Nat) (hb : 0 < b) :
    ∃ r, modulo a b = some r ∧ r < b := by
  have hb0 : b ≠ 0 := by omega
  unfold modulo
  rw [if_neg hb0]
  by_cases ha : a > 0
  · rw [if_pos ha]; exact ⟨_, rfl, Nat.mod_lt _ hb⟩
  · rw [if_neg ha]; exact ⟨_, rfl, Nat.mod_lt _ hb⟩

theorem positionsLoop_bounds {g : gridType} {W H : Nat} (h : Rect g W H)
    (hW0 : 0 < W) (hH0 : 0 < H) (hW : W < 2147483648) (hH : H < 2147483648) (x y : Nat)
    (offs : List (Int × Int)) (acc : List Position) :
    ∃ ns, positionsLoop g x y offs acc = some (acc ++ ns) ∧ ∀ q ∈ ns, q.1 < W ∧ q.2 < H := by
  have hWU : W % UINT = W := Nat.mod_eq_of_lt (by unfold UINT; omega)
  have hHU : H % UINT = H := Nat.mod_eq_of_lt (by unfold UINT; omega)
  induction offs generalizing acc with
  | nil => exact ⟨[], by simp [positionsLoop], by simp⟩
  | cons d rest ih =>
    obtain ⟨col0, hc0, hl0⟩ := h.col hW0
    obtain ⟨nx, hnx, hnxlt⟩ := modulo_some_lt (toInt x + d.1) W hW0
    obtain ⟨ny, hny, hnylt⟩ := modulo_some_lt (toInt y + d.2) H hH0
    obtain ⟨ns, hrun, hns⟩ := ih (acc ++ [(nx, ny)])
    refine ⟨(nx, ny) :: ns, ?_, ?_⟩
    · rw [positionsLoop, h.1, hWU, hnx, hc0]
      simp only [hl0, hHU, hny]
      rw [hrun]
      simp
    · intro q hq
      rcases List.mem_cons.1 hq with rfl | hq'
      · exact ⟨hnxlt, hnylt⟩
      · exact hns q hq'

/-- A list without repeats of in-bounds live cells is no longer than the population. -/
theorem live_list_length_le {g : gridType} {W H : Nat} (h : Rect g W H) (l : List Position)
    (hnd : l.Nodup) (hl : ∀ p ∈ l, p.1 < W ∧ p.2 < H ∧ getCell g p.1 p.2 = some true) :
    l.length ≤ population g := by
  have hsub : l.toFinset ⊆ (Finset.range W ×ˢ Finset.range H).filter
      (fun p => getCell g p.1 p.2 = some true) := by
    intro p hp
    obtain ⟨h1, h2, h3⟩ := hl p (List.mem_toFinset.1 hp)
    simp [Finset.mem_filter, Finset.mem_product, h1, h2, h3]
  have hcard := Finset.card_le_card hsub
  rw [List.toFinset_card_of_nodup hnd, Finset.card_filter, Finset.sum_product] at hcard
  rw [population_eq_sum h]
  exact hcard

theorem seedFirst_length_le {g : gridType} {W H : Nat} {seed : Position} {out : Object}
    (hrect : Rect g W H) (h : SeedFirst g W H seed out) : out.length ≤ population g + 1 := by
  obtain ⟨tail, rfl, hnd, hl⟩ := h
  have := live_list_length_le hrect tail (List.nodup_cons.1 hnd).2 hl
  rw [List.length_cons]
  omega

theorem seedFirst_step (c : Calib) {W H : Nat} (hrect : Rect c.grid W H)
    (hW0 : 0 < W) (hH0 : 0 < H) (hW : W < 2147483648) (hH : H < 2147483648)
    {seed : Position} {i : Nat} {out : Object}
    (hF : SeedFirst c.grid W H seed out) (hi : i < out.length) :
    ∃ cellPos neighbors out', out[i]? = some cellPos ∧
      c.get_neighbor_positions cellPos.1 cellPos.2 = some neighbors ∧
      visitNeighbors c.grid neighbors out = some out' ∧
      SeedFirst c.grid W H seed out' ∧ out.length ≤ out'.length := by
  obtain ⟨tail, hout, hnd, hl⟩ := hF
  obtain ⟨ns, hnb, hns⟩ := positionsLoop_bounds hrect hW0 hH0 hW hH (out[i]).1 (out[i]).2
    neighborhood []
  rw [List.nil_append] at hnb
  obtain ⟨extra, hv, he1, he2, _⟩ := visitNeighbors_spec hrect ns out hns
  refine ⟨out[i], ns, out ++ extra, List.getElem?_eq_getElem hi, hnb, hv,
    ⟨tail ++ extra, by rw [hout]; rfl, ?_, ?_⟩, by rw [List.length_append]; omega⟩
  · rw [List.nodup_append]
    exact ⟨hnd, he2, fun a ha hb => (he1 a hb).2.2 ha⟩
  · intro p hp
    rcases List.mem_append.1 hp with h1 | h1
    · exact hl p h1
    · obtain ⟨hpn, hlive, _⟩ := he1 p h1
      exact ⟨(hns p hpn).1, (hns p hpn).2, hlive⟩

theorem objectLoop_seedFirst (c : Calib) {W H : Nat} (hrect : Rect c.grid W H)
    (hW0 : 0 < W) (hH0 : 0 < H) (hW : W < 2147483648) (hH : H < 2147483648)
    {seed : Position} :
    ∀ (fuel i : Nat) (out : Object), SeedFirst c.grid W H seed out → i ≤ out.length →
      population c.grid + 2 ≤ fuel + i →
      ∃ out', objectLoop c fuel i out = some out' ∧ SeedFirst c.grid W H seed out' := by
  intro fuel
  induction fuel with
  | zero =>
    intro i out hF hi hfuel
    have h1 := seedFirst_length_le hrect hF
    omega
  | succ fuel ih =>
    intro i out hF hi hfuel
    by_cases hlt : i < out.length
    · obtain ⟨cellPos, neighbors, out', h1, h2, h3, hF', hlen⟩ :=
        seedFirst_step c hrect hW0 hH0 hW hH hF hlt
      obtain ⟨res, hres, hFres⟩ := ih (i + 1) out' hF' (by omega) (by omega)
      refine ⟨res, ?_, hFres⟩
      rw [objectLoop]
      simp only [hlt, if_true, h1, h2, h3]
      exact hres
    · refine ⟨out, ?_, hF⟩
      rw [objectLoop]; simp only [hlt, if_false]

/-- More fuel does not change what the frontier loop returns. -/
theorem objectLoop_fuel_mono (c : Calib) :
    ∀ (fuel i : Nat) (out r : Object), objectLoop c fuel i out = some r →
      ∀ k, objectLoop c (fuel + k) i out = some r := by
  intro fuel
  induction fuel with
  | zero => intro i out r h; simp [objectLoop] at h
  | succ fuel ih =>
    intro i out r h k
    have hk : fuel + 1 + k = (fuel + k) + 1 := by omega
    rw [hk]
    rw [objectLoop] at h ⊢
    by_cases hlt : i < out.length
    · simp only [hlt, if_true] at h ⊢
      cases h1 : out[i]? with
      | none => rw [h1] at h; simp at h
      | some cellPos =>
        rw [h1] at h
        simp only at h ⊢
        cases h2 : c.get_neighbor_positions cellPos.1 cellPos.2 with
        | none => rw [h2] at h; simp at h
        | some ns =>
          rw [h2] at h
          simp only at h ⊢
          cases h3 : visitNeighbors c.grid ns out with
          | none => rw [h3] at h; simp at h
          | some out' =>
            rw [h3] at h
            simp only at h ⊢
            exact ih _ _ _ h k
    · simp only [hlt, if_false] at h ⊢
      exact h

theorem seedFirst_init (g : gridType) (W H x y : Nat) : SeedFirst g W H (x, y) [(x, y)] :=
  ⟨[], rfl, by simp, by simp⟩

/-- Claim C24. On a rectangular `W × H` grid with `W, H > 0` (dimensions that fit an `int`)
and any seed `(x,y)`, alive or dead, in the grid or not (coordinates below `2^31 - 1`, so that
`int(x) + 1` is an `int`), `get_object_cells(x,y)` returns a list whose first element is
`(x,y)`, whose other elements are in-bounds live cells, and in which no position occurs
twice. Any fuel of at least `W·H + 2` is enough. -/
theorem get_object_cells_seed_first (c : Calib) (W H x y fuel : Nat)
    (hrect : Rect c.grid W H) (hW0 : 0 < W) (hH0 : 0 < H)
    (hW : W < 2147483648) (hH : H < 2147483648)
    (_hx : x < 2147483647) (_hy : y < 2147483647) (hfuel : W * H + 2 ≤ fuel) :
    ∃ out, c.get_object_cells fuel x y = some out ∧ out.head? = some (x, y) ∧
      (∀ p ∈ out.tail, p.1 < W ∧ p.2 < H ∧ getCell c.grid p.1 p.2 = some true) ∧
      out.Nodup := by
  have hpop := population_le hrect
  obtain ⟨out, hrun, tail, hout, hnd, hl⟩ := objectLoop_seedFirst c hrect hW0 hH0 hW hH
    fuel 0 [(x, y)] (seedFirst_init c.grid W H x y) (Nat.zero_le _) (by omega)
  refine ⟨out, hrun, ?_, ?_, hnd⟩
  · rw [hout]; rfl
  · rw [hout]; exact hl

theorem get_object_cells_seed_first_witness :
    Rect (calibOf 3 3 [(1, 1), (2, 2)]).grid 3 3 ∧
    getCell (calibOf 3 3 [(1, 1), (2, 2)]).grid 0 1 = some false ∧
    ∃ out, (calibOf 3 3 [(1, 1), (2, 2)]).get_object_cells 11 0 1 = some out ∧
      out.head? = some (0, 1) ∧
      (∀ p ∈ out.tail, p.1 < 3 ∧ p.2 < 3 ∧
        getCell (calibOf 3 3 [(1, 1), (2, 2)]).grid p.1 p.2 = some true) ∧
      out.Nodup :=
  ⟨by decide, by decide,
    get_object_cells_seed_first (calibOf 3 3 [(1, 1), (2, 2)]) 3 3 0 1 11
      (by decide) (by decide) (by decide) (by decide) (by decide) (by decide) (by decide)
      (by decide)⟩

/-- Claim C25. On a rectangular `W × H` grid with `W, H > 0` (dimensions that fit an `int`)
and any seed (coordinates below `2^31 - 1`), the frontier loop of `get_object_cells`
finishes: there is one list that it returns on every fuel of at least the number of live
cells plus `2`; that list has at most the number of live cells plus `1` elements, hence at
most `W·H + 1`. -/
theorem get_object_cells_terminates (c : Calib) (W H x y : Nat)
    (hrect : Rect c.grid W H) (hW0 : 0 < W) (hH0 : 0 < H)
    (hW : W < 2147483648) (hH : H < 2147483648)
    (_hx : x < 2147483647) (_hy : y < 2147483647) :
    ∃ out, (∀ fuel, population c.grid + 2 ≤ fuel → c.get_object_cells fuel x y = some out) ∧
      out.length ≤ population c.grid + 1 ∧ population c.grid + 1 ≤ W * H + 1 := by
  have hpop := population_le hrect
  obtain ⟨out, hrun, hF⟩ := objectLoop_seedFirst c hrect hW0 hH0 hW hH
    (population c.grid + 2) 0 [(x, y)] (seedFirst_init c.grid W H x y) (Nat.zero_le _)
    (by omega)
  refine ⟨out, ?_, seedFirst_length_le hrect hF, by omega⟩
  intro fuel hfuel
  have := objectLoop_fuel_mono c _ 0 [(x, y)] out hrun (fuel - (population c.grid + 2))
  unfold Calib.get_object_cells
  rw [← this]
  congr 1
  omega

theorem get_object_cells_terminates_witness :
    Rect (calibOf 3 3 [(1, 1), (2, 2)]).grid 3 3 ∧
    ∃ out, (∀ fuel, population (calibOf 3 3 [(1, 1), (2, 2)]).grid + 2 ≤ fuel →
        (calibOf 3 3 [(1, 1), (2, 2)]).get_object_cells fuel 0 1 = some out) ∧
      out.length ≤ population (calibOf 3 3 [(1, 1), (2, 2)]).grid + 1 ∧
      population (calibOf 3 3 [(1, 1), (2, 2)]).grid + 1 ≤ 3 * 3 + 1 :=
  ⟨by decide,
    get_object_cells_terminates (calibOf 3 3 [(1, 1), (2, 2)]) 3 3 0 1
      (by decide) (by decide) (by decide) (by decide) (by decide) (by decide) (by decide)⟩

end calib
